import Mathlib

/-!
Verification of the chickensoftware/os core runtime against its specification.

This development shallowly embeds the memory subsystems (physical frame
allocator, page-table manager, virtual region allocator) and the task
scheduler of the kernel, translated from the Rust sources:
  chicken-util/src/memory/paging/mod.rs, manager.rs, index.rs
  chicken-util/src/memory/pmm/mod.rs, bit_map.rs
  chicken-kernel/src/memory/vmm/mod.rs, object.rs
  chicken-kernel/src/scheduling/mod.rs, task/process.rs, task/thread.rs

Machine integers (u64/usize) are modelled as `Nat`; bitwise masking with the
contiguous masks used by the code is expressed through the standard
identities `x &&& (2^k - 1) = x % 2^k` and `x &&& !(2^k - 1) = x / 2^k * 2^k`
(for values below 2^64), and bit tests through division, so that proofs can
use arithmetic reasoning.  Fallible code returns `Except`/`Option`; Rust
panics, failed assertions and undefined behaviour (dereferencing freed or
null pointers) are modelled as `Option.none` at the outermost level.
Linked structures on the heap are modelled by association lists from node
ids to node records, so that stale-pointer behaviour of the source is
observable in the model.
-/

namespace ChickenOS

/-- Page size in bytes (chicken-util/src/lib.rs: `PAGE_SIZE`). -/
def PAGE_SIZE : Nat := 4096

/-- chicken-kernel/src/memory/mod.rs: `align_up`, which computes
`(number + align - 1) & !(align - 1)` on `u64`: the addition wraps at
`2^64`, and for the power-of-two alignments used by the kernel the mask
truncates the wrapped sum down to a multiple of `align`, which is the
expression below.  In particular a `number` within `align - 1` of `2^64`
(such as `usize::MAX` with page alignment) rounds to `0`. -/
def alignUp (number align : Nat) : Nat :=
  (number + align - 1) % 2 ^ 64 / align * align

/-! ## Page entries (chicken-util/src/memory/paging/mod.rs)

A `PageEntry` is a `u64`, modelled as a `Nat` below `2^64`.  The address mask
`0x000f_ffff_ffff_f000` selects bits 12..51, i.e. `e % 2^52 / 2^12 * 2^12`;
the flag mask `0xfff` selects bits 0..11, i.e. `e % 2^12`. -/

/-- PageEntry::address: `self.0 & 0x000f_ffff_ffff_f000`. -/
def entryAddress (e : Nat) : Nat := e % 2 ^ 52 / 2 ^ 12 * 2 ^ 12

/-- PageEntry::flags: `self.0 & 0xfff` (only the lower 12 bits). -/
def entryFlags (e : Nat) : Nat := e % 2 ^ 12

/-- PageEntry::set_address: `self.0 = (self.0 & 0xfff) | (address & 0x000f_ffff_ffff_f000)`.
The two operands of `|` have disjoint bits, so the or is a sum. -/
def setAddress (e a : Nat) : Nat := e % 2 ^ 12 + a % 2 ^ 52 / 2 ^ 12 * 2 ^ 12

/-- PageEntry::set_flags: `self.0 = (self.0 & !0xfff) | (flags.bits() & 0xfff)`
("only use lower 12 bits").  The operands have disjoint bits. -/
def setFlags (e f : Nat) : Nat := e / 2 ^ 12 * 2 ^ 12 + f % 2 ^ 12

/-- Test for a single-bit flag `2^k` in a flag word: `f & (1 << k) != 0`. -/
def hasBit (f k : Nat) : Bool := f / 2 ^ k % 2 = 1

/-- PageEntryFlags::PRESENT (bit 0). -/
def PRESENT : Nat := 1
/-- PageEntryFlags::READ_WRITE (bit 1). -/
def READ_WRITE : Nat := 2
/-- PageEntryFlags::USER_SUPER (bit 2). -/
def USER_SUPER : Nat := 4
/-- PageEntryFlags::EXECUTE_DISABLE (bit 63). -/
def EXECUTE_DISABLE : Nat := 2 ^ 63

/-! ## Virtual-memory-object flags (chicken-kernel/src/memory/vmm/object.rs) -/

/-- VmFlags bitflags: WRITE (1<<0), EXECUTABLE (1<<1), USER (1<<2), MMIO (1<<3),
modelled as one Bool per bit. -/
structure VmFlags where
  write : Bool
  executable : Bool
  user : Bool
  mmio : Bool
deriving DecidableEq, Repr

/-- Conversion `From<VmFlags> for PageEntryFlags`: starts from PRESENT, adds
READ_WRITE when WRITE is set, EXECUTE_DISABLE when EXECUTABLE is NOT set, and
USER_SUPER when USER is set.  All summands are distinct bits, so the bitflag
unions are sums. -/
def pageEntryFlagsOfVmFlags (v : VmFlags) : Nat :=
  PRESENT
    + (if v.write then READ_WRITE else 0)
    + (if !v.executable then EXECUTE_DISABLE else 0)
    + (if v.user then USER_SUPER else 0)

/-- The leaf entry installed by PageTableManager::map_memory for physical
address `p` and requested flags `f`, starting from previous entry contents
`e`: `page_entry.set_address(physical_memory); page_entry.set_flags(flags)`. -/
def installLeaf (e p f : Nat) : Nat := setFlags (setAddress e p) f

theorem setAddress_lt (e a : Nat) : setAddress e a < 2 ^ 52 := by
  have h1 : e % 2 ^ 12 < 2 ^ 12 := Nat.mod_lt _ (by norm_num)
  have h2 : a % 2 ^ 52 / 2 ^ 12 * 2 ^ 12 ≤ a % 2 ^ 52 / 2 ^ 12 * 2 ^ 12 := le_refl _
  have h3 : a % 2 ^ 52 < 2 ^ 52 := Nat.mod_lt _ (by norm_num)
  have h4 : a % 2 ^ 52 / 2 ^ 12 * 2 ^ 12 ≤ a % 2 ^ 52 := Nat.div_mul_le_self _ _
  unfold setAddress
  omega

theorem installLeaf_lt (e p f : Nat) : installLeaf e p f < 2 ^ 52 + 2 ^ 12 := by
  have h1 := setAddress_lt e p
  have h2 : f % 2 ^ 12 < 2 ^ 12 := Nat.mod_lt _ (by norm_num)
  have h3 : setAddress e p / 2 ^ 12 * 2 ^ 12 ≤ setAddress e p := Nat.div_mul_le_self _ _
  unfold installLeaf setFlags
  omega

/-- C10: The low-12-bit mask in `PageEntry::set_flags` silently drops the
EXECUTE_DISABLE bit (bit 63).  For every `VmFlags` value without EXECUTABLE,
the converted `PageEntryFlags` word requests EXECUTE_DISABLE, yet the leaf
entry installed by `map_memory` (set_address followed by set_flags) does not
carry bit 63, and `flags()` (the low 12 bits) never reports it. -/
theorem entry_execute_disable_dropped (e p : Nat) (v : VmFlags)
    (hx : v.executable = false) :
    hasBit (pageEntryFlagsOfVmFlags v) 63 = true
      ∧ hasBit (installLeaf e p (pageEntryFlagsOfVmFlags v)) 63 = false
      ∧ ∀ f : Nat, hasBit (entryFlags (installLeaf e p f)) 63 = false := by
  refine ⟨?_, ?_, ?_⟩
  · unfold pageEntryFlagsOfVmFlags hasBit PRESENT READ_WRITE USER_SUPER EXECUTE_DISABLE
    rw [hx]
    simp only [Bool.not_false, if_true]
    rcases v.write <;> rcases v.user <;> decide
  · have h := installLeaf_lt e p (pageEntryFlagsOfVmFlags v)
    unfold hasBit
    have : installLeaf e p (pageEntryFlagsOfVmFlags v) / 2 ^ 63 = 0 := by
      apply Nat.div_eq_of_lt
      calc installLeaf e p (pageEntryFlagsOfVmFlags v) < 2 ^ 52 + 2 ^ 12 := h
        _ < 2 ^ 63 := by norm_num
    rw [this]
    decide
  · intro f
    unfold hasBit entryFlags
    have h : installLeaf e p f % 2 ^ 12 < 2 ^ 12 := Nat.mod_lt _ (by norm_num)
    have : installLeaf e p f % 2 ^ 12 / 2 ^ 63 = 0 := by
      apply Nat.div_eq_of_lt
      calc installLeaf e p f % 2 ^ 12 < 2 ^ 12 := h
        _ < 2 ^ 63 := by norm_num
    rw [this]
    decide

/-- Witness for `entry_execute_disable_dropped` at a concrete non-executable
writable flag set and a concrete pre-existing entry. -/
theorem entry_execute_disable_dropped_witness :
    hasBit (pageEntryFlagsOfVmFlags ⟨true, false, false, false⟩) 63 = true
      ∧ hasBit (installLeaf 0 0x7000 (pageEntryFlagsOfVmFlags ⟨true, false, false, false⟩)) 63
          = false
      ∧ ∀ f : Nat, hasBit (entryFlags (installLeaf 0 0x7000 f)) 63 = false :=
  entry_execute_disable_dropped 0 0x7000 ⟨true, false, false, false⟩ rfl

/-! ## Boot memory map (chicken-util/src/memory/mod.rs) -/

/-- MemoryType of a boot memory descriptor. -/
inductive MemoryType where
  | available
  | reserved
  | kernelCode
  | kernelStack
  | kernelData
deriving DecidableEq, Repr

/-- MemoryDescriptor: `{ phys_start, phys_end, num_pages, type }`. -/
structure MemoryDescriptor where
  physStart : Nat
  physEnd : Nat
  numPages : Nat
  type : MemoryType
deriving DecidableEq, Repr

/-- MemoryDescriptor::size: `phys_end - phys_start` (bytes). -/
def MemoryDescriptor.size (d : MemoryDescriptor) : Nat := d.physEnd - d.physStart

/-- MemoryMap: descriptor slice plus the last valid physical address. -/
structure MemoryMap where
  descriptors : List MemoryDescriptor
  lastAddr : Nat
deriving DecidableEq, Repr

/-! ## Bitmap (chicken-util/src/memory/pmm/bit_map.rs)

The buffer `&mut [u8]` is modelled as its length plus a byte-valued function;
only indices below `bufLen` are ever read or written. -/

structure BitMap where
  bufLen : Nat
  buf : Nat → Nat

/-- Errors of the page frame allocator (chicken-util/src/memory/pmm/mod.rs). -/
inductive PageFrameAllocatorError where
  | invalidBitMapIndex
  | invalidMemoryMap
  | noMoreFreePages
deriving DecidableEq, Repr

/-- BitMap::get: bit at `index`; `bit_indexer = 0b1000_0000 >> (index % 8)`,
so the tested bit of the byte is bit `7 - index % 8`, read here through
division (`byte & (1 << k) != 0` iff `byte / 2^k % 2 = 1`). -/
def BitMap.get (bm : BitMap) (index : Nat) : Except PageFrameAllocatorError Bool :=
  if index / 8 ≥ bm.bufLen then .error .invalidBitMapIndex
  else .ok (bm.buf (index / 8) / 2 ^ (7 - index % 8) % 2 = 1)

/-- BitMap::set: clears bit `7 - index % 8` of the byte
(`buffer[i] &= !bit_indexer`), then sets it if `value`
(`buffer[i] |= bit_indexer`).  Clearing a bit of `b` subtracts
`b / 2^k % 2 * 2^k`; or-ing the bit into the cleared byte adds `2^k`. -/
def BitMap.set (bm : BitMap) (index : Nat) (value : Bool) :
    Except PageFrameAllocatorError BitMap :=
  if index / 8 ≥ bm.bufLen then .error .invalidBitMapIndex
  else
    let k := 7 - index % 8
    let b := bm.buf (index / 8)
    let cleared := b - b / 2 ^ k % 2 * 2 ^ k
    let b' := if value then cleared + 2 ^ k else cleared
    .ok ⟨bm.bufLen, Function.update bm.buf (index / 8) b'⟩

/-- BitMap::pages: `(size_of::<BitMap>() + PAGE_SIZE - 1) / PAGE_SIZE`.
`size_of::<BitMap>()` is the size of the `BitMap` struct itself — a fat
pointer `&mut [u8]`, 16 bytes on the x86-64 target — not the length of the
buffer, so this is the constant 1.  (Modelled faithfully from the source.) -/
def BitMap.pages (_bm : BitMap) : Nat := (16 + PAGE_SIZE - 1) / PAGE_SIZE

/-! ## Page frame allocator (chicken-util/src/memory/pmm/mod.rs)

The `u64` byte counters wrap on overflow in release builds; `w64sub`/`w64add`
model the wrapping arithmetic explicitly. -/

def w64add (a b : Nat) : Nat := (a + b) % 2 ^ 64

def w64sub (a b : Nat) : Nat := (a + 2 ^ 64 - b % 2 ^ 64) % 2 ^ 64

structure PageFrameAllocator where
  memoryMap : MemoryMap
  bitMap : BitMap
  currentDescriptorIndex : Nat
  currentAddress : Nat
  freeMemory : Nat
  usedMemory : Nat
  reservedMemory : Nat

/-- PageFrameAllocator::allocate_frame: no-op if the bit is already set,
otherwise sets it and moves PAGE_SIZE bytes from free to used. -/
def allocateFrame (s : PageFrameAllocator) (address : Nat) :
    Except PageFrameAllocatorError PageFrameAllocator :=
  let index := address / PAGE_SIZE
  match s.bitMap.get index with
  | .error e => .error e
  | .ok true => .ok s
  | .ok false =>
    match s.bitMap.set index true with
    | .error e => .error e
    | .ok bm => .ok { s with
        bitMap := bm
        freeMemory := w64sub s.freeMemory PAGE_SIZE
        usedMemory := w64add s.usedMemory PAGE_SIZE }

/-- PageFrameAllocator::free_frame: no-op if the bit is already clear,
otherwise clears it and moves PAGE_SIZE bytes from used to free. -/
def freeFrame (s : PageFrameAllocator) (address : Nat) :
    Except PageFrameAllocatorError PageFrameAllocator :=
  let index := address / PAGE_SIZE
  match s.bitMap.get index with
  | .error e => .error e
  | .ok false => .ok s
  | .ok true =>
    match s.bitMap.set index false with
    | .error e => .error e
    | .ok bm => .ok { s with
        bitMap := bm
        freeMemory := w64add s.freeMemory PAGE_SIZE
        usedMemory := w64sub s.usedMemory PAGE_SIZE }

/-- PageFrameAllocator::reserve_frame: no-op if the bit is already set,
otherwise sets it and moves PAGE_SIZE bytes from free to reserved. -/
def reserveFrame (s : PageFrameAllocator) (address : Nat) :
    Except PageFrameAllocatorError PageFrameAllocator :=
  let index := address / PAGE_SIZE
  match s.bitMap.get index with
  | .error e => .error e
  | .ok true => .ok s
  | .ok false =>
    match s.bitMap.set index true with
    | .error e => .error e
    | .ok bm => .ok { s with
        bitMap := bm
        freeMemory := w64sub s.freeMemory PAGE_SIZE
        reservedMemory := w64add s.reservedMemory PAGE_SIZE }

/-- PageFrameAllocator::reserve_frames:
`for i in 0..page_count { reserve_frame(start + i*PAGE_SIZE)? }`. -/
def reserveFrames (s : PageFrameAllocator) (start count : Nat) :
    Except PageFrameAllocatorError PageFrameAllocator :=
  match count with
  | 0 => .ok s
  | n + 1 =>
    match reserveFrame s start with
    | .error e => .error e
    | .ok s' => reserveFrames s' (start + PAGE_SIZE) n

/-- The `max_by(size)` over Available descriptors used by `try_new`.
Rust's `Iterator::max_by` returns the LAST of equally-maximal elements, i.e.
the fold replaces the candidate whenever its size is ≤ the new element's. -/
def largestAvailable (descs : List MemoryDescriptor) : Option MemoryDescriptor :=
  descs.foldl
    (fun acc d =>
      if d.type = .available then
        match acc with
        | none => some d
        | some m => if m.size ≤ d.size then some d else some m
      else acc)
    none

/-- total_available_memory: sum of the sizes of Available descriptors. -/
def totalAvailableMemory (m : MemoryMap) : Nat :=
  ((m.descriptors.filter (fun d => d.type = .available)).map MemoryDescriptor.size).sum

/-- PageFrameAllocator::try_new: places the (zero-filled) bitmap of
`(total_pages + 7) / 8` bytes at the start of the largest Available region,
reserves `bit_map.pages()` frames for it, then reserves every frame of every
non-Available descriptor. -/
def tryNew (memoryMap : MemoryMap) :
    Except PageFrameAllocatorError PageFrameAllocator :=
  match largestAvailable memoryMap.descriptors with
  | none => .error .invalidMemoryMap
  | some largest =>
    let totalPages := (memoryMap.lastAddr + PAGE_SIZE - 1) / PAGE_SIZE
    let bitMapSize := (totalPages + 7) / 8
    let bitMap : BitMap := ⟨bitMapSize, fun _ => 0⟩
    let inst : PageFrameAllocator :=
      { memoryMap := memoryMap
        bitMap := bitMap
        currentDescriptorIndex := 0
        currentAddress := 0
        freeMemory := totalAvailableMemory memoryMap
        usedMemory := 0
        reservedMemory := 0 }
    match reserveFrames inst largest.physStart (bitMap.pages) with
    | .error e => .error e
    | .ok inst1 =>
      (memoryMap.descriptors.filter (fun d => ¬ d.type = .available)).foldlM
        (fun acc d => reserveFrames acc d.physStart d.numPages) inst1

/-- Inner loop of request_page over one Available descriptor:
`for addr in (current_address.max(phys_start)..phys_end).step_by(PAGE_SIZE)`.
Returns the allocated address (after `allocate_frame`), `none` when the
range is exhausted, or propagates a bitmap error (the `?` in the source). -/
def innerScanGo (s : PageFrameAllocator) (addr : Nat) :
    Nat → Except PageFrameAllocatorError (Option (Nat × PageFrameAllocator))
  | 0 => .ok none
  | n + 1 =>
    match s.bitMap.get (addr / PAGE_SIZE) with
    | .error e => .error e
    | .ok true => innerScanGo s (addr + PAGE_SIZE) n
    | .ok false =>
      match allocateFrame s addr with
      | .error e => .error e
      | .ok s' => .ok (some (addr, s'))

def innerScan (s : PageFrameAllocator) (addr endA : Nat) :
    Except PageFrameAllocatorError (Option (Nat × PageFrameAllocator)) :=
  innerScanGo s addr ((endA - addr + PAGE_SIZE - 1) / PAGE_SIZE)

/-- Outer loop of request_page:
`for desc_index in current_descriptor_index..descriptors.len()`.  After every
descriptor that does not return, `current_address = desc.phys_start` (this
assignment sits after the Available check in the source, so it runs for
non-Available descriptors too).  On success the scan position is saved; when
the loop ends, the position is reset to the beginning and the call fails with
NoMoreFreePages ("start from the beginning next time" — no wrap-around
within the same call). -/
def outerScanGo (s : PageFrameAllocator) (descIndex : Nat) :
    Nat → Except PageFrameAllocatorError Nat × PageFrameAllocator
  | 0 =>
    (.error .noMoreFreePages,
      { s with currentDescriptorIndex := 0, currentAddress := 0 })
  | n + 1 =>
    match s.memoryMap.descriptors[descIndex]? with
    | none =>
      (.error .noMoreFreePages,
        { s with currentDescriptorIndex := 0, currentAddress := 0 })
    | some desc =>
      if desc.type = .available then
        match innerScan s (Nat.max s.currentAddress desc.physStart) desc.physEnd with
        | .error e => (.error e, s)
        | .ok (some (addr, s')) =>
          (.ok addr,
            { s' with
                currentDescriptorIndex := descIndex
                currentAddress := addr + PAGE_SIZE })
        | .ok none =>
          outerScanGo { s with currentAddress := desc.physStart } (descIndex + 1) n
      else outerScanGo { s with currentAddress := desc.physStart } (descIndex + 1) n

def outerScan (s : PageFrameAllocator) (descIndex : Nat) :
    Except PageFrameAllocatorError Nat × PageFrameAllocator :=
  outerScanGo s descIndex (s.memoryMap.descriptors.length - descIndex)

/-- PageFrameAllocator::request_page. -/
def requestPage (s : PageFrameAllocator) :
    Except PageFrameAllocatorError Nat × PageFrameAllocator :=
  outerScan s s.currentDescriptorIndex

/-! ### Concrete executions of the frame allocator -/

instance {ε α : Type} [DecidableEq ε] [DecidableEq α] : DecidableEq (Except ε α) :=
  fun x y =>
    match x, y with
    | .error a, .error b =>
      if h : a = b then .isTrue (congrArg Except.error h)
      else .isFalse (fun hc => h (Except.error.inj hc))
    | .ok a, .ok b =>
      if h : a = b then .isTrue (congrArg Except.ok h)
      else .isFalse (fun hc => h (Except.ok.inj hc))
    | .error _, .ok _ => .isFalse (fun hc => Except.noConfusion hc)
    | .ok _, .error _ => .isFalse (fun hc => Except.noConfusion hc)

/-- One Available region of two page frames. -/
def c3Map : MemoryMap := ⟨[⟨0, 8192, 2, .available⟩], 8192⟩

/-- Trace: construct the allocator (its one-byte bitmap occupies frame 0),
request the only other frame (4096), free it again, call request_page twice.
Records: the first allocated address, the error of the third step's request,
the bitmap bit of the freed frame at that moment, and the outcome of the
following request. -/
def c3Trace :
    Option (Nat × PageFrameAllocatorError × Except PageFrameAllocatorError Bool
      × Except PageFrameAllocatorError Nat) :=
  match tryNew c3Map with
  | .error _ => none
  | .ok s0 =>
    match requestPage s0 with
    | (.ok a1, s1) =>
      match freeFrame s1 a1 with
      | .error _ => none
      | .ok s2 =>
        match requestPage s2 with
        | (.error e, s3) => some (a1, e, s3.bitMap.get (a1 / PAGE_SIZE), (requestPage s3).fst)
        | (.ok _, _) => none
    | (.error _, _) => none

/-- C3 counterexample: after allocating frame 4096 (scan position now 8192)
and freeing it again, the very next request_page returns NoMoreFreePages even
though frame 4096 is Free inside the tracked Available region — the scan does
not wrap around within the same call (the freed lower frame is only found by
the following call, which succeeds). -/
theorem requestPage_no_wrap_counterexample :
    c3Trace = some (4096, .noMoreFreePages, .ok false, .ok 4096) := by decide

/-! ### Behaviour of request_page in general (claim C3)

The lemmas below characterise the scan: a successful call returns a frame
whose bit was clear and is set afterwards; a failing call has scanned to the
END of the descriptor list without wrapping, resets the scan position, and —
for a well-formed memory map — the immediately following call finds any Free
frame that exists. -/

theorem bitToggle_get (b k : Nat) (hk : k ≤ 7) (v : Bool) :
    decide ((if v then b - b / 2 ^ k % 2 * 2 ^ k + 2 ^ k
        else b - b / 2 ^ k % 2 * 2 ^ k) / 2 ^ k % 2 = 1) = v := by
  interval_cases k <;> rcases v <;> simp <;> omega

theorem BitMap.set_ok (bm : BitMap) (i : Nat) (v : Bool) (h : i / 8 < bm.bufLen) :
    ∃ bm', bm.set i v = .ok bm' ∧ bm'.bufLen = bm.bufLen ∧ bm'.get i = .ok v := by
  refine ⟨⟨bm.bufLen, Function.update bm.buf (i / 8)
    (if v then bm.buf (i / 8) - bm.buf (i / 8) / 2 ^ (7 - i % 8) % 2 * 2 ^ (7 - i % 8)
        + 2 ^ (7 - i % 8)
      else bm.buf (i / 8) - bm.buf (i / 8) / 2 ^ (7 - i % 8) % 2 * 2 ^ (7 - i % 8))⟩,
    ?_, rfl, ?_⟩
  · unfold BitMap.set
    rw [if_neg (by omega)]
  · unfold BitMap.get
    rw [if_neg (by dsimp only; omega)]
    simp only [Function.update_same]
    exact congrArg Except.ok (bitToggle_get _ _ (by omega) v)

theorem BitMap.get_error (bm : BitMap) (i : Nat) (e : PageFrameAllocatorError)
    (h : bm.get i = .error e) : e = .invalidBitMapIndex := by
  unfold BitMap.get at h
  by_cases hc : i / 8 ≥ bm.bufLen
  · rw [if_pos hc] at h
    exact (Except.error.inj h).symm
  · rw [if_neg hc] at h
    exact absurd h (by simp)

theorem BitMap.set_error (bm : BitMap) (i : Nat) (v : Bool) (e : PageFrameAllocatorError)
    (h : bm.set i v = .error e) : e = .invalidBitMapIndex := by
  unfold BitMap.set at h
  by_cases hc : i / 8 ≥ bm.bufLen
  · rw [if_pos hc] at h
    exact (Except.error.inj h).symm
  · rw [if_neg hc] at h
    exact absurd h (by simp)

theorem allocateFrame_of_free (s : PageFrameAllocator) (addr : Nat)
    (h : s.bitMap.get (addr / PAGE_SIZE) = .ok false) :
    ∃ t, allocateFrame s addr = .ok t
      ∧ t.bitMap.get (addr / PAGE_SIZE) = .ok true
      ∧ t.bitMap.bufLen = s.bitMap.bufLen
      ∧ t.memoryMap = s.memoryMap
      ∧ t.currentDescriptorIndex = s.currentDescriptorIndex
      ∧ t.currentAddress = s.currentAddress := by
  have hvalid : addr / PAGE_SIZE / 8 < s.bitMap.bufLen := by
    unfold BitMap.get at h
    by_cases hc : addr / PAGE_SIZE / 8 ≥ s.bitMap.bufLen
    · rw [if_pos hc] at h
      exact absurd h (by simp)
    · omega
  obtain ⟨bm', hset, hlen, hget⟩ := BitMap.set_ok s.bitMap (addr / PAGE_SIZE) true hvalid
  refine ⟨{ s with
      bitMap := bm'
      freeMemory := w64sub s.freeMemory PAGE_SIZE
      usedMemory := w64add s.usedMemory PAGE_SIZE }, ?_, hget, hlen, rfl, rfl, rfl⟩
  unfold allocateFrame
  simp only [h, hset]

theorem allocateFrame_error (s : PageFrameAllocator) (addr : Nat)
    (e : PageFrameAllocatorError) (h : allocateFrame s addr = .error e) :
    e = .invalidBitMapIndex := by
  unfold allocateFrame at h
  rcases hg : s.bitMap.get (addr / PAGE_SIZE) with e' | b
  · simp only [hg] at h
    obtain rfl : e' = e := Except.error.inj h
    exact BitMap.get_error _ _ _ hg
  · simp only [hg] at h
    rcases b with _ | _
    · rcases hs : s.bitMap.set (addr / PAGE_SIZE) true with e' | bm'
      · simp only [hs] at h
        obtain rfl : e' = e := Except.error.inj h
        exact BitMap.set_error _ _ _ _ hs
      · simp only [hs] at h
        exact absurd h (by simp)
    · exact absurd h (by simp)

theorem innerScanGo_ok (s : PageFrameAllocator) (n : Nat) :
    ∀ addr a t, innerScanGo s addr n = .ok (some (a, t)) →
      s.bitMap.get (a / PAGE_SIZE) = .ok false
        ∧ t.bitMap.get (a / PAGE_SIZE) = .ok true
        ∧ t.memoryMap = s.memoryMap
        ∧ t.bitMap.bufLen = s.bitMap.bufLen := by
  induction n with
  | zero => intro addr a t h; exact absurd h (by simp [innerScanGo])
  | succ m ih =>
    intro addr a t h
    unfold innerScanGo at h
    rcases hg : s.bitMap.get (addr / PAGE_SIZE) with e | b
    · simp only [hg] at h
      exact absurd h (by simp)
    · simp only [hg] at h
      rcases b with _ | _
      · rcases ha : allocateFrame s addr with e | s'
        · simp only [ha] at h
          exact absurd h (by simp)
        · simp only [ha] at h
          have hpair : (addr, s') = (a, t) := Option.some.inj (Except.ok.inj h)
          obtain ⟨h1, h2⟩ := Prod.mk.inj hpair
          subst h1
          subst h2
          obtain ⟨t0, ht0, hb1, hb2, hb3, -⟩ := allocateFrame_of_free s addr hg
          rw [ha] at ht0
          obtain rfl : s' = t0 := Except.ok.inj ht0
          exact ⟨hg, hb1, hb3, hb2⟩
      · exact ih _ _ _ h

theorem innerScanGo_error (s : PageFrameAllocator) (n : Nat) :
    ∀ addr e, innerScanGo s addr n = .error e → e = .invalidBitMapIndex := by
  induction n with
  | zero => intro addr e h; exact absurd h (by simp [innerScanGo])
  | succ m ih =>
    intro addr e h
    unfold innerScanGo at h
    rcases hg : s.bitMap.get (addr / PAGE_SIZE) with e' | b
    · simp only [hg] at h
      obtain rfl : e' = e := Except.error.inj h
      exact BitMap.get_error _ _ _ hg
    · simp only [hg] at h
      rcases b with _ | _
      · rcases ha : allocateFrame s addr with e' | s'
        · simp only [ha] at h
          obtain rfl : e' = e := Except.error.inj h
          exact allocateFrame_error _ _ _ ha
        · simp only [ha] at h
          exact absurd h (by simp)
      · exact ih _ _ h

theorem innerScanGo_no_error (s : PageFrameAllocator) (n : Nat) :
    ∀ addr, (∀ j, j < n → (addr + j * PAGE_SIZE) / PAGE_SIZE / 8 < s.bitMap.bufLen) →
      ∀ e, innerScanGo s addr n ≠ .error e := by
  induction n with
  | zero => intro addr _ e h; exact absurd h (by simp [innerScanGo])
  | succ m ih =>
    intro addr hvalid e h
    unfold innerScanGo at h
    rcases hg : s.bitMap.get (addr / PAGE_SIZE) with e' | b
    · have h0 := hvalid 0 (by omega)
      simp only [Nat.zero_mul, Nat.add_zero] at h0
      unfold BitMap.get at hg
      rw [if_neg (by omega)] at hg
      exact absurd hg (by simp)
    · simp only [hg] at h
      rcases b with _ | _
      · obtain ⟨t0, ht0, -⟩ := allocateFrame_of_free s addr hg
        rw [ht0] at h
        exact absurd h (by simp)
      · refine ih (addr + PAGE_SIZE) ?_ e h
        intro j hj
        have := hvalid (j + 1) (by omega)
        have harr : addr + PAGE_SIZE + j * PAGE_SIZE = addr + (j + 1) * PAGE_SIZE := by ring
        rw [harr]
        exact this

theorem innerScanGo_finds (s : PageFrameAllocator) (n : Nat) :
    ∀ addr, (∀ j, j < n → (addr + j * PAGE_SIZE) / PAGE_SIZE / 8 < s.bitMap.bufLen) →
      (∃ k, k < n ∧ s.bitMap.get ((addr + k * PAGE_SIZE) / PAGE_SIZE) = .ok false) →
      ∃ a t, innerScanGo s addr n = .ok (some (a, t)) := by
  induction n with
  | zero => intro addr _ hfree; exact absurd hfree (by simp)
  | succ m ih =>
    intro addr hvalid hfree
    obtain ⟨k, hk, hkf⟩ := hfree
    unfold innerScanGo
    rcases hg : s.bitMap.get (addr / PAGE_SIZE) with e' | b
    · exfalso
      have h0 := hvalid 0 (by omega)
      simp only [Nat.zero_mul, Nat.add_zero] at h0
      unfold BitMap.get at hg
      rw [if_neg (by omega)] at hg
      exact absurd hg (by simp)
    · rcases b with _ | _
      · obtain ⟨t0, ht0, -⟩ := allocateFrame_of_free s addr hg
        rw [ht0]
        exact ⟨addr, t0, rfl⟩
      · have hk0 : k ≠ 0 := by
          intro hc
          subst hc
          simp only [Nat.zero_mul, Nat.add_zero] at hkf
          rw [hg] at hkf
          exact absurd (Except.ok.inj hkf) (by simp)
        refine ih (addr + PAGE_SIZE) ?_ ⟨k - 1, by omega, ?_⟩
        · intro j hj
          have := hvalid (j + 1) (by omega)
          have harr : addr + PAGE_SIZE + j * PAGE_SIZE = addr + (j + 1) * PAGE_SIZE := by ring
          rw [harr]
          exact this
        · have harr : addr + PAGE_SIZE + (k - 1) * PAGE_SIZE = addr + k * PAGE_SIZE := by
            have : k - 1 + 1 = k := by omega
            calc addr + PAGE_SIZE + (k - 1) * PAGE_SIZE
                = addr + (k - 1 + 1) * PAGE_SIZE := by ring
              _ = addr + k * PAGE_SIZE := by rw [this]
          rw [harr]
          exact hkf

theorem outerScanGo_ok (n : Nat) :
    ∀ s i a t, outerScanGo s i n = (.ok a, t) →
      s.bitMap.get (a / PAGE_SIZE) = .ok false ∧ t.bitMap.get (a / PAGE_SIZE) = .ok true := by
  induction n with
  | zero => intro s i a t h; exact absurd h (by simp [outerScanGo])
  | succ m ih =>
    intro s i a t h
    unfold outerScanGo at h
    rcases hd : s.memoryMap.descriptors[i]? with _ | desc
    · simp only [hd] at h
      exact absurd h (by simp)
    · simp only [hd] at h
      by_cases hav : desc.type = .available
      · rw [if_pos hav] at h
        rcases hin : innerScan s (Nat.max s.currentAddress desc.physStart) desc.physEnd
            with e | r
        · simp only [hin] at h
          exact absurd (Prod.mk.inj h).1 (by simp)
        · rcases r with _ | ⟨a', s'⟩
          · simp only [hin] at h
            exact ih { s with currentAddress := desc.physStart } (i + 1) a t h
          · simp only [hin] at h
            obtain ⟨h1, h2⟩ := Prod.mk.inj h
            obtain rfl : a' = a := Except.ok.inj h1
            obtain ⟨hf, ht, -, -⟩ := innerScanGo_ok s _ _ _ _ hin
            subst h2
            exact ⟨hf, ht⟩
      · rw [if_neg hav] at h
        exact ih { s with currentAddress := desc.physStart } (i + 1) a t h

theorem outerScanGo_fail (n : Nat) :
    ∀ s i t, outerScanGo s i n = (.error .noMoreFreePages, t) →
      t = { s with currentDescriptorIndex := 0, currentAddress := 0 } := by
  induction n with
  | zero =>
    intro s i t h
    unfold outerScanGo at h
    exact (Prod.mk.inj h).2.symm
  | succ m ih =>
    intro s i t h
    unfold outerScanGo at h
    rcases hd : s.memoryMap.descriptors[i]? with _ | desc
    · simp only [hd] at h
      exact (Prod.mk.inj h).2.symm
    · simp only [hd] at h
      by_cases hav : desc.type = .available
      · rw [if_pos hav] at h
        rcases hin : innerScan s (Nat.max s.currentAddress desc.physStart) desc.physEnd
            with e | r
        · simp only [hin] at h
          obtain ⟨h1, -⟩ := Prod.mk.inj h
          have he : e = .noMoreFreePages := Except.error.inj h1
          have := innerScanGo_error s _ _ _ hin
          rw [he] at this
          exact absurd this (by simp)
        · rcases r with _ | ⟨a', s'⟩
          · simp only [hin] at h
            exact ih { s with currentAddress := desc.physStart } (i + 1) t h
          · simp only [hin] at h
            exact absurd (Prod.mk.inj h).1 (by simp)
      · rw [if_neg hav] at h
        exact ih { s with currentAddress := desc.physStart } (i + 1) t h

/-- Index validity of every frame of an Available descriptor, as needed by
the bitmap: follows from `phys_end ≤ bufLen * 8 * PAGE_SIZE`. -/
theorem frame_index_valid (addr bufLen : Nat) (h : addr < bufLen * 8 * PAGE_SIZE) :
    addr / PAGE_SIZE / 8 < bufLen := by
  have h1 : addr / PAGE_SIZE < bufLen * 8 := by
    apply Nat.div_lt_of_lt_mul
    calc addr < bufLen * 8 * PAGE_SIZE := h
      _ = PAGE_SIZE * (bufLen * 8) := by ring
  omega

theorem outerScanGo_finds (n : Nat) :
    ∀ s i,
      s.memoryMap.descriptors.length ≤ i + n →
      List.Pairwise (fun d1 d2 => d1.physStart ≤ d2.physStart) s.memoryMap.descriptors →
      (∀ d ∈ s.memoryMap.descriptors, d.type = .available →
        d.physEnd ≤ s.bitMap.bufLen * 8 * PAGE_SIZE) →
      (∀ j d, i ≤ j → s.memoryMap.descriptors[j]? = some d →
        s.currentAddress ≤ d.physStart) →
      (∃ j d, i ≤ j ∧ s.memoryMap.descriptors[j]? = some d ∧ d.type = .available
        ∧ ∃ k, d.physStart + k * PAGE_SIZE < d.physEnd
          ∧ s.bitMap.get ((d.physStart + k * PAGE_SIZE) / PAGE_SIZE) = .ok false) →
      ∃ a t, outerScanGo s i n = (.ok a, t) := by
  induction n with
  | zero =>
    intro s i hn _ _ _ hex
    obtain ⟨j, d, hij, hj, -⟩ := hex
    have := (List.getElem?_eq_some_iff.mp hj).1
    omega
  | succ m ih =>
    intro s i hn hsorted hvalid hcur hex
    obtain ⟨j, d, hij, hj, hdav, k, hk, hkf⟩ := hex
    have hjlen := (List.getElem?_eq_some_iff.mp hj).1
    have hilen : i < s.memoryMap.descriptors.length := by omega
    have hdef : s.memoryMap.descriptors[i]? = some s.memoryMap.descriptors[i] :=
      List.getElem?_eq_some_iff.mpr ⟨hilen, rfl⟩
    unfold outerScanGo
    simp only [hdef]
    set di := s.memoryMap.descriptors[i] with hdi
    have hmax : Nat.max s.currentAddress di.physStart = di.physStart :=
      Nat.max_eq_right (hcur i di le_rfl hdef)
    -- monotonicity of phys_start along the list
    have hmono : ∀ j' d', i ≤ j' → s.memoryMap.descriptors[j']? = some d' →
        di.physStart ≤ d'.physStart := by
      intro j' d' hij' hj'
      obtain ⟨hl, he⟩ := List.getElem?_eq_some_iff.mp hj'
      rcases Nat.lt_or_ge i j' with hlt | hge
      · have := (List.pairwise_iff_getElem.mp hsorted) i j' hilen hl hlt
        rw [he] at this
        exact this
      · have : j' = i := by omega
        subst this
        rw [← he, ← hdi]
    by_cases hav : di.type = .available
    · rw [if_pos hav]
      have hvalid_i : ∀ jj, jj < (di.physEnd - di.physStart + PAGE_SIZE - 1) / PAGE_SIZE →
          (di.physStart + jj * PAGE_SIZE) / PAGE_SIZE / 8 < s.bitMap.bufLen := by
        intro jj hjj
        apply frame_index_valid
        have hend := hvalid di (List.getElem_mem hilen) hav
        have hlt : di.physStart + jj * PAGE_SIZE < di.physEnd := by
          have hp : (PAGE_SIZE : Nat) = 4096 := rfl
          rw [hp] at hjj ⊢
          omega
        omega
      rcases hin : innerScan s (Nat.max s.currentAddress di.physStart) di.physEnd
          with e | r
      · exfalso
        unfold innerScan at hin
        rw [hmax] at hin
        exact innerScanGo_no_error s _ di.physStart hvalid_i e hin
      · rcases r with _ | ⟨a', s'⟩
        · -- this descriptor had no free frame, so the witness lies further right
          have hij2 : i + 1 ≤ j := by
            rcases Nat.lt_or_ge i j with hlt | hge
            · omega
            · exfalso
              have : j = i := by omega
              subst this
              rw [hdef] at hj
              obtain rfl : di = d := Option.some.inj hj
              obtain ⟨a, t, hfound⟩ := innerScanGo_finds s _ di.physStart hvalid_i
                ⟨k, by
                  have hk2 : di.physStart + k * 4096 < di.physEnd := hk
                  show k < (di.physEnd - di.physStart + 4096 - 1) / 4096
                  omega, hkf⟩
              unfold innerScan at hin
              rw [hmax, hfound] at hin
              exact absurd (Except.ok.inj hin) (by simp)
          simp only [hin]
          refine ih { s with currentAddress := di.physStart } (i + 1)
            (by show s.memoryMap.descriptors.length ≤ i + 1 + m; omega)
            hsorted hvalid ?_ ?_
          · intro j' d' hij' hj'
            exact hmono j' d' (by omega) hj'
          · exact ⟨j, d, hij2, hj, hdav, k, hk, hkf⟩
        · simp only [hin]
          exact ⟨a', _, rfl⟩
    · rw [if_neg hav]
      have hij2 : i + 1 ≤ j := by
        rcases Nat.lt_or_ge i j with hlt | hge
        · omega
        · exfalso
          have : j = i := by omega
          subst this
          rw [hdef] at hj
          obtain rfl : di = d := Option.some.inj hj
          exact hav hdav
      refine ih { s with currentAddress := di.physStart } (i + 1)
        (by show s.memoryMap.descriptors.length ≤ i + 1 + m; omega)
        hsorted hvalid ?_ ?_
      · intro j' d' hij' hj'
        exact hmono j' d' (by omega) hj'
      · exact ⟨j, d, hij2, hj, hdav, k, hk, hkf⟩

/-- C3 amended: request_page scans forward from the stored position to the
END of the memory map without wrapping within the call.  A successful call
returns a frame whose bitmap bit was clear (Free) and sets it (Used).  A call
that fails with NoMoreFreePages resets the scan position to the beginning, so
that — for a memory map with ascending descriptors whose Available frames lie
inside the bitmap — the immediately following call succeeds whenever any Free
frame exists anywhere (in particular one freed at a lower address than the
old scan position), rather than the failing call itself finding it. -/
theorem requestPage_amended (s : PageFrameAllocator) :
    (∀ a t, requestPage s = (.ok a, t) →
      s.bitMap.get (a / PAGE_SIZE) = .ok false ∧ t.bitMap.get (a / PAGE_SIZE) = .ok true)
    ∧ (∀ t, requestPage s = (.error .noMoreFreePages, t) →
      t.currentDescriptorIndex = 0 ∧ t.currentAddress = 0
      ∧ (List.Pairwise (fun d1 d2 => d1.physStart ≤ d2.physStart)
            t.memoryMap.descriptors →
        (∀ d ∈ t.memoryMap.descriptors, d.type = .available →
            d.physEnd ≤ t.bitMap.bufLen * 8 * PAGE_SIZE) →
        (∃ (j : Nat) (d : MemoryDescriptor),
            t.memoryMap.descriptors[j]? = some d ∧ d.type = .available
            ∧ ∃ k, d.physStart + k * PAGE_SIZE < d.physEnd
              ∧ t.bitMap.get ((d.physStart + k * PAGE_SIZE) / PAGE_SIZE) = .ok false) →
        ∃ a t', requestPage t = (.ok a, t'))) := by
  constructor
  · intro a t h
    exact outerScanGo_ok _ _ _ _ _ h
  · intro t h
    have hreset := outerScanGo_fail _ _ _ _ h
    subst hreset
    refine ⟨rfl, rfl, ?_⟩
    intro hsorted hvalid hex
    obtain ⟨j, d, hj, hdav, k, hk, hkf⟩ := hex
    unfold requestPage outerScan
    exact outerScanGo_finds _ _ 0 (by simp) hsorted hvalid
      (by intro j' d' _ _; exact Nat.zero_le _)
      ⟨j, d, Nat.zero_le _, hj, hdav, k, hk, hkf⟩

/-- Concrete allocator state for the witness of `requestPage_amended`:
frame 0 taken (bitmap byte 0b1000_0000), frame 4096 free, scan position past
the end of the single Available region. -/
def c3WitnessPfa : PageFrameAllocator :=
  { memoryMap := c3Map
    bitMap := ⟨1, fun _ => 128⟩
    currentDescriptorIndex := 0
    currentAddress := 8192
    freeMemory := 4096
    usedMemory := 0
    reservedMemory := 4096 }

/-- The state after the failing request_page on `c3WitnessPfa`: the scan
position is reset. -/
def c3WitnessReset : PageFrameAllocator :=
  { memoryMap := c3Map
    bitMap := ⟨1, fun _ => 128⟩
    currentDescriptorIndex := 0
    currentAddress := 0
    freeMemory := 4096
    usedMemory := 0
    reservedMemory := 4096 }

/-- Witness for `requestPage_amended`: on `c3WitnessPfa` the call fails and
resets; from the reset state the next call succeeds, returning a frame that
was Free. -/
theorem requestPage_amended_witness :
    ∃ a t', requestPage c3WitnessReset = (.ok a, t')
      ∧ c3WitnessReset.bitMap.get (a / PAGE_SIZE) = .ok false := by
  have h := (requestPage_amended c3WitnessPfa).2 c3WitnessReset rfl
  obtain ⟨a, t', hreq⟩ := h.2.2 (by decide) (by decide)
    ⟨0, ⟨0, 8192, 2, .available⟩, rfl, rfl, 1, by decide, by decide⟩
  exact ⟨a, t', hreq, ((requestPage_amended c3WitnessReset).1 a t' hreq).1⟩

/-- One Available region of 0x10000 frames (256 MiB), so the bitmap needs
0x10000 bits = 8192 bytes = two page frames. -/
def c4Map : MemoryMap := ⟨[⟨0, 0x10000000, 0x10000, .available⟩], 0x10000000⟩

/-- Observables of try_new on `c4Map`: the bitmap buffer length, the bit of
the second frame the buffer occupies, and the result of the first
request_page. -/
def c4Observed :
    Option (Nat × Except PageFrameAllocatorError Bool × Except PageFrameAllocatorError Nat) :=
  match tryNew c4Map with
  | .error _ => none
  | .ok pfa => some (pfa.bitMap.bufLen, pfa.bitMap.get 1, (requestPage pfa).fst)

/-- C4 failing input evaluated: the 8192-byte bitmap buffer at address 0
occupies ceil(8192/4096) = 2 frames, but `BitMap::pages` computes its count
from `size_of::<BitMap>()` (16 bytes, the fat-pointer struct), giving 1, so
try_new reserves only frame 0: frame 0x1000 — inside the bitmap buffer — is
left Free and is returned by the very first request_page. -/
theorem bitmap_frames_left_free :
    c4Observed = some (8192, .ok false, .ok 0x1000)
      ∧ (8192 + PAGE_SIZE - 1) / PAGE_SIZE = 2
      ∧ BitMap.pages ⟨8192, fun _ => 0⟩ = 1 := by decide

/-! ## Page-table walks (chicken-util/src/memory/paging/manager.rs, index.rs)

Tables are 4 KiB arrays of 512 entries, modelled as `Nat → Nat` (the walk
only ever indexes with values below 512); physical memory holding tables is
`mem : Nat → Option (Nat → Nat)`, keyed by the virtual address under which
the manager reaches a table (`entry.address() + offset`).  The frame
allocator consulted by `get_or_create_next_table` is abstracted to the list
of frames its request_page calls will return (its bitmap internals are the
`PageFrameAllocator` model above); an empty list makes request_page fail
with NoMoreFreePages.  `invlpg` only touches the TLB and is not modelled
(note the source passes the physical instead of the virtual address to it).
Dereferencing a table pointer that is not backed by a table is undefined
behaviour in the source and surfaces as `Option.none` here. -/

/-- PageMapIndexer: page index (`virtual_address >> 12 & 0x1ff`). -/
def pI (v : Nat) : Nat := v / 2 ^ 12 % 2 ^ 9
/-- PageMapIndexer: page table index (`>> 21 & 0x1ff`). -/
def ptI (v : Nat) : Nat := v / 2 ^ 21 % 2 ^ 9
/-- PageMapIndexer: page directory index (`>> 30 & 0x1ff`). -/
def pdI (v : Nat) : Nat := v / 2 ^ 30 % 2 ^ 9
/-- PageMapIndexer: page directory pointer index (`>> 39 & 0x1ff`). -/
def pdpI (v : Nat) : Nat := v / 2 ^ 39 % 2 ^ 9

/-- State of a PageTableManager together with the table memory it walks and
the abstracted frame supply of the page frame allocator it is given. -/
structure PTMState where
  mem : Nat → Option (Nat → Nat)
  pml4Virtual : Nat
  offset : Nat
  frames : List Nat

/-- PageTableManager::get_next_table: returns `entry.address() + offset` when
the entry is PRESENT. -/
def getNextTable (st : PTMState) (tableAddr index : Nat) : Option Nat :=
  (st.mem tableAddr).bind fun tbl =>
    let e := tbl index
    if hasBit e 0 then some ((entryAddress e + st.offset) % 2 ^ 64) else none

/-- PageTableManager::get_or_create_next_table: follows a PRESENT entry
(promoting it to USER_SUPER when the mapping being installed is user
accessible and the entry is not yet), or requests a frame, zeroes the new
table and installs a PRESENT|READ_WRITE(|USER_SUPER) entry to it.  The new
table is zeroed before the entry is written, which the aliasing-aware update
below reproduces. -/
def getOrCreateNextTable (st : PTMState) (tableAddr index : Nat) (user : Bool) :
    Option (Except PageFrameAllocatorError (Nat × PTMState)) :=
  (st.mem tableAddr).bind fun tbl =>
    let e := tbl index
    if hasBit e 0 then
      let st' :=
        if user ∧ ¬ hasBit e 2 then
          { st with mem := fun a =>
              if a = tableAddr then
                some (Function.update tbl index (setFlags e (entryFlags e + USER_SUPER)))
              else st.mem a }
        else st
      some (.ok ((entryAddress e + st.offset) % 2 ^ 64, st'))
    else
      match st.frames with
      | [] => some (.error .noMoreFreePages)
      | newPage :: rest =>
        let newTableAddr := (newPage + st.offset) % 2 ^ 64
        let e' := setFlags (setAddress e newPage)
          (PRESENT + READ_WRITE + (if user then USER_SUPER else 0))
        some (.ok (newTableAddr,
          { st with
              frames := rest
              mem := fun a =>
                if a = tableAddr then
                  some (Function.update
                    (if tableAddr = newTableAddr then (fun _ => 0) else tbl) index e')
                else if a = newTableAddr then some (fun _ => 0)
                else st.mem a }))

/-- PageTableManager::map_memory: walks/creates levels 3, 2, 1 (user bit
taken from the requested flags), then installs the leaf entry with
set_address and set_flags. -/
def mapMemory (st : PTMState) (v p f : Nat) :
    Option (Except PageFrameAllocatorError PTMState) :=
  let user := hasBit f 2
  (getOrCreateNextTable st st.pml4Virtual (pdpI v) user).bind fun r1 =>
  match r1 with
  | .error e => some (.error e)
  | .ok (l3, st1) =>
    (getOrCreateNextTable st1 l3 (pdI v) user).bind fun r2 =>
    match r2 with
    | .error e => some (.error e)
    | .ok (l2, st2) =>
      (getOrCreateNextTable st2 l2 (ptI v) user).bind fun r3 =>
      match r3 with
      | .error e => some (.error e)
      | .ok (l1, st3) =>
        (st3.mem l1).bind fun tbl =>
          let newMem : Nat → Option (Nat → Nat) := fun a =>
            if a = l1 then some (Function.update tbl (pI v) (installLeaf (tbl (pI v)) p f))
            else st3.mem a
          some (.ok { st3 with mem := newMem })

/-- PageTableManager::get_entry_data: read-only walk; returns the leaf
entry's address and flags (without checking the leaf's PRESENT bit). -/
def getEntryData (st : PTMState) (v : Nat) : Option (Nat × Nat) :=
  (getNextTable st st.pml4Virtual (pdpI v)).bind fun l3 =>
  (getNextTable st l3 (pdI v)).bind fun l2 =>
  (getNextTable st l2 (ptI v)).bind fun l1 =>
  (st.mem l1).bind fun tbl =>
    some (entryAddress (tbl (pI v)), entryFlags (tbl (pI v)))

/-- PageTableManager::get_physical. -/
def getPhysical (st : PTMState) (v : Nat) : Option Nat :=
  (getEntryData st v).map Prod.fst

/-- PageTableManager::unmap: walks to the leaf table, records the entry's
address, clears the entry (`set_address(0); set_flags(empty)`), and returns
the previously mapped physical address; `none` when an intermediate table is
missing ("the address was unmapped"). -/
def unmap (st : PTMState) (v : Nat) : Option (Nat × PTMState) :=
  (getNextTable st st.pml4Virtual (pdpI v)).bind fun l3 =>
  (getNextTable st l3 (pdI v)).bind fun l2 =>
  (getNextTable st l2 (ptI v)).bind fun l1 =>
  (st.mem l1).bind fun tbl =>
    let e := tbl (pI v)
    some (entryAddress e,
      { st with mem := fun a =>
          if a = l1 then
            some (Function.update tbl (pI v) (setFlags (setAddress e 0) 0))
          else st.mem a })

/-- A fresh manager over a zeroed root table, as produced by the kernel's
paging setup (`PageTableManager::new`: virtual root = physical root, offset
0), with the frames request_page will subsequently hand out. -/
def initPTM (pml4 : Nat) (frames : List Nat) : PTMState :=
  { mem := fun a => if a = pml4 then some (fun _ => 0) else none
    pml4Virtual := pml4
    offset := 0
    frames := frames }

/-- Concrete C2 trace: map v=0x5000 to p=0x7000 writable from a fresh root
at 0x1000 with frames 0x2000/0x3000/0x4000 for the intermediate tables, read
it back, unmap it, and read back again.  Records get_physical after the map,
the unmap result, get_physical after the unmap and the full entry data after
the unmap. -/
def c2Trace : Option (Option Nat × Nat × Option Nat × Option (Nat × Nat)) :=
  match mapMemory (initPTM 0x1000 [0x2000, 0x3000, 0x4000]) 0x5000 0x7000
      (pageEntryFlagsOfVmFlags ⟨true, false, false, false⟩) with
  | some (.ok st1) =>
    match unmap st1 0x5000 with
    | some (phys, st2) =>
      some (getPhysical st1 0x5000, phys, getPhysical st2 0x5000, getEntryData st2 0x5000)
    | none => none
  | _ => none

/-- C2 counterexample: after `map_memory(v, p, f)` and `unmap(v)`, the
intermediate tables remain present and the cleared leaf entry is read as
address 0 with empty flags, so `get_physical(v)` returns `some 0` — it is
NOT absent as the claim states. -/
theorem get_physical_after_unmap_not_absent :
    c2Trace = some (some 0x7000, 0x7000, some 0, some (0, 0))
      ∧ (some 0 : Option Nat) ≠ none := by
  constructor
  · decide
  · simp

theorem leaf_roundtrip (p f : Nat) (hp : entryAddress p = p) :
    entryAddress (installLeaf 0 p f) = p := by
  unfold installLeaf setFlags setAddress entryAddress at *
  omega

theorem clear_entry (e : Nat) : setFlags (setAddress e 0) 0 = 0 := by
  unfold setFlags setAddress
  omega

/-- Generic run of the C2 scenario from a fresh address space: map `v ↦ p`
with flags `f`, read back, unmap, read back, map `v ↦ p2` with flags `f2`,
read back.  Returns all observables. -/
def c2Run (v p p2 f f2 : Nat) :
    Option (Option Nat × Nat × Option Nat × Option (Nat × Nat) × Option Nat) :=
  match mapMemory (initPTM 0x1000 [0x2000, 0x3000, 0x4000]) v p f with
  | some (.ok st1) =>
    let g1 := getPhysical st1 v
    match unmap st1 v with
    | some (phys, st2) =>
      let g2 := getPhysical st2 v
      let gd := getEntryData st2 v
      match mapMemory st2 v p2 f2 with
      | some (.ok st3) => some (g1, phys, g2, gd, getPhysical st3 v)
      | _ => none
    | _ => none
  | _ => none

/-! ### Step lemmas for the page-table walk -/

theorem entry_lt (e : Nat) : entryAddress e < 2 ^ 52 := by
  unfold entryAddress
  omega

theorem hasBit00 : hasBit 0 0 = false := by decide

theorem entryAddress_zero : entryAddress 0 = 0 := by decide

theorem entryFlags_zero : entryFlags 0 = 0 := by decide

/-- Flag word installed on a freshly created intermediate table entry. -/
def freshFlags (user : Bool) : Nat :=
  PRESENT + READ_WRITE + if user then USER_SUPER else 0

theorem freshFlags_odd (u : Bool) : freshFlags u % 2 = 1 := by
  rcases u <;> decide

theorem freshFlags_lt (u : Bool) : freshFlags u < 2 ^ 12 := by
  rcases u <;> decide

theorem freshFlags_user (u : Bool) : hasBit (freshFlags u) 2 = u := by
  rcases u <;> decide

theorem fresh_entry_ea (fr c : Nat) (h52 : fr < 2 ^ 52) (hal : fr % 2 ^ 12 = 0) :
    entryAddress (setFlags (setAddress 0 fr) c) = fr := by
  unfold entryAddress setFlags setAddress
  have h1 : fr % 2 ^ 52 = fr := Nat.mod_eq_of_lt h52
  have h2 : fr / 2 ^ 12 * 2 ^ 12 = fr := by omega
  omega

theorem fresh_entry_hb0 (fr c : Nat) (hodd : c % 2 = 1) :
    hasBit (setFlags (setAddress 0 fr) c) 0 = true := by
  unfold hasBit setFlags setAddress
  simp only [pow_zero, Nat.div_one, decide_eq_true_eq]
  omega

theorem fresh_entry_user (fr c : Nat) :
    hasBit (setFlags (setAddress 0 fr) c) 2 = hasBit c 2 := by
  unfold hasBit setFlags setAddress
  simp only [decide_eq_decide]
  omega

theorem promote_ea (e g : Nat) : entryAddress (setFlags e g) = entryAddress e := by
  unfold entryAddress setFlags
  omega

theorem promote_hb0 (e g : Nat) (hodd : g % 2 = 1) : hasBit (setFlags e g) 0 = true := by
  unfold hasBit setFlags
  simp only [pow_zero, Nat.div_one, decide_eq_true_eq]
  omega

theorem entryFlags_odd_of_present (e : Nat) (h : hasBit e 0 = true) :
    (entryFlags e + USER_SUPER) % 2 = 1 := by
  unfold hasBit at h
  simp only [pow_zero, Nat.div_one, decide_eq_true_eq] at h
  unfold entryFlags USER_SUPER
  omega

set_option maxRecDepth 8192

/-- get_or_create_next_table on an absent entry (value 0): requests the next
frame, zeroes a table there and installs a fresh PRESENT|RW(|USER) entry. -/
theorem goc_create (st : PTMState) (T i fr : Nat) (rest : List Nat) (user : Bool)
    (tbl : Nat → Nat)
    (hmem : st.mem T = some tbl) (he : tbl i = 0)
    (hfr : st.frames = fr :: rest) (hoff : st.offset = 0) (hne : T ≠ fr)
    (h64 : fr < 2 ^ 64) :
    ∃ st', getOrCreateNextTable st T i user = some (.ok (fr, st'))
      ∧ st'.mem T = some (Function.update tbl i (setFlags (setAddress 0 fr) (freshFlags user)))
      ∧ st'.mem fr = some (fun _ => 0)
      ∧ (∀ a, a ≠ T → a ≠ fr → st'.mem a = st.mem a)
      ∧ st'.pml4Virtual = st.pml4Virtual ∧ st'.offset = 0 ∧ st'.frames = rest := by
  refine ⟨{ st with frames := rest, mem := fun a =>
      (if a = T then
        some (Function.update tbl i (setFlags (setAddress 0 fr) (freshFlags user)))
      else if a = fr then some (fun _ => 0)
      else st.mem a) }, ?_, ?_, ?_, ?_, rfl, hoff, rfl⟩
  · unfold getOrCreateNextTable
    rw [hmem]
    simp only [Option.some_bind]
    simp only [he]
    simp only [hasBit00]
    simp only [Bool.false_eq_true, if_false]
    simp only [hfr]
    simp only [hoff]
    simp only [Nat.add_zero]
    simp only [Nat.mod_eq_of_lt h64]
    simp only [if_neg hne]
    simp only [freshFlags]
  · simp
  · simp [hne, Ne.symm hne]
  · intro a ha hf
    simp [ha, hf]

/-- get_or_create_next_table on a PRESENT entry when no user promotion is
needed: the state is unchanged. -/
theorem goc_present_nopromote (st : PTMState) (T i : Nat) (user : Bool)
    (tbl : Nat → Nat) (e : Nat)
    (hmem : st.mem T = some tbl) (he : tbl i = e) (hpr : hasBit e 0 = true)
    (hoff : st.offset = 0)
    (hnop : user = false ∨ hasBit e 2 = true) :
    getOrCreateNextTable st T i user = some (.ok (entryAddress e, st)) := by
  unfold getOrCreateNextTable
  rw [hmem]
  have h64 : entryAddress e < 2 ^ 64 := lt_trans (entry_lt e) (by norm_num)
  simp only [Option.some_bind]
  simp only [he]
  simp only [hpr]
  simp only [if_true]
  simp only [hoff]
  simp only [Nat.add_zero]
  simp only [Nat.mod_eq_of_lt h64]
  rcases hnop with h | h
  · simp only [h]
    simp
  · simp only [h]
    simp

/-- get_or_create_next_table on a PRESENT entry that needs user promotion:
the entry's flags gain USER_SUPER. -/
theorem goc_present_promote (st : PTMState) (T i : Nat)
    (tbl : Nat → Nat) (e : Nat)
    (hmem : st.mem T = some tbl) (he : tbl i = e) (hpr : hasBit e 0 = true)
    (hoff : st.offset = 0) (hnb : hasBit e 2 = false) :
    ∃ st', getOrCreateNextTable st T i true = some (.ok (entryAddress e, st'))
      ∧ st'.mem T = some (Function.update tbl i (setFlags e (entryFlags e + USER_SUPER)))
      ∧ (∀ a, a ≠ T → st'.mem a = st.mem a)
      ∧ st'.pml4Virtual = st.pml4Virtual ∧ st'.offset = st.offset ∧ st'.frames = st.frames := by
  refine ⟨{ st with mem := fun a =>
      (if a = T then
        some (Function.update tbl i (setFlags e (entryFlags e + USER_SUPER)))
      else st.mem a) }, ?_, by simp, ?_, rfl, rfl, rfl⟩
  · unfold getOrCreateNextTable
    rw [hmem]
    have h64 : entryAddress e < 2 ^ 64 := lt_trans (entry_lt e) (by norm_num)
    simp only [Option.some_bind]
    simp only [he]
    simp only [hpr]
    simp only [if_true]
    simp only [hoff]
    simp only [Nat.add_zero]
    simp only [Nat.mod_eq_of_lt h64]
    simp only [hnb]
    simp
  · intro a ha
    simp [ha]

/-- get_next_table on a PRESENT entry. -/
theorem gnt_present (st : PTMState) (T i : Nat) (tbl : Nat → Nat) (e : Nat)
    (hmem : st.mem T = some tbl) (he : tbl i = e) (hpr : hasBit e 0 = true)
    (hoff : st.offset = 0) :
    getNextTable st T i = some (entryAddress e) := by
  unfold getNextTable
  rw [hmem]
  have h64 : entryAddress e < 2 ^ 64 := lt_trans (entry_lt e) (by norm_num)
  simp only [Option.some_bind]
  simp only [he]
  simp only [hpr]
  simp only [if_true]
  simp only [hoff]
  simp only [Nat.add_zero]
  simp only [Nat.mod_eq_of_lt h64]

/-- get_next_table through a PRESENT entry with a known target address. -/
theorem gnt_at (st : PTMState) (T i nxt : Nat) (tbl : Nat → Nat) (e : Nat)
    (hmem : st.mem T = some tbl) (he : tbl i = e) (hpr : hasBit e 0 = true)
    (hoff : st.offset = 0) (hea : entryAddress e = nxt) :
    getNextTable st T i = some nxt := by
  have h := gnt_present st T i tbl e hmem he hpr hoff
  rw [hea] at h
  exact h

/-- map_memory decomposed into its three walk steps plus the leaf write. -/
theorem mapMemory_steps (st : PTMState) (v p f : Nat) (l3 l2 l1 : Nat)
    (stA stB stC : PTMState) (tbl : Nat → Nat)
    (h1 : getOrCreateNextTable st st.pml4Virtual (pdpI v) (hasBit f 2) = some (.ok (l3, stA)))
    (h2 : getOrCreateNextTable stA l3 (pdI v) (hasBit f 2) = some (.ok (l2, stB)))
    (h3 : getOrCreateNextTable stB l2 (ptI v) (hasBit f 2) = some (.ok (l1, stC)))
    (h4 : stC.mem l1 = some tbl) :
    ∃ st', mapMemory st v p f = some (.ok st')
      ∧ st'.mem l1 = some (Function.update tbl (pI v) (installLeaf (tbl (pI v)) p f))
      ∧ (∀ a, a ≠ l1 → st'.mem a = stC.mem a)
      ∧ st'.pml4Virtual = stC.pml4Virtual ∧ st'.offset = stC.offset := by
  refine ⟨{ stC with mem := fun a =>
      (if a = l1 then some (Function.update tbl (pI v) (installLeaf (tbl (pI v)) p f))
      else stC.mem a) }, ?_, by simp, ?_, rfl, rfl⟩
  · unfold mapMemory
    simp only [h1]
    simp only [Option.some_bind]
    simp only [h2]
    simp only [Option.some_bind]
    simp only [h3]
    simp only [Option.some_bind]
    simp only [h4]
    simp only [Option.some_bind]
  · intro a ha
    simp [ha]

/-- get_entry_data decomposed into its three walk steps plus the leaf read. -/
theorem getEntryData_steps (st : PTMState) (v : Nat) (l3 l2 l1 : Nat) (tbl : Nat → Nat)
    (g1 : getNextTable st st.pml4Virtual (pdpI v) = some l3)
    (g2 : getNextTable st l3 (pdI v) = some l2)
    (g3 : getNextTable st l2 (ptI v) = some l1)
    (h4 : st.mem l1 = some tbl) :
    getEntryData st v = some (entryAddress (tbl (pI v)), entryFlags (tbl (pI v))) := by
  unfold getEntryData
  simp only [g1]
  simp only [Option.some_bind]
  simp only [g2]
  simp only [Option.some_bind]
  simp only [g3]
  simp only [Option.some_bind]
  simp only [h4]
  simp only [Option.some_bind]

/-- unmap decomposed into its three walk steps plus the leaf clear. -/
theorem unmap_steps (st : PTMState) (v : Nat) (l3 l2 l1 : Nat) (tbl : Nat → Nat)
    (g1 : getNextTable st st.pml4Virtual (pdpI v) = some l3)
    (g2 : getNextTable st l3 (pdI v) = some l2)
    (g3 : getNextTable st l2 (ptI v) = some l1)
    (h4 : st.mem l1 = some tbl) :
    ∃ st', unmap st v = some (entryAddress (tbl (pI v)), st')
      ∧ st'.mem l1 = some (Function.update tbl (pI v) (setFlags (setAddress (tbl (pI v)) 0) 0))
      ∧ (∀ a, a ≠ l1 → st'.mem a = st.mem a)
      ∧ st'.pml4Virtual = st.pml4Virtual ∧ st'.offset = st.offset := by
  refine ⟨{ st with mem := fun a =>
      (if a = l1 then
        some (Function.update tbl (pI v) (setFlags (setAddress (tbl (pI v)) 0) 0))
      else st.mem a) }, ?_, by simp, ?_, rfl, rfl⟩
  · unfold unmap
    simp only [g1]
    simp only [Option.some_bind]
    simp only [g2]
    simp only [Option.some_bind]
    simp only [g3]
    simp only [Option.some_bind]
    simp only [h4]
    simp only [Option.some_bind]
  · intro a ha
    simp [ha]

/-- C2 amended: for every virtual address `v` and page-aligned physical
addresses `p`, `p2` below 2^52 (expressed as `entryAddress p = p`), from a
fresh address space: map_memory(v, p, f) succeeds and get_physical(v) = p;
unmap(v) returns p, after which get_physical(v) is NOT absent but reads the
cleared leaf entry — physical address 0 with empty flags; a subsequent
map_memory(v, p2, f2) succeeds and get_physical(v) = p2. -/
theorem map_unmap_map_amended (v p p2 f f2 : Nat)
    (hp : entryAddress p = p) (hp2 : entryAddress p2 = p2) :
    c2Run v p p2 f f2 = some (some p, p, some 0, some (0, 0), some p2) := by
  obtain ⟨s1, e1eq, s1T, s1fr, s1other, s1pml, s1off, s1frames⟩ :=
    goc_create (initPTM 0x1000 [0x2000, 0x3000, 0x4000]) 0x1000 (pdpI v) 0x2000
      [0x3000, 0x4000] (hasBit f 2) (fun _ => 0) (by simp [initPTM]) rfl rfl rfl
      (by decide) (by decide)
  obtain ⟨s2, e2eq, s2T, s2fr, s2other, s2pml, s2off, s2frames⟩ :=
    goc_create s1 0x2000 (pdI v) 0x3000 [0x4000] (hasBit f 2) (fun _ => 0)
      s1fr rfl s1frames s1off (by decide) (by decide)
  obtain ⟨s3, e3eq, s3T, s3fr, s3other, s3pml, s3off, s3frames⟩ :=
    goc_create s2 0x3000 (ptI v) 0x4000 [] (hasBit f 2) (fun _ => 0)
      s2fr rfl s2frames s2off (by decide) (by decide)
  obtain ⟨T1, hmap1, T1leaf, T1other, T1pml, T1off⟩ :=
    mapMemory_steps (initPTM 0x1000 [0x2000, 0x3000, 0x4000]) v p f 0x2000 0x3000 0x4000
      s1 s2 s3 (fun _ => 0) e1eq e2eq e3eq s3fr
  -- facts about the state after the first map
  have hT1pml : T1.pml4Virtual = 0x1000 := by
    rw [T1pml, s3pml, s2pml, s1pml]
    rfl
  have hT1off : T1.offset = 0 := by rw [T1off]; exact s3off
  have A1 : T1.mem 0x1000 = some (Function.update (fun _ => 0) (pdpI v)
      (setFlags (setAddress 0 0x2000) (freshFlags (hasBit f 2)))) := by
    rw [T1other 0x1000 (by decide), s3other 0x1000 (by decide) (by decide),
      s2other 0x1000 (by decide) (by decide)]
    exact s1T
  have A2 : T1.mem 0x2000 = some (Function.update (fun _ => 0) (pdI v)
      (setFlags (setAddress 0 0x3000) (freshFlags (hasBit f 2)))) := by
    rw [T1other 0x2000 (by decide), s3other 0x2000 (by decide) (by decide)]
    exact s2T
  have A3 : T1.mem 0x3000 = some (Function.update (fun _ => 0) (ptI v)
      (setFlags (setAddress 0 0x4000) (freshFlags (hasBit f 2)))) := by
    rw [T1other 0x3000 (by decide)]
    exact s3T
  have A4 : T1.mem 0x4000 = some (Function.update (fun _ => 0) (pI v)
      (installLeaf 0 p f)) := T1leaf
  -- entry observations
  have hbE1 : hasBit (setFlags (setAddress 0 0x2000) (freshFlags (hasBit f 2))) 0 = true :=
    fresh_entry_hb0 _ _ (freshFlags_odd _)
  have hbE2 : hasBit (setFlags (setAddress 0 0x3000) (freshFlags (hasBit f 2))) 0 = true :=
    fresh_entry_hb0 _ _ (freshFlags_odd _)
  have hbE3 : hasBit (setFlags (setAddress 0 0x4000) (freshFlags (hasBit f 2))) 0 = true :=
    fresh_entry_hb0 _ _ (freshFlags_odd _)
  have eaE1 : entryAddress (setFlags (setAddress 0 0x2000) (freshFlags (hasBit f 2))) = 0x2000 :=
    fresh_entry_ea _ _ (by norm_num) (by norm_num)
  have eaE2 : entryAddress (setFlags (setAddress 0 0x3000) (freshFlags (hasBit f 2))) = 0x3000 :=
    fresh_entry_ea _ _ (by norm_num) (by norm_num)
  have eaE3 : entryAddress (setFlags (setAddress 0 0x4000) (freshFlags (hasBit f 2))) = 0x4000 :=
    fresh_entry_ea _ _ (by norm_num) (by norm_num)
  have ubE1 : hasBit (setFlags (setAddress 0 0x2000) (freshFlags (hasBit f 2))) 2 = hasBit f 2 := by
    rw [fresh_entry_user]
    exact freshFlags_user _
  have ubE2 : hasBit (setFlags (setAddress 0 0x3000) (freshFlags (hasBit f 2))) 2 = hasBit f 2 := by
    rw [fresh_entry_user]
    exact freshFlags_user _
  have ubE3 : hasBit (setFlags (setAddress 0 0x4000) (freshFlags (hasBit f 2))) 2 = hasBit f 2 := by
    rw [fresh_entry_user]
    exact freshFlags_user _
  -- walk on T1
  have g1 : getNextTable T1 T1.pml4Virtual (pdpI v) = some 0x2000 := by
    rw [hT1pml]
    exact gnt_at T1 0x1000 (pdpI v) 0x2000 _ _ A1 (Function.update_same _ _ _) hbE1 hT1off eaE1
  have g2 : getNextTable T1 0x2000 (pdI v) = some 0x3000 :=
    gnt_at T1 0x2000 (pdI v) 0x3000 _ _ A2 (Function.update_same _ _ _) hbE2 hT1off eaE2
  have g3 : getNextTable T1 0x3000 (ptI v) = some 0x4000 :=
    gnt_at T1 0x3000 (ptI v) 0x4000 _ _ A3 (Function.update_same _ _ _) hbE3 hT1off eaE3
  have GED1 := getEntryData_steps T1 v 0x2000 0x3000 0x4000 _ g1 g2 g3 A4
  rw [Function.update_same, leaf_roundtrip p f hp] at GED1
  have GP1 : getPhysical T1 v = some p := by
    unfold getPhysical
    rw [GED1]
    rfl
  -- unmap
  obtain ⟨T2, hunmap, T2leaf, T2other, T2pml, T2off⟩ :=
    unmap_steps T1 v 0x2000 0x3000 0x4000 _ g1 g2 g3 A4
  rw [Function.update_same, leaf_roundtrip p f hp] at hunmap
  rw [Function.update_same, clear_entry] at T2leaf
  have hT2pml : T2.pml4Virtual = 0x1000 := by rw [T2pml]; exact hT1pml
  have hT2off : T2.offset = 0 := by rw [T2off]; exact hT1off
  have B1 : T2.mem 0x1000 = some (Function.update (fun _ => 0) (pdpI v)
      (setFlags (setAddress 0 0x2000) (freshFlags (hasBit f 2)))) := by
    rw [T2other 0x1000 (by decide)]
    exact A1
  have B2 : T2.mem 0x2000 = some (Function.update (fun _ => 0) (pdI v)
      (setFlags (setAddress 0 0x3000) (freshFlags (hasBit f 2)))) := by
    rw [T2other 0x2000 (by decide)]
    exact A2
  have B3 : T2.mem 0x3000 = some (Function.update (fun _ => 0) (ptI v)
      (setFlags (setAddress 0 0x4000) (freshFlags (hasBit f 2)))) := by
    rw [T2other 0x3000 (by decide)]
    exact A3
  have g1b : getNextTable T2 T2.pml4Virtual (pdpI v) = some 0x2000 := by
    rw [hT2pml]
    exact gnt_at T2 0x1000 (pdpI v) 0x2000 _ _ B1 (Function.update_same _ _ _) hbE1 hT2off eaE1
  have g2b : getNextTable T2 0x2000 (pdI v) = some 0x3000 :=
    gnt_at T2 0x2000 (pdI v) 0x3000 _ _ B2 (Function.update_same _ _ _) hbE2 hT2off eaE2
  have g3b : getNextTable T2 0x3000 (ptI v) = some 0x4000 :=
    gnt_at T2 0x3000 (ptI v) 0x4000 _ _ B3 (Function.update_same _ _ _) hbE3 hT2off eaE3
  have GED2 := getEntryData_steps T2 v 0x2000 0x3000 0x4000 _ g1b g2b g3b T2leaf
  rw [Function.update_same, entryAddress_zero, entryFlags_zero] at GED2
  have GP2 : getPhysical T2 v = some 0 := by
    unfold getPhysical
    rw [GED2]
    rfl
  -- second map: the three intermediate entries are PRESENT; user promotion
  -- happens only when the new mapping is user and the entries are not.
  have hfinal : ∃ T3, mapMemory T2 v p2 f2 = some (.ok T3) ∧ getPhysical T3 v = some p2 := by
    by_cases hnp : hasBit f2 2 = false ∨ hasBit f 2 = true
    · -- no promotion: all three steps leave the state unchanged
      have P1 : getOrCreateNextTable T2 T2.pml4Virtual (pdpI v) (hasBit f2 2)
          = some (.ok (0x2000, T2)) := by
        rw [hT2pml]
        have h := goc_present_nopromote T2 0x1000 (pdpI v) (hasBit f2 2) _ _ B1
          (Function.update_same _ _ _) hbE1 hT2off (hnp.imp id (fun hh => ubE1.trans hh))
        rw [eaE1] at h
        exact h
      have P2 : getOrCreateNextTable T2 0x2000 (pdI v) (hasBit f2 2)
          = some (.ok (0x3000, T2)) := by
        have h := goc_present_nopromote T2 0x2000 (pdI v) (hasBit f2 2) _ _ B2
          (Function.update_same _ _ _) hbE2 hT2off (hnp.imp id (fun hh => ubE2.trans hh))
        rw [eaE2] at h
        exact h
      have P3 : getOrCreateNextTable T2 0x3000 (ptI v) (hasBit f2 2)
          = some (.ok (0x4000, T2)) := by
        have h := goc_present_nopromote T2 0x3000 (ptI v) (hasBit f2 2) _ _ B3
          (Function.update_same _ _ _) hbE3 hT2off (hnp.imp id (fun hh => ubE3.trans hh))
        rw [eaE3] at h
        exact h
      obtain ⟨T3, hmap2, T3leaf, T3other, T3pml, T3off⟩ :=
        mapMemory_steps T2 v p2 f2 0x2000 0x3000 0x4000 T2 T2 T2 _ P1 P2 P3 T2leaf
      rw [Function.update_same] at T3leaf
      have hT3pml : T3.pml4Virtual = 0x1000 := by rw [T3pml]; exact hT2pml
      have hT3off : T3.offset = 0 := by rw [T3off]; exact hT2off
      have C1 : T3.mem 0x1000 = some (Function.update (fun _ => 0) (pdpI v)
          (setFlags (setAddress 0 0x2000) (freshFlags (hasBit f 2)))) := by
        rw [T3other 0x1000 (by decide)]
        exact B1
      have C2 : T3.mem 0x2000 = some (Function.update (fun _ => 0) (pdI v)
          (setFlags (setAddress 0 0x3000) (freshFlags (hasBit f 2)))) := by
        rw [T3other 0x2000 (by decide)]
        exact B2
      have C3 : T3.mem 0x3000 = some (Function.update (fun _ => 0) (ptI v)
          (setFlags (setAddress 0 0x4000) (freshFlags (hasBit f 2)))) := by
        rw [T3other 0x3000 (by decide)]
        exact B3
      have g1c : getNextTable T3 T3.pml4Virtual (pdpI v) = some 0x2000 := by
        rw [hT3pml]
        exact gnt_at T3 0x1000 (pdpI v) 0x2000 _ _ C1 (Function.update_same _ _ _) hbE1
          hT3off eaE1
      have g2c : getNextTable T3 0x2000 (pdI v) = some 0x3000 :=
        gnt_at T3 0x2000 (pdI v) 0x3000 _ _ C2 (Function.update_same _ _ _) hbE2 hT3off eaE2
      have g3c : getNextTable T3 0x3000 (ptI v) = some 0x4000 :=
        gnt_at T3 0x3000 (ptI v) 0x4000 _ _ C3 (Function.update_same _ _ _) hbE3 hT3off eaE3
      have GED3 := getEntryData_steps T3 v 0x2000 0x3000 0x4000 _ g1c g2c g3c T3leaf
      rw [Function.update_same, leaf_roundtrip p2 f2 hp2] at GED3
      refine ⟨T3, hmap2, ?_⟩
      unfold getPhysical
      rw [GED3]
      rfl
    · -- promotion at every level
      push_neg at hnp
      obtain ⟨hu2, hu1⟩ := hnp
      simp only [Bool.not_eq_false] at hu2
      simp only [Bool.not_eq_true] at hu1
      have hub1 : hasBit (setFlags (setAddress 0 0x2000) (freshFlags (hasBit f 2))) 2 = false :=
        ubE1.trans hu1
      have hub2 : hasBit (setFlags (setAddress 0 0x3000) (freshFlags (hasBit f 2))) 2 = false :=
        ubE2.trans hu1
      have hub3 : hasBit (setFlags (setAddress 0 0x4000) (freshFlags (hasBit f 2))) 2 = false :=
        ubE3.trans hu1
      obtain ⟨W1, q1, W1T, W1other, W1pml, W1off, W1frames⟩ :=
        goc_present_promote T2 0x1000 (pdpI v) _ _ B1 (Function.update_same _ _ _) hbE1
          hT2off hub1
      have P1 : getOrCreateNextTable T2 T2.pml4Virtual (pdpI v) (hasBit f2 2)
          = some (.ok (0x2000, W1)) := by
        rw [hT2pml, hu2, eaE1] at *
        exact q1
      have W1B2 : W1.mem 0x2000 = some (Function.update (fun _ => 0) (pdI v)
          (setFlags (setAddress 0 0x3000) (freshFlags (hasBit f 2)))) := by
        rw [W1other 0x2000 (by decide)]
        exact B2
      have hW1off : W1.offset = 0 := by rw [W1off]; exact hT2off
      obtain ⟨W2, q2, W2T, W2other, W2pml, W2off, W2frames⟩ :=
        goc_present_promote W1 0x2000 (pdI v) _ _ W1B2 (Function.update_same _ _ _) hbE2
          hW1off hub2
      have P2 : getOrCreateNextTable W1 0x2000 (pdI v) (hasBit f2 2)
          = some (.ok (0x3000, W2)) := by
        rw [hu2, eaE2] at *
        exact q2
      have W2B3 : W2.mem 0x3000 = some (Function.update (fun _ => 0) (ptI v)
          (setFlags (setAddress 0 0x4000) (freshFlags (hasBit f 2)))) := by
        rw [W2other 0x3000 (by decide), W1other 0x3000 (by decide)]
        exact B3
      have hW2off : W2.offset = 0 := by rw [W2off]; exact hW1off
      obtain ⟨W3, q3, W3T, W3other, W3pml, W3off, W3frames⟩ :=
        goc_present_promote W2 0x3000 (ptI v) _ _ W2B3 (Function.update_same _ _ _) hbE3
          hW2off hub3
      have P3 : getOrCreateNextTable W2 0x3000 (ptI v) (hasBit f2 2)
          = some (.ok (0x4000, W3)) := by
        rw [hu2, eaE3] at *
        exact q3
      have W3leaf : W3.mem 0x4000 = some (Function.update (Function.update (fun _ => 0)
          (pI v) (installLeaf 0 p f)) (pI v) 0) := by
        rw [W3other 0x4000 (by decide), W2other 0x4000 (by decide),
          W1other 0x4000 (by decide)]
        exact T2leaf
      obtain ⟨T3, hmap2, T3leaf, T3other, T3pml, T3off⟩ :=
        mapMemory_steps T2 v p2 f2 0x2000 0x3000 0x4000 W1 W2 W3 _ P1 P2 P3 W3leaf
      rw [Function.update_same] at T3leaf
      have hT3pml : T3.pml4Virtual = 0x1000 := by
        rw [T3pml, W3pml, W2pml, W1pml]
        exact hT2pml
      have hT3off : T3.offset = 0 := by
        rw [T3off, W3off, W2off, W1off]
        exact hT2off
      -- promoted entry observations
      have hbP1 : hasBit (setFlags (setFlags (setAddress 0 0x2000) (freshFlags (hasBit f 2)))
          (entryFlags (setFlags (setAddress 0 0x2000) (freshFlags (hasBit f 2))) + USER_SUPER))
          0 = true :=
        promote_hb0 _ _ (entryFlags_odd_of_present _ hbE1)
      have hbP2 : hasBit (setFlags (setFlags (setAddress 0 0x3000) (freshFlags (hasBit f 2)))
          (entryFlags (setFlags (setAddress 0 0x3000) (freshFlags (hasBit f 2))) + USER_SUPER))
          0 = true :=
        promote_hb0 _ _ (entryFlags_odd_of_present _ hbE2)
      have hbP3 : hasBit (setFlags (setFlags (setAddress 0 0x4000) (freshFlags (hasBit f 2)))
          (entryFlags (setFlags (setAddress 0 0x4000) (freshFlags (hasBit f 2))) + USER_SUPER))
          0 = true :=
        promote_hb0 _ _ (entryFlags_odd_of_present _ hbE3)
      have eaP1 : entryAddress (setFlags (setFlags (setAddress 0 0x2000)
          (freshFlags (hasBit f 2)))
          (entryFlags (setFlags (setAddress 0 0x2000) (freshFlags (hasBit f 2))) + USER_SUPER))
          = 0x2000 := by
        rw [promote_ea]
        exact eaE1
      have eaP2 : entryAddress (setFlags (setFlags (setAddress 0 0x3000)
          (freshFlags (hasBit f 2)))
          (entryFlags (setFlags (setAddress 0 0x3000) (freshFlags (hasBit f 2))) + USER_SUPER))
          = 0x3000 := by
        rw [promote_ea]
        exact eaE2
      have eaP3 : entryAddress (setFlags (setFlags (setAddress 0 0x4000)
          (freshFlags (hasBit f 2)))
          (entryFlags (setFlags (setAddress 0 0x4000) (freshFlags (hasBit f 2))) + USER_SUPER))
          = 0x4000 := by
        rw [promote_ea]
        exact eaE3
      have C1 : T3.mem 0x1000 = some (Function.update (Function.update (fun _ => 0) (pdpI v)
          (setFlags (setAddress 0 0x2000) (freshFlags (hasBit f 2)))) (pdpI v)
          (setFlags (setFlags (setAddress 0 0x2000) (freshFlags (hasBit f 2)))
            (entryFlags (setFlags (setAddress 0 0x2000) (freshFlags (hasBit f 2)))
              + USER_SUPER))) := by
        rw [T3other 0x1000 (by decide), W3other 0x1000 (by decide), W2other 0x1000 (by decide)]
        exact W1T
      have C2 : T3.mem 0x2000 = some (Function.update (Function.update (fun _ => 0) (pdI v)
          (setFlags (setAddress 0 0x3000) (freshFlags (hasBit f 2)))) (pdI v)
          (setFlags (setFlags (setAddress 0 0x3000) (freshFlags (hasBit f 2)))
            (entryFlags (setFlags (setAddress 0 0x3000) (freshFlags (hasBit f 2)))
              + USER_SUPER))) := by
        rw [T3other 0x2000 (by decide), W3other 0x2000 (by decide)]
        exact W2T
      have C3 : T3.mem 0x3000 = some (Function.update (Function.update (fun _ => 0) (ptI v)
          (setFlags (setAddress 0 0x4000) (freshFlags (hasBit f 2)))) (ptI v)
          (setFlags (setFlags (setAddress 0 0x4000) (freshFlags (hasBit f 2)))
            (entryFlags (setFlags (setAddress 0 0x4000) (freshFlags (hasBit f 2)))
              + USER_SUPER))) := by
        rw [T3other 0x3000 (by decide)]
        exact W3T
      have g1c : getNextTable T3 T3.pml4Virtual (pdpI v) = some 0x2000 := by
        rw [hT3pml]
        exact gnt_at T3 0x1000 (pdpI v) 0x2000 _ _ C1 (Function.update_same _ _ _) hbP1
          hT3off eaP1
      have g2c : getNextTable T3 0x2000 (pdI v) = some 0x3000 :=
        gnt_at T3 0x2000 (pdI v) 0x3000 _ _ C2 (Function.update_same _ _ _) hbP2 hT3off eaP2
      have g3c : getNextTable T3 0x3000 (ptI v) = some 0x4000 :=
        gnt_at T3 0x3000 (ptI v) 0x4000 _ _ C3 (Function.update_same _ _ _) hbP3 hT3off eaP3
      have GED3 := getEntryData_steps T3 v 0x2000 0x3000 0x4000 _ g1c g2c g3c T3leaf
      rw [Function.update_same, leaf_roundtrip p2 f2 hp2] at GED3
      refine ⟨T3, hmap2, ?_⟩
      unfold getPhysical
      rw [GED3]
      rfl
  obtain ⟨T3, hmap2, GP3⟩ := hfinal
  unfold c2Run
  simp only [hmap1]
  simp only [hunmap]
  simp only [hmap2]
  rw [GP1, GP2, GED2, GP3]


/-- Witness for `map_unmap_map_amended` at concrete aligned addresses. -/
theorem map_unmap_map_amended_witness :
    c2Run 0x5000 0x7000 0x9000 7 3 = some (some 0x7000, 0x7000, some 0, some (0, 0), some 0x9000) :=
  map_unmap_map_amended 0x5000 0x7000 0x9000 7 3 (by decide) (by decide)

/-! ## Virtual memory manager (chicken-kernel/src/memory/vmm/mod.rs)

`VmObject` nodes live on the kernel heap, linked into a doubly linked list
through raw `NonNull<VmObject>` pointers.  The heap is modelled as a partial
map from node ids to records: an id the map does not contain is a dangling
pointer, and dereferencing it — undefined behaviour in the Rust source — makes
the model return `none`.  The model's heap allocator always hands out fresh
ids (`nextId`), one valid choice of allocator behaviour.

The global page-table manager and the frame allocator behind `PTM.lock()`
are abstracted as an environment `PtmEnv`: a supply of free physical frames
(`request_page` pops one, `free_frame` pushes one back), the installed
virtual-to-physical mappings, and `zeroed`, which records every page start
passed to the `write_bytes(0, PAGE_SIZE)` zero-fill call. -/

def VIRTUAL_VMM_BASE : Nat := 0xFFFFFFFFC0000000

/-- `VMM_PAGE_COUNT: usize = PAGE_SIZE * 256` (sic — used as a page count). -/
def VMM_PAGE_COUNT : Nat := PAGE_SIZE * 256

/-- chicken-kernel/src/memory/vmm/object.rs `VmObject`; `next`/`prev` raw
pointers become heap ids. -/
structure VmObject where
  base : Nat
  length : Nat
  flags : VmFlags
  next : Option Nat
  prev : Option Nat
deriving DecidableEq, Repr

inductive AllocationType where
  | anyPages
  | address (a : Nat)
deriving DecidableEq, Repr

/-- `VmmError` (payloads of `PageTableManagerError` dropped: the paging error
value is never inspected by the code under study). -/
inductive VmmError where
  | pageTableManagerError
  | pageFrameAllocatorError (e : PageFrameAllocatorError)
  | requestedVmObjectIsNotAllocated (address : Nat)
  | outOfMemory
deriving DecidableEq, Repr

/-- Abstraction of the kernel services used by the VMM: the physical frame
allocator as a free-frame supply and the page-table manager as a
virtual-to-physical association list.  `zeroed` is a ghost log of zero-filled
page starts. -/
structure PtmEnv where
  freeFrames : List Nat
  mappings : List (Nat × Nat)
  zeroed : List Nat
deriving DecidableEq, Repr

def PtmEnv.init (frames : List Nat) : PtmEnv := ⟨frames, [], []⟩

/-- `ptm.pmm().request_page()`. -/
def PtmEnv.requestPage (env : PtmEnv) : Except VmmError (Nat × PtmEnv) :=
  match env.freeFrames with
  | [] => .error (.pageFrameAllocatorError .noMoreFreePages)
  | f :: rest => .ok (f, { env with freeFrames := rest })

/-- `ptm.map_memory(virt, phys, flags)` (permission bits are studied separately
with the full page-table model). -/
def PtmEnv.mapMemory (env : PtmEnv) (virt phys : Nat) : PtmEnv :=
  { env with mappings := (virt, phys) :: env.mappings }

/-- Remove the first binding of `virt`, returning its physical address. -/
def lookupRemove : List (Nat × Nat) → Nat → Option (Nat × List (Nat × Nat))
  | [], _ => none
  | (v, p) :: rest, virt =>
    if v = virt then some (p, rest)
    else
      match lookupRemove rest virt with
      | none => none
      | some (p2, rest2) => some (p2, (v, p) :: rest2)

/-- `ptm.unmap(virt)`: returns the physical address the page was mapped to. -/
def PtmEnv.unmap (env : PtmEnv) (virt : Nat) : Except VmmError (Nat × PtmEnv) :=
  match lookupRemove env.mappings virt with
  | none => .error .pageTableManagerError
  | some (p, rest) => .ok (p, { env with mappings := rest })

/-- `ptm.pmm().free_frame(phys)`. -/
def PtmEnv.freeFrame (env : PtmEnv) (phys : Nat) : PtmEnv :=
  { env with freeFrames := phys :: env.freeFrames }

/-- `VirtualMemoryManager` state: the node heap, the model's fresh-id counter,
and the struct fields `head`, `vmm_start`, `vmm_page_count`,
`pages_allocated`. -/
structure VmmState where
  heap : Nat → Option VmObject
  nextId : Nat
  head : Option Nat
  vmmStart : Nat
  vmmPageCount : Nat
  pagesAllocated : Nat

def VmmState.init (start count : Nat) : VmmState :=
  ⟨fun _ => none, 0, none, start, count, 0⟩

/-- Heap update at one id. -/
def hupd (heap : Nat → Option VmObject) (i : Nat) (v : Option VmObject) :
    Nat → Option VmObject :=
  fun j => if j = i then v else heap j

/-- The `allocate after last object` arm of the alloc loop: a new node with
`base = current.base + current.length` is linked after `current`. -/
def allocAfter (len : Nat) (fl : VmFlags) (nid : Nat)
    (heap : Nat → Option VmObject) (i : Nat) (cur : VmObject) :
    (Nat → Option VmObject) × Nat :=
  (hupd (hupd heap nid (some ⟨cur.base + cur.length, len, fl, none, some i⟩))
      i (some { cur with next := some nid }),
    cur.base + cur.length)

/-- The `while let Some(mut object) = current` loop of
`VirtualMemoryManager::alloc` (vmm/mod.rs 99-140).  Returns the updated heap
and the chosen `base`; `none` models undefined behaviour (dereferencing a
dangling or aliased pointer).  `self.head` is never written by the loop: the
`allocate new object before the first one` arm links the new node only through
`current.prev`, leaving `head` pointing at the old first node. -/
def allocGo (len : Nat) (fl : VmFlags) (nid : Nat) :
    Nat → (Nat → Option VmObject) → Option Nat →
      Option ((Nat → Option VmObject) × Nat)
  | 0, _, _ => none
  | _ + 1, heap, none => some (heap, 0)
  | fuel + 1, heap, some i =>
    match heap i with
    | none => none
    | some cur =>
      match cur.prev with
      | some pid =>
        if pid = i then none
        else
          match heap pid with
          | none => none
          | some prev =>
            let newBase := prev.base + prev.length
            if newBase + len < cur.base then
              some (hupd (hupd (hupd heap nid
                  (some ⟨newBase, len, fl, some i, some pid⟩))
                  pid (some { prev with next := some nid }))
                  i (some { cur with prev := some nid }), newBase)
            else if cur.next = none then
              some (allocAfter len fl nid heap i cur)
            else
              allocGo len fl nid fuel heap cur.next
      | none =>
        if len < cur.base then
          some (hupd (hupd heap nid
              (some ⟨0, len, fl, some i, none⟩))
              i (some { cur with prev := some nid }), 0)
        else if cur.next = none then
          some (allocAfter len fl nid heap i cur)
        else
          allocGo len fl nid fuel heap cur.next

/-- The `immediate backing` loop of alloc (vmm/mod.rs 150-168): for each page,
obtain a physical frame (request one, or derive it from the fixed address),
map it, and zero-fill the page when the object is writable and not
device-mapped (`!flags.contains(MMIO) && flags.contains(WRITE)`).  On error
the side effects so far persist. -/
def mapPages (vmmStart base : Nat) (fl : VmFlags) (aty : AllocationType) :
    Nat → Nat → PtmEnv → Except VmmError Unit × PtmEnv
  | 0, _, env => (.ok (), env)
  | remaining + 1, page, env =>
    match
      (match aty with
        | .anyPages => env.requestPage
        | .address a => .ok (a + page * PAGE_SIZE, env)) with
    | .error e => (.error e, env)
    | .ok (phys, env1) =>
      let virt := vmmStart + base + page * PAGE_SIZE
      let env2 := env1.mapMemory virt phys
      let env3 :=
        if !fl.mmio && fl.write then { env2 with zeroed := virt :: env2.zeroed }
        else env2
      mapPages vmmStart base fl aty remaining (page + 1) env3

/-- `VirtualMemoryManager::alloc` (vmm/mod.rs 80-176).  The PTM is assumed
initialized.  Note the order faithful to the source: capacity check, list
insertion, `pages_allocated` increment, then the backing loop — a backing
failure leaves the node linked and the counter incremented. -/
def VmmState.alloc (s : VmmState) (env : PtmEnv) (length : Nat) (fl : VmFlags)
    (aty : AllocationType) : Option (Except VmmError Nat × VmmState × PtmEnv) :=
  let len := alignUp length PAGE_SIZE
  if s.pagesAllocated + len / PAGE_SIZE > s.vmmPageCount then
    some (.error .outOfMemory, s, env)
  else
    match
      (match s.head with
        | some h =>
          match allocGo len fl s.nextId (s.nextId + 1) s.heap (some h) with
          | none => none
          | some (heap2, base) => some (heap2, base, s.head)
        | none =>
          some (hupd s.heap s.nextId (some ⟨0, len, fl, none, none⟩), 0,
            some s.nextId)) with
    | none => none
    | some (heap2, base, head2) =>
      let pc := len / PAGE_SIZE
      let s2 : VmmState :=
        { s with
            heap := heap2
            head := head2
            nextId := s.nextId + 1
            pagesAllocated := s.pagesAllocated + pc }
      match mapPages s.vmmStart base fl aty pc 0 env with
      | (.ok _, env2) => some (.ok (s.vmmStart + base), s2, env2)
      | (.error e, env2) => some (.error e, s2, env2)

/-- The `free regions in vmm memory segment` loop of free (vmm/mod.rs
190-202): unmap each page and, unless the object is device-mapped, hand the
frame back to the frame allocator.  On an unmap error the pages processed so
far stay freed. -/
def unmapPages (address : Nat) (fl : VmFlags) :
    Nat → Nat → PtmEnv → Except VmmError Unit × PtmEnv
  | 0, _, env => (.ok (), env)
  | remaining + 1, page, env =>
    match env.unmap (address + page * PAGE_SIZE) with
    | .error e => (.error e, env)
    | .ok (phys, env1) =>
      let env2 := if !fl.mmio then env1.freeFrame phys else env1
      unmapPages address fl remaining (page + 1) env2

/-- The `while let Some(current_ref) = current` loop of
`VirtualMemoryManager::free` (vmm/mod.rs 182-233), carried out on
`(heap, head, pagesAllocated, env)`.  On a match the node is unlinked exactly
as in the source: the deallocated pointer is `prev.next` when a predecessor
exists (without touching `head`), and `head` itself otherwise (updating
`head` to `current.next`). -/
def freeGo (vmmStart address : Nat) :
    Nat → (Nat → Option VmObject) → Option Nat → Nat → PtmEnv → Option Nat →
      Option (Except VmmError Unit × (Nat → Option VmObject) × Option Nat ×
        Nat × PtmEnv)
  | 0, _, _, _, _, _ => none
  | _ + 1, heap, head, pages, env, none =>
    some (.error (.requestedVmObjectIsNotAllocated address), heap, head, pages,
      env)
  | fuel + 1, heap, head, pages, env, some i =>
    match heap i with
    | none => none
    | some cur =>
      if cur.base = address - vmmStart then
        match unmapPages address cur.flags (cur.length / PAGE_SIZE) 0 env with
        | (.error e, env2) => some (.error e, heap, head, pages, env2)
        | (.ok _, env2) =>
          match cur.prev with
          | some pid =>
            if pid = i then none
            else
              match heap pid with
              | none => none
              | some prev =>
                match prev.next with
                | none => none
                | some hp =>
                  match cur.next with
                  | none =>
                    some (.ok (),
                      hupd (hupd heap pid (some { prev with next := cur.next }))
                        hp none,
                      head, pages - cur.length / PAGE_SIZE, env2)
                  | some nxt =>
                    if nxt = i then none
                    else
                      match hupd heap pid (some { prev with next := cur.next })
                          nxt with
                      | none => none
                      | some nxto =>
                        some (.ok (),
                          hupd (hupd
                            (hupd heap pid
                              (some { prev with next := cur.next }))
                            nxt (some { nxto with prev := cur.prev })) hp none,
                          head, pages - cur.length / PAGE_SIZE, env2)
          | none =>
            match head with
            | none => none
            | some hp =>
              match cur.next with
              | none =>
                some (.ok (), hupd heap hp none, cur.next,
                  pages - cur.length / PAGE_SIZE, env2)
              | some nxt =>
                if nxt = i then none
                else
                  match heap nxt with
                  | none => none
                  | some nxto =>
                    some (.ok (),
                      hupd (hupd heap nxt
                        (some { nxto with prev := cur.prev })) hp none,
                      cur.next, pages - cur.length / PAGE_SIZE, env2)
      else
        freeGo vmmStart address fuel heap head pages env cur.next

/-- `VirtualMemoryManager::free` (vmm/mod.rs 178-241).  The entry
`assert!(address >= self.vmm_start)` panic is modelled as `none`. -/
def VmmState.free (s : VmmState) (env : PtmEnv) (address : Nat) :
    Option (Except VmmError Unit × VmmState × PtmEnv) :=
  if address < s.vmmStart then none
  else
    match freeGo s.vmmStart address (s.nextId + 1) s.heap s.head
        s.pagesAllocated env s.head with
    | none => none
    | some (r, heap2, head2, pages2, env2) =>
      some (r,
        { s with
            heap := heap2
            head := head2
            pagesAllocated := pages2 },
        env2)

/-- One client call into the virtual memory manager. -/
inductive VmmOp where
  | allocOp (length : Nat) (fl : VmFlags) (aty : AllocationType)
  | freeOp (address : Nat)
deriving DecidableEq, Repr

def runOp (s : VmmState) (env : PtmEnv) :
    VmmOp → Option (Except VmmError Nat × VmmState × PtmEnv)
  | .allocOp len fl aty => s.alloc env len fl aty
  | .freeOp a =>
    match s.free env a with
    | none => none
    | some (.ok _, s2, env2) => some (.ok 0, s2, env2)
    | some (.error e, s2, env2) => some (.error e, s2, env2)

/-- Run a sequence of alloc/free calls, collecting each call's result.
`none` as soon as one call hits undefined behaviour. -/
def runOps : List VmmOp → VmmState → PtmEnv →
    Option (List (Except VmmError Nat) × VmmState × PtmEnv)
  | [], s, env => some ([], s, env)
  | op :: rest, s, env =>
    match runOp s env op with
    | none => none
    | some (r, s2, env2) =>
      match runOps rest s2 env2 with
      | none => none
      | some (rs, s3, env3) => some (r :: rs, s3, env3)

/-! ### Concrete executions -/

def rwFlags : VmFlags := ⟨true, false, false, false⟩

def roFlags : VmFlags := ⟨false, false, false, false⟩

def c5Ops : List VmmOp :=
  [ .allocOp 4096 rwFlags .anyPages
  , .allocOp 4096 rwFlags .anyPages
  , .allocOp 4096 rwFlags .anyPages
  , .freeOp VIRTUAL_VMM_BASE
  , .freeOp (VIRTUAL_VMM_BASE + 4096)
  , .allocOp 4096 rwFlags .anyPages
  , .freeOp VIRTUAL_VMM_BASE ]

def c5Trace : Option (List (Except VmmError Nat)) :=
  match runOps c5Ops (VmmState.init VIRTUAL_VMM_BASE VMM_PAGE_COUNT)
      (PtmEnv.init [0x1000, 0x2000, 0x3000, 0x4000]) with
  | none => none
  | some (rs, _, _) => some rs


def c9Trace : Option (Except VmmError Nat × List Nat) :=
  match runOps [.allocOp 4096 roFlags .anyPages]
      (VmmState.init VIRTUAL_VMM_BASE VMM_PAGE_COUNT)
      (PtmEnv.init [0x1000]) with
  | none => none
  | some (rs, _, env) => some (rs.headD (.error .outOfMemory), env.zeroed)


/-! ### Zero-fill behaviour of the backing loop -/

theorem mapPages_zeroed_mono (vs base : Nat) (fl : VmFlags) (aty : AllocationType) :
    ∀ (n page : Nat) (env : PtmEnv) (x : Nat), x ∈ env.zeroed →
      x ∈ (mapPages vs base fl aty n page env).2.zeroed := by
  intro n
  induction n with
  | zero => intro page env x hx; exact hx
  | succ m ih =>
    intro page env x hx
    simp only [mapPages]
    cases aty with
    | anyPages =>
      simp only [PtmEnv.requestPage]
      cases hf : env.freeFrames with
      | nil => exact hx
      | cons f rest =>
        by_cases hz : (!fl.mmio && fl.write) = true
        · simp only [hz, if_pos]
          exact ih (page + 1) _ x (List.mem_cons_of_mem _ hx)
        · simp only [hz, if_neg, Bool.false_eq_true, not_false_eq_true]
          exact ih (page + 1) _ x hx
    | address a =>
      by_cases hz : (!fl.mmio && fl.write) = true
      · simp only [hz, if_pos]
        exact ih (page + 1) _ x (List.mem_cons_of_mem _ hx)
      · simp only [hz, if_neg, Bool.false_eq_true, not_false_eq_true]
        exact ih (page + 1) _ x hx

theorem mapPages_zeroed_same (vs base : Nat) (fl : VmFlags) (aty : AllocationType)
    (hz : (!fl.mmio && fl.write) = false) :
    ∀ (n page : Nat) (env : PtmEnv),
      (mapPages vs base fl aty n page env).2.zeroed = env.zeroed := by
  intro n
  induction n with
  | zero => intro page env; rfl
  | succ m ih =>
    intro page env
    simp only [mapPages]
    cases aty with
    | anyPages =>
      simp only [PtmEnv.requestPage]
      cases hf : env.freeFrames with
      | nil => rfl
      | cons f rest =>
        simp only [hz, Bool.false_eq_true, if_neg, not_false_eq_true]
        exact ih (page + 1) _
    | address a =>
      simp only [hz, Bool.false_eq_true, if_neg, not_false_eq_true]
      exact ih (page + 1) _

theorem mapPages_mono_eq (vs base : Nat) (fl : VmFlags) (aty : AllocationType)
    (n page : Nat) {env : PtmEnv} {r : Except VmmError Unit} {env2 : PtmEnv}
    (h : mapPages vs base fl aty n page env = (r, env2)) :
    ∀ x ∈ env.zeroed, x ∈ env2.zeroed := by
  intro x hx
  have hm := mapPages_zeroed_mono vs base fl aty n page env x hx
  rw [h] at hm
  exact hm

theorem mapPages_zeroed_covers (vs base : Nat) (fl : VmFlags) (aty : AllocationType)
    (hz : (!fl.mmio && fl.write) = true) :
    ∀ (n page : Nat) (env : PtmEnv) (u : Unit) (env2 : PtmEnv),
      mapPages vs base fl aty n page env = (.ok u, env2) →
      ∀ k, k < n → vs + base + (page + k) * PAGE_SIZE ∈ env2.zeroed := by
  intro n
  induction n with
  | zero => intro page env u env2 _ k hk; exact absurd hk (Nat.not_lt_zero k)
  | succ m ih =>
    intro page env u env2 heq k hk
    simp only [mapPages] at heq
    cases aty with
    | anyPages =>
      simp only [PtmEnv.requestPage] at heq
      cases hf : env.freeFrames with
      | nil => rw [hf] at heq; exact absurd (congrArg Prod.fst heq) (by simp)
      | cons f rest =>
        rw [hf] at heq
        simp only [hz, if_pos] at heq
        cases k with
        | zero =>
          have hin : vs + base + page * PAGE_SIZE ∈ env2.zeroed :=
            mapPages_mono_eq vs base fl AllocationType.anyPages m (page + 1) heq
              (vs + base + page * PAGE_SIZE) (List.mem_cons_self _ _)
          simpa using hin
        | succ j =>
          have hidx : page + (j + 1) = (page + 1) + j := by omega
          rw [hidx]
          exact ih (page + 1) _ u env2 heq j (by omega)
    | address a =>
      simp only [hz, if_pos] at heq
      cases k with
      | zero =>
        have hin : vs + base + page * PAGE_SIZE ∈ env2.zeroed :=
          mapPages_mono_eq vs base fl (AllocationType.address a) m (page + 1) heq
            (vs + base + page * PAGE_SIZE) (List.mem_cons_self _ _)
        simpa using hin
      | succ j =>
        have hidx : page + (j + 1) = (page + 1) + j := by omega
        rw [hidx]
        exact ih (page + 1) _ u env2 heq j (by omega)

/-- C9 amended: on a successful alloc the pages are zero-filled when the
object is writable and not device-mapped, and nothing is zero-filled
otherwise. -/
theorem zero_fill_amended (s : VmmState) (env : PtmEnv) (length : Nat)
    (fl : VmFlags) (aty : AllocationType) (a : Nat) (s2 : VmmState)
    (env2 : PtmEnv)
    (h : s.alloc env length fl aty = some (.ok a, s2, env2)) :
    ((fl.write = false ∨ fl.mmio = true) → env2.zeroed = env.zeroed) ∧
    (fl.write = true → fl.mmio = false →
      ∀ k, k < alignUp length PAGE_SIZE / PAGE_SIZE →
        a + k * PAGE_SIZE ∈ env2.zeroed) := by
  simp only [VmmState.alloc] at h
  split at h
  · exact absurd h (by simp)
  · split at h
    · exact absurd h (by simp)
    · rename_i ins heap2 base head2 hins
      split at h
      · rename_i u env' hmap
        have ha : a = s.vmmStart + base := by
          have := congrArg (fun o => o.map (fun r => r.1)) h
          simpa using this.symm
        have henv : env2 = env' := by
          have := congrArg (fun o => o.map (fun r => r.2.2)) h
          simpa using this.symm
        subst ha henv
        constructor
        · intro hcase
          have hz : (!fl.mmio && fl.write) = false := by
            rcases hcase with hw | hm
            · simp [hw]
            · simp [hm]
          have := mapPages_zeroed_same s.vmmStart base fl aty hz
            (alignUp length PAGE_SIZE / PAGE_SIZE) 0 env
          rw [hmap] at this
          exact this
        · intro hw hm k hk
          have hz : (!fl.mmio && fl.write) = true := by simp [hw, hm]
          have := mapPages_zeroed_covers s.vmmStart base fl aty hz
            (alignUp length PAGE_SIZE / PAGE_SIZE) 0 env _ _ hmap k hk
          simpa using this
      · rename_i e env' hmap
        exact absurd h (by simp)

def c9wState : VmmState where
  heap := fun j => if j = 0 then some ⟨0, 4096, rwFlags, none, none⟩ else none
  nextId := 1
  head := some 0
  vmmStart := VIRTUAL_VMM_BASE
  vmmPageCount := VMM_PAGE_COUNT
  pagesAllocated := 1

def c9wEnv : PtmEnv := ⟨[], [(VIRTUAL_VMM_BASE, 0x1000)], [VIRTUAL_VMM_BASE]⟩

theorem zero_fill_amended_witness :
    ((rwFlags.write = false ∨ rwFlags.mmio = true) →
        c9wEnv.zeroed = (PtmEnv.init [0x1000]).zeroed) ∧
    (rwFlags.write = true → rwFlags.mmio = false →
      ∀ k, k < alignUp 4096 PAGE_SIZE / PAGE_SIZE →
        VIRTUAL_VMM_BASE + k * PAGE_SIZE ∈ c9wEnv.zeroed) :=
  zero_fill_amended (VmmState.init VIRTUAL_VMM_BASE VMM_PAGE_COUNT)
    (PtmEnv.init [0x1000]) 4096 rwFlags .anyPages VIRTUAL_VMM_BASE c9wState c9wEnv
    (by rfl)

/-- C5: after two frees empty the low end of the window, an alloc places its
region before the first existing object (returning `vmm_start`), but `free`
of that very address fails with `RequestedVmObjectIsNotAllocated`, because
alloc's before-first branch never updates `head` and free only traverses
forward from `head`. -/
theorem free_misses_before_first_region :
    c5Trace = some
      [ .ok VIRTUAL_VMM_BASE
      , .ok (VIRTUAL_VMM_BASE + 4096)
      , .ok (VIRTUAL_VMM_BASE + 8192)
      , .ok 0
      , .ok 0
      , .ok VIRTUAL_VMM_BASE
      , .error (.requestedVmObjectIsNotAllocated VIRTUAL_VMM_BASE) ] := by
  rfl

/-- C9 counterexample: a successful one-page allocation with empty flags
(readable, not writable, not MMIO) zero-fills nothing — the zero-fill log is
empty — although the claim requires every non-MMIO region to be cleared. -/
theorem zero_fill_not_unconditional :
    c9Trace = some (.ok VIRTUAL_VMM_BASE, []) := by rfl

/-! ### The linked-list invariant (claim C1)

`Seg heap p e c ns q e1 c1` states that the ids `ns` form a well-linked,
sorted, non-overlapping doubly-linked-list segment of `heap`: entered with
predecessor pointer `p`, lower bound `e` and current pointer `c`, it exits
with predecessor `q`, bound `e1` and current pointer `c1`. -/

inductive Seg (heap : Nat → Option VmObject) :
    Option Nat → Nat → Option Nat → List Nat → Option Nat → Nat → Option Nat →
      Prop where
  | nil (p : Option Nat) (e : Nat) (c : Option Nat) : Seg heap p e c [] p e c
  | cons (p : Option Nat) (e : Nat) (i : Nat) (o : VmObject) (ns : List Nat)
      (q : Option Nat) (e1 : Nat) (c1 : Option Nat)
      (ho : heap i = some o) (hprev : o.prev = p) (hbase : e ≤ o.base)
      (hrest : Seg heap (some i) (o.base + o.length) o.next ns q e1 c1) :
      Seg heap p e (some i) (i :: ns) q e1 c1

theorem Seg.append {heap : Nat → Option VmObject} {p e c xs pm em cm ys q e1 c1}
    (h1 : Seg heap p e c xs pm em cm) (h2 : Seg heap pm em cm ys q e1 c1) :
    Seg heap p e c (xs ++ ys) q e1 c1 := by
  induction h1 with
  | nil => exact h2
  | cons p e i o ns qx ex cx ho hprev hbase hrest ih =>
    exact Seg.cons p e i o (ns ++ ys) q e1 c1 ho hprev hbase (ih h2)

theorem Seg.congr {heap heap2 : Nat → Option VmObject} {p e c ns q e1 c1}
    (h : Seg heap p e c ns q e1 c1) (hsame : ∀ j ∈ ns, heap2 j = heap j) :
    Seg heap2 p e c ns q e1 c1 := by
  induction h with
  | nil p e c => exact Seg.nil p e c
  | cons p e i o ns qx ex cx ho hprev hbase hrest ih =>
    refine Seg.cons p e i o ns qx ex cx ?_ hprev hbase ?_
    · rw [hsame i (List.mem_cons_self _ _)]; exact ho
    · exact ih fun j hj => hsame j (List.mem_cons_of_mem _ hj)

theorem seg_exit_mem {heap : Nat → Option VmObject} {p e c ns q e1 c1}
    (h : Seg heap p e c ns q e1 c1) :
    (ns = [] ∧ q = p ∧ e1 = e ∧ c1 = c) ∨ ∃ i, i ∈ ns ∧ q = some i := by
  induction h with
  | nil p e c => exact Or.inl ⟨rfl, rfl, rfl, rfl⟩
  | cons p e i o ns qx ex cx ho hprev hbase hrest ih =>
    right
    rcases ih with ⟨_, hq, _, _⟩ | ⟨j, hj, hq⟩
    · exact ⟨i, List.mem_cons_self _ _, hq⟩
    · exact ⟨j, List.mem_cons_of_mem _ hj, hq⟩

theorem seg_entry {heap : Nat → Option VmObject} {p e c ns q e1 c1}
    (h : Seg heap p e c ns q e1 c1) :
    ∀ a ns2, ns = a :: ns2 → c = some a := by
  induction h with
  | nil p e c => intro a ns2 h; exact absurd h (by simp)
  | cons p e i o ns qx ex cx ho hprev hbase hrest ih =>
    intro a ns2 h
    injection h with h1 h2
    rw [h1]

theorem seg_exit_facts {heap : Nat → Option VmObject} {p e c ns q e1 c1}
    (h : Seg heap p e c ns q e1 c1) :
    ∀ pid, q = some pid → p ≠ some pid → ns.Nodup →
      ∃ po, heap pid = some po ∧ po.base + po.length = e1 ∧ po.next = c1 ∧
        pid ∈ ns := by
  induction h with
  | nil p e c =>
    intro pid hq hne _
    exact absurd hq hne
  | cons p e i o ns qx ex cx ho hprev hbase hrest ih =>
    intro pid hq hne hnd
    rcases seg_exit_mem hrest with ⟨hns, hqe, hee, hce⟩ | ⟨j, hj, hqe⟩
    · obtain rfl : pid = i := by
        rw [hqe] at hq; exact (Option.some.inj hq).symm
      exact ⟨o, ho, hee.symm, hce.symm, List.mem_cons_self _ _⟩
    · obtain rfl : pid = j := by
        rw [hqe] at hq; exact (Option.some.inj hq).symm
      have hine : i ≠ pid := fun hip => by
        subst hip; exact (List.nodup_cons.mp hnd).1 hj
      obtain ⟨po, h1, h2, h3, h4⟩ :=
        ih pid hq (fun hc => hine (Option.some.inj hc))
          (List.nodup_cons.mp hnd).2
      exact ⟨po, h1, h2, h3, List.mem_cons_of_mem _ h4⟩

theorem seg_retarget {heap heap2 : Nat → Option VmObject} {p0 e0 c0 ns q e1 c1}
    (h : Seg heap p0 e0 c0 ns q e1 c1) :
    ∀ (pid : Nat) (po : VmObject) (cnew : Option Nat), q = some pid →
      p0 ≠ some pid → ns.Nodup → heap pid = some po →
      (∀ j ∈ ns, j ≠ pid → heap2 j = heap j) →
      heap2 pid = some { po with next := cnew } →
      Seg heap2 p0 e0 c0 ns (some pid) e1 cnew := by
  induction h with
  | nil p e c =>
    intro pid po cnew hq hne _ _ _ _
    exact absurd hq hne
  | cons p e i o ns qx ex cx ho hprev hbase hrest ih =>
    intro pid po cnew hq hne hnd hpo hsame hpo2
    by_cases hip : i = pid
    · obtain rfl : i = pid := hip
      obtain rfl : o = po := by rw [ho] at hpo; exact Option.some.inj hpo
      rcases seg_exit_mem hrest with ⟨hns, hqe, hee, hce⟩ | ⟨j, hj, hqe⟩
      · subst hns
        subst hee
        refine Seg.cons p e i { o with next := cnew } [] (some i)
          (o.base + o.length) cnew hpo2 hprev hbase ?_
        exact Seg.nil (some i) (o.base + o.length) cnew
      · obtain rfl : j = i := by
          rw [hqe] at hq; exact (Option.some.inj hq)
        exact absurd hj (List.nodup_cons.mp hnd).1
    · refine Seg.cons p e i o ns (some pid) ex cnew ?_ hprev hbase ?_
      · rw [hsame i (List.mem_cons_self _ _) hip]; exact ho
      · exact ih pid po cnew hq (fun hc => hip (Option.some.inj hc))
          (List.nodup_cons.mp hnd).2 hpo
          (fun j hj hjp => hsame j (List.mem_cons_of_mem _ hj) hjp) hpo2

theorem seg_e_le {heap : Nat → Option VmObject} {p e c ns q e1 c1}
    (h : Seg heap p e c ns q e1 c1) : e ≤ e1 := by
  induction h with
  | nil => exact le_refl _
  | cons p e i o ns qx ex cx ho hprev hbase hrest ih => omega

theorem seg_bounds {heap : Nat → Option VmObject} {p e c ns q e1 c1}
    (h : Seg heap p e c ns q e1 c1) :
    ∀ i ∈ ns, ∃ o, heap i = some o ∧ e ≤ o.base ∧ o.base + o.length ≤ e1 := by
  induction h with
  | nil => intro i hi; exact absurd hi (List.not_mem_nil i)
  | cons p e i o ns qx ex cx ho hprev hbase hrest ih =>
    intro j hj
    rcases List.mem_cons.mp hj with rfl | hj
    · exact ⟨o, ho, hbase, seg_e_le hrest⟩
    · obtain ⟨oj, h1, h2, h3⟩ := ih j hj
      exact ⟨oj, h1, by omega, h3⟩

theorem seg_disjoint {heap : Nat → Option VmObject} {p e c ns q e1 c1}
    (h : Seg heap p e c ns q e1 c1) :
    ∀ i ∈ ns, ∀ j ∈ ns, i ≠ j → ∀ oi oj, heap i = some oi → heap j = some oj →
      oi.base + oi.length ≤ oj.base ∨ oj.base + oj.length ≤ oi.base := by
  induction h with
  | nil => intro i hi; exact absurd hi (List.not_mem_nil i)
  | cons p e i o ns qx ex cx ho hprev hbase hrest ih =>
    intro a ha b hb hab oa ob hoa hob
    rcases List.mem_cons.mp ha with ha1 | ha2
    · rcases List.mem_cons.mp hb with hb1 | hb2
      · exact absurd (ha1.trans hb1.symm) hab
      · rw [ha1] at hoa
        obtain rfl : o = oa := by rw [ho] at hoa; exact Option.some.inj hoa
        obtain ⟨ob2, h1, h2, _⟩ := seg_bounds hrest b hb2
        obtain rfl : ob2 = ob := by rw [h1] at hob; exact Option.some.inj hob
        exact Or.inl h2
    · rcases List.mem_cons.mp hb with hb1 | hb2
      · rw [hb1] at hob
        obtain rfl : o = ob := by rw [ho] at hob; exact Option.some.inj hob
        obtain ⟨oa2, h1, h2, _⟩ := seg_bounds hrest a ha2
        obtain rfl : oa2 = oa := by rw [h1] at hoa; exact Option.some.inj hoa
        exact Or.inr h2
      · exact ih a ha2 b hb2 hab oa ob hoa hob

theorem hupd_same (heap : Nat → Option VmObject) (i : Nat) (v : Option VmObject) :
    hupd heap i v i = v := by simp [hupd]

theorem hupd_other (heap : Nat → Option VmObject) (i : Nat) (v : Option VmObject)
    (j : Nat) (h : j ≠ i) : hupd heap i v j = heap j := by simp [hupd, h]

theorem seg_nil_inv {heap : Nat → Option VmObject} {p e c q e1 c1}
    (h : Seg heap p e c [] q e1 c1) : q = p ∧ e1 = e ∧ c1 = c := by
  cases h
  exact ⟨rfl, rfl, rfl⟩

theorem seg_cons_inv {heap : Nat → Option VmObject} {p e c a ns q e1 c1}
    (h : Seg heap p e c (a :: ns) q e1 c1) :
    ∃ o, heap a = some o ∧ o.prev = p ∧ e ≤ o.base ∧ c = some a ∧
      Seg heap (some a) (o.base + o.length) o.next ns q e1 c1 := by
  cases h with
  | cons _ _ _ o _ _ _ _ ho hprev hbase hrest =>
    exact ⟨o, ho, hprev, hbase, rfl, hrest⟩

/-- A well-formed full chain: some exit state, entered with no predecessor,
lower bound 0, and closed off by a null `next`. -/
def FullChain (heap : Nat → Option VmObject) (ns : List Nat) : Prop :=
  ∃ f q e1, Seg heap none 0 f ns q e1 none ∧ f = ns.head?

theorem fullchain_of_seg {heap : Nat → Option VmObject} {ns : List Nat}
    {f q : Option Nat} {e1 : Nat} (h : Seg heap none 0 f ns q e1 none) :
    FullChain heap ns := by
  cases ns with
  | nil =>
    obtain ⟨-, -, hc⟩ := seg_nil_inv h
    exact ⟨f, q, e1, h, hc.symm⟩
  | cons a ns2 => exact ⟨f, q, e1, h, by rw [seg_entry h a ns2 rfl]; rfl⟩

/-- All allocated region objects are pairwise non-overlapping. -/
def disjointObjects (heap : Nat → Option VmObject) : Prop :=
  ∀ i j oi oj, i ≠ j → heap i = some oi → heap j = some oj →
    oi.base + oi.length ≤ oj.base ∨ oj.base + oj.length ≤ oi.base

/-- Inductive invariant of the virtual memory manager. -/
def VmmInv (s : VmmState) : Prop :=
  s.pagesAllocated ≤ s.vmmPageCount ∧
  ∃ ns : List Nat, ns.Nodup ∧ FullChain s.heap ns ∧
    (∀ j, (s.heap j).isSome = true ↔ j ∈ ns) ∧
    (∀ j ∈ ns, j < s.nextId) ∧
    (s.head = none → ns = [])

theorem inv_disjoint {s : VmmState} (hinv : VmmInv s) : disjointObjects s.heap := by
  obtain ⟨-, ns, hnd, ⟨f, q, e1, hseg, -⟩, hids, -, -⟩ := hinv
  intro i j oi oj hij hoi hoj
  have hi : i ∈ ns := (hids i).mp (by rw [hoi]; rfl)
  have hj : j ∈ ns := (hids j).mp (by rw [hoj]; rfl)
  exact seg_disjoint hseg i hi j hj hij oi oj hoi hoj

/-- Behaviour of the alloc loop on a well-formed chain `front ++ i :: tail`
entered at `i`: it always succeeds, inserting the fresh node `nid` at some
position of the chain and preserving well-formedness. -/
theorem allocGo_spec (len : Nat) (fl : VmFlags) (nid : Nat) :
    ∀ (fuel : Nat) (heap : Nat → Option VmObject) (front tail : List Nat)
      (p f0 : Option Nat) (e : Nat) (i : Nat) (q : Option Nat) (e1 : Nat),
      Seg heap none 0 f0 front p e (some i) →
      Seg heap p e (some i) (i :: tail) q e1 none →
      (front ++ i :: tail).Nodup →
      (∀ j, (heap j).isSome = true ↔ j ∈ front ++ i :: tail) →
      (∀ j ∈ front ++ i :: tail, j < nid) →
      tail.length < fuel →
      ∃ heap2 base xs ys f2 q2 e2,
        allocGo len fl nid fuel heap (some i) = some (heap2, base) ∧
        front ++ i :: tail = xs ++ ys ∧
        Seg heap2 none 0 f2 (xs ++ nid :: ys) q2 e2 none ∧
        (∀ j, (heap2 j).isSome = true ↔ j ∈ xs ++ nid :: ys) := by
  intro fuel
  induction fuel with
  | zero =>
    intro heap front tail p f0 e i q e1 _ _ _ _ _ hfuel
    omega
  | succ f ih =>
    intro heap front tail p f0 e i q e1 hpre hsuf hnd hids hbound hfuel
    have hndf : front.Nodup := (List.nodup_append.mp hnd).1
    have hndt : (i :: tail).Nodup := (List.nodup_append.mp hnd).2.1
    have hdisj : front.Disjoint (i :: tail) := (List.nodup_append.mp hnd).2.2
    have hit : i ∉ tail := (List.nodup_cons.mp hndt).1
    have hifull : i ∈ front ++ i :: tail :=
      List.mem_append_right _ (List.mem_cons_self _ _)
    have hilt : i < nid := hbound i hifull
    have hine : i ≠ nid := Nat.ne_of_lt hilt
    obtain ⟨o, ho, hprev, hbase, -, hrest⟩ := seg_cons_inv hsuf
    simp only [allocGo]
    simp only [ho]
    cases p with
    | some pid =>
      have hnep : (none : Option Nat) ≠ some pid := by simp
      obtain ⟨po, hpo, hpoe, hponext, hpidmem⟩ :=
        seg_exit_facts hpre pid rfl hnep hndf
      have hpidi : pid ≠ i :=
        fun hc => hdisj hpidmem (hc ▸ List.mem_cons_self i tail)
      have hpidlt : pid < nid := hbound pid (List.mem_append_left _ hpidmem)
      have hpidnid : pid ≠ nid := Nat.ne_of_lt hpidlt
      simp only [hprev]
      rw [if_neg hpidi]
      simp only [hpo]
      by_cases hfit : po.base + po.length + len < o.base
      · rw [if_pos hfit]
        refine ⟨_, _, front, i :: tail, f0, q, e1, rfl, rfl, ?_, ?_⟩
        · have hri : hupd (hupd (hupd heap nid
                (some ⟨po.base + po.length, len, fl, some i, some pid⟩))
                pid (some { po with next := some nid }))
                i (some { o with prev := some nid }) i
              = some { o with prev := some nid } := hupd_same _ _ _
          have hrp : hupd (hupd (hupd heap nid
                (some ⟨po.base + po.length, len, fl, some i, some pid⟩))
                pid (some { po with next := some nid }))
                i (some { o with prev := some nid }) pid
              = some { po with next := some nid } := by
            rw [hupd_other _ _ _ _ hpidi, hupd_same]
          have hrn : hupd (hupd (hupd heap nid
                (some ⟨po.base + po.length, len, fl, some i, some pid⟩))
                pid (some { po with next := some nid }))
                i (some { o with prev := some nid }) nid
              = some ⟨po.base + po.length, len, fl, some i, some pid⟩ := by
            rw [hupd_other _ _ _ _ (Ne.symm hine),
              hupd_other _ _ _ _ (Ne.symm hpidnid), hupd_same]
          refine Seg.append
            (seg_retarget hpre pid po (some nid) rfl hnep hndf hpo
              (fun j hj hjp => by
                have hji : j ≠ i :=
                  fun hc => hdisj hj (hc ▸ List.mem_cons_self i tail)
                have hjn : j ≠ nid :=
                  Nat.ne_of_lt (hbound j (List.mem_append_left _ hj))
                rw [hupd_other _ _ _ _ hji, hupd_other _ _ _ _ hjp,
                  hupd_other _ _ _ _ hjn])
              hrp) ?_
          refine Seg.cons _ _ nid _ _ _ _ _ hrn rfl (le_of_eq hpoe.symm) ?_
          refine Seg.cons _ _ i _ _ _ _ _ hri rfl
            (by show po.base + po.length + len ≤ o.base; omega) ?_
          refine hrest.congr (fun j hj => ?_)
          have hji : j ≠ i := fun hc => hit (hc ▸ hj)
          have hjp : j ≠ pid :=
            fun hc => hdisj hpidmem (hc ▸ List.mem_cons_of_mem i hj)
          have hjn : j ≠ nid := Nat.ne_of_lt
            (hbound j (List.mem_append_right _ (List.mem_cons_of_mem i hj)))
          rw [hupd_other _ _ _ _ hji, hupd_other _ _ _ _ hjp,
            hupd_other _ _ _ _ hjn]
        · intro j
          by_cases hji : j = i
          · subst hji
            rw [hupd_same]
            simp [List.mem_append, List.mem_cons]
          · by_cases hjp : j = pid
            · subst hjp
              rw [hupd_other _ _ _ _ hji, hupd_same]
              simp [List.mem_append, List.mem_cons, hpidmem]
            · by_cases hjn : j = nid
              · subst hjn
                rw [hupd_other _ _ _ _ hji, hupd_other _ _ _ _ hjp, hupd_same]
                simp [List.mem_append, List.mem_cons]
              · rw [hupd_other _ _ _ _ hji, hupd_other _ _ _ _ hjp,
                  hupd_other _ _ _ _ hjn, hids j]
                simp only [List.mem_append, List.mem_cons, hjn,
                  false_or]
      · rw [if_neg hfit]
        cases tail with
        | nil =>
          obtain ⟨hq, he1, hcn⟩ := seg_nil_inv hrest
          rw [if_pos hcn.symm]
          simp only [allocAfter]
          refine ⟨_, _, front ++ [i], [], f0, some nid,
            o.base + o.length + len, rfl, by simp, ?_, ?_⟩
          · have hri : hupd (hupd heap nid
                  (some ⟨o.base + o.length, len, fl, none, some i⟩))
                  i (some { o with next := some nid }) i
                = some { o with next := some nid } := hupd_same _ _ _
            have hrn : hupd (hupd heap nid
                  (some ⟨o.base + o.length, len, fl, none, some i⟩))
                  i (some { o with next := some nid }) nid
                = some ⟨o.base + o.length, len, fl, none, some i⟩ := by
              rw [hupd_other _ _ _ _ (Ne.symm hine), hupd_same]
            have hcon : ∀ j ∈ front, hupd (hupd heap nid
                  (some ⟨o.base + o.length, len, fl, none, some i⟩))
                  i (some { o with next := some nid }) j = heap j := by
              intro j hj
              have hji : j ≠ i :=
                fun hc => hdisj hj (hc ▸ List.mem_cons_self i [])
              have hjn : j ≠ nid :=
                Nat.ne_of_lt (hbound j (List.mem_append_left _ hj))
              rw [hupd_other _ _ _ _ hji, hupd_other _ _ _ _ hjn]
            have hsegi : Seg (hupd (hupd heap nid
                  (some ⟨o.base + o.length, len, fl, none, some i⟩))
                  i (some { o with next := some nid }))
                (some pid) e (some i) [i] (some i) (o.base + o.length)
                (some nid) :=
              Seg.cons _ _ i _ _ _ _ _ hri hprev hbase
                (Seg.nil (some i) (o.base + o.length) (some nid))
            have hsegn : Seg (hupd (hupd heap nid
                  (some ⟨o.base + o.length, len, fl, none, some i⟩))
                  i (some { o with next := some nid }))
                (some i) (o.base + o.length) (some nid) [nid] (some nid)
                (o.base + o.length + len) none :=
              Seg.cons _ _ nid _ _ _ _ _ hrn rfl (le_refl _)
                (Seg.nil (some nid) (o.base + o.length + len) none)
            exact Seg.append (Seg.append (hpre.congr hcon) hsegi) hsegn
          · intro j
            by_cases hji : j = i
            · subst hji
              rw [hupd_same]
              simp [List.mem_append, List.mem_cons]
            · by_cases hjn : j = nid
              · subst hjn
                rw [hupd_other _ _ _ _ hji, hupd_same]
                simp [List.mem_append, List.mem_cons]
              · rw [hupd_other _ _ _ _ hji, hupd_other _ _ _ _ hjn, hids j]
                simp only [List.mem_append, List.mem_cons, hjn,
                  List.not_mem_nil, or_false, false_or]
        | cons nxt tail2 =>
          have hnext : o.next = some nxt := seg_entry hrest nxt tail2 rfl
          rw [if_neg (by rw [hnext]; simp)]
          rw [hnext]
          have hlist : (front ++ [i]) ++ nxt :: tail2 = front ++ i :: nxt :: tail2 := by
            simp
          have hpre2 : Seg heap none 0 f0 (front ++ [i]) (some i)
              (o.base + o.length) (some nxt) := by
            refine Seg.append hpre ?_
            refine Seg.cons _ _ i o [] _ _ _ ho hprev hbase ?_
            rw [hnext]
            exact Seg.nil _ _ _
          have hsuf2 : Seg heap (some i) (o.base + o.length) (some nxt)
              (nxt :: tail2) q e1 none := by
            rw [← hnext]
            exact hrest
          have hnd2 : ((front ++ [i]) ++ nxt :: tail2).Nodup := by
            rw [hlist]; exact hnd
          have hids2 : ∀ j, (heap j).isSome = true ↔
              j ∈ (front ++ [i]) ++ nxt :: tail2 := by
            rw [hlist]; exact hids
          have hbound2 : ∀ j ∈ (front ++ [i]) ++ nxt :: tail2, j < nid := by
            rw [hlist]; exact hbound
          have hfuel2 : tail2.length < f := by
            simp only [List.length_cons] at hfuel
            omega
          obtain ⟨heap2, base, xs, ys, f2, q2, e2, hgo, hsplit, hseg2, hids3⟩ :=
            ih heap (front ++ [i]) tail2 (some i) f0 (o.base + o.length) nxt
              q e1 hpre2 hsuf2 hnd2 hids2 hbound2 hfuel2
          refine ⟨heap2, base, xs, ys, f2, q2, e2, hgo, ?_, hseg2, hids3⟩
          rw [← hlist]
          exact hsplit
    | none =>
      rcases seg_exit_mem hpre with ⟨hf, -, he, hc⟩ | ⟨j, -, hq⟩
      · subst hf
        subst he
        subst hc
        simp only [hprev]
        by_cases hfit : len < o.base
        · rw [if_pos hfit]
          refine ⟨_, _, [], i :: tail, some nid, q, e1, rfl, by simp, ?_, ?_⟩
          · have hri : hupd (hupd heap nid
                  (some ⟨0, len, fl, some i, none⟩))
                  i (some { o with prev := some nid }) i
                = some { o with prev := some nid } := hupd_same _ _ _
            have hrn : hupd (hupd heap nid
                  (some ⟨0, len, fl, some i, none⟩))
                  i (some { o with prev := some nid }) nid
                = some ⟨0, len, fl, some i, none⟩ := by
              rw [hupd_other _ _ _ _ (Ne.symm hine), hupd_same]
            refine Seg.cons _ _ nid _ _ _ _ _ hrn rfl (le_refl _) ?_
            refine Seg.cons _ _ i _ _ _ _ _ hri rfl
              (by show 0 + len ≤ o.base; omega) ?_
            refine hrest.congr (fun j hj => ?_)
            have hji : j ≠ i := fun hc => hit (hc ▸ hj)
            have hjn : j ≠ nid := Nat.ne_of_lt
              (hbound j (List.mem_append_right _ (List.mem_cons_of_mem i hj)))
            rw [hupd_other _ _ _ _ hji, hupd_other _ _ _ _ hjn]
          · intro j
            by_cases hji : j = i
            · subst hji
              rw [hupd_same]
              simp [List.mem_append, List.mem_cons]
            · by_cases hjn : j = nid
              · subst hjn
                rw [hupd_other _ _ _ _ hji, hupd_same]
                simp [List.mem_append, List.mem_cons]
              · rw [hupd_other _ _ _ _ hji, hupd_other _ _ _ _ hjn, hids j]
                simp only [List.mem_append, List.mem_cons, hjn,
                  false_or, List.not_mem_nil, List.nil_append]
        · rw [if_neg hfit]
          cases tail with
          | nil =>
            obtain ⟨hq, he1, hcn⟩ := seg_nil_inv hrest
            rw [if_pos hcn.symm]
            simp only [allocAfter]
            refine ⟨_, _, [] ++ [i], [], some i, some nid,
              o.base + o.length + len, rfl, by simp, ?_, ?_⟩
            · have hri : hupd (hupd heap nid
                    (some ⟨o.base + o.length, len, fl, none, some i⟩))
                    i (some { o with next := some nid }) i
                  = some { o with next := some nid } := hupd_same _ _ _
              have hrn : hupd (hupd heap nid
                    (some ⟨o.base + o.length, len, fl, none, some i⟩))
                    i (some { o with next := some nid }) nid
                  = some ⟨o.base + o.length, len, fl, none, some i⟩ := by
                rw [hupd_other _ _ _ _ (Ne.symm hine), hupd_same]
              have hsegi : Seg (hupd (hupd heap nid
                    (some ⟨o.base + o.length, len, fl, none, some i⟩))
                    i (some { o with next := some nid }))
                  none 0 (some i) [i] (some i) (o.base + o.length)
                  (some nid) :=
                Seg.cons _ _ i _ _ _ _ _ hri hprev hbase
                  (Seg.nil (some i) (o.base + o.length) (some nid))
              have hsegn : Seg (hupd (hupd heap nid
                    (some ⟨o.base + o.length, len, fl, none, some i⟩))
                    i (some { o with next := some nid }))
                  (some i) (o.base + o.length) (some nid) [nid] (some nid)
                  (o.base + o.length + len) none :=
                Seg.cons _ _ nid _ _ _ _ _ hrn rfl (le_refl _)
                  (Seg.nil (some nid) (o.base + o.length + len) none)
              exact Seg.append (Seg.append (Seg.nil none 0 (some i)) hsegi)
                hsegn
            · intro j
              by_cases hji : j = i
              · subst hji
                rw [hupd_same]
                simp [List.mem_append, List.mem_cons]
              · by_cases hjn : j = nid
                · subst hjn
                  rw [hupd_other _ _ _ _ hji, hupd_same]
                  simp [List.mem_append, List.mem_cons]
                · rw [hupd_other _ _ _ _ hji, hupd_other _ _ _ _ hjn, hids j]
                  simp only [List.mem_append, List.mem_cons, hjn,
                    List.not_mem_nil, or_false, false_or, List.nil_append]
          | cons nxt tail2 =>
            have hnext : o.next = some nxt := seg_entry hrest nxt tail2 rfl
            rw [if_neg (by rw [hnext]; simp)]
            rw [hnext]
            have hlist : ([] ++ [i]) ++ nxt :: tail2 = [] ++ i :: nxt :: tail2 := by
              simp
            have hpre2 : Seg heap none 0 (some i) ([] ++ [i]) (some i)
                (o.base + o.length) (some nxt) := by
              refine Seg.append hpre ?_
              refine Seg.cons _ _ i o [] _ _ _ ho hprev hbase ?_
              rw [hnext]
              exact Seg.nil _ _ _
            have hsuf2 : Seg heap (some i) (o.base + o.length) (some nxt)
                (nxt :: tail2) q e1 none := by
              rw [← hnext]
              exact hrest
            have hnd2 : (([] ++ [i]) ++ nxt :: tail2).Nodup := by
              rw [hlist]; exact hnd
            have hids2 : ∀ j, (heap j).isSome = true ↔
                j ∈ ([] ++ [i]) ++ nxt :: tail2 := by
              rw [hlist]; exact hids
            have hbound2 : ∀ j ∈ ([] ++ [i]) ++ nxt :: tail2, j < nid := by
              rw [hlist]; exact hbound
            have hfuel2 : tail2.length < f := by
              simp only [List.length_cons] at hfuel
              omega
            obtain ⟨heap2, base, xs, ys, f2, q2, e2, hgo, hsplit, hseg2, hids3⟩ :=
              ih heap ([] ++ [i]) tail2 (some i) (some i) (o.base + o.length)
                nxt q e1 hpre2 hsuf2 hnd2 hids2 hbound2 hfuel2
            refine ⟨heap2, base, xs, ys, f2, q2, e2, hgo, ?_, hseg2, hids3⟩
            rw [← hlist]
            exact hsplit
      · exact absurd hq (by simp)

/-- Behaviour of the free loop on a well-formed chain `front ++ i :: tail`
entered at `i`: it never hits undefined behaviour, and the resulting heap is
again a well-formed chain over a sub-list of the original ids. -/
theorem freeGo_spec (vmmStart address : Nat) :
    ∀ (fuel : Nat) (heap : Nat → Option VmObject) (head : Option Nat)
      (pages : Nat) (env : PtmEnv) (front tail : List Nat) (p f0 : Option Nat)
      (e : Nat) (i : Nat) (q : Option Nat) (e1 : Nat),
      Seg heap none 0 f0 front p e (some i) →
      Seg heap p e (some i) (i :: tail) q e1 none →
      (front ++ i :: tail).Nodup →
      (∀ j, (heap j).isSome = true ↔ j ∈ front ++ i :: tail) →
      (p = none → head = some i) →
      head ≠ none →
      tail.length + 1 < fuel →
      ∃ r heap2 head2 pages2 env2,
        freeGo vmmStart address fuel heap head pages env (some i) =
          some (r, heap2, head2, pages2, env2) ∧
        pages2 ≤ pages ∧
        ∃ ns2, ns2.Sublist (front ++ i :: tail) ∧
          (∀ j, (heap2 j).isSome = true ↔ j ∈ ns2) ∧
          (∃ f2 q2 e2, Seg heap2 none 0 f2 ns2 q2 e2 none) ∧
          (head2 = none → ns2 = []) := by
  intro fuel
  induction fuel with
  | zero =>
    intro heap head pages env front tail p f0 e i q e1 _ _ _ _ _ _ hfuel
    omega
  | succ f ih =>
    intro heap head pages env front tail p f0 e i q e1 hpre hsuf hnd hids
      hp0 hhead hfuel
    have hndf : front.Nodup := (List.nodup_append.mp hnd).1
    have hndt : (i :: tail).Nodup := (List.nodup_append.mp hnd).2.1
    have hdisj : front.Disjoint (i :: tail) := (List.nodup_append.mp hnd).2.2
    have hit : i ∉ tail := (List.nodup_cons.mp hndt).1
    obtain ⟨o, ho, hprev, hbase, -, hrest⟩ := seg_cons_inv hsuf
    simp only [freeGo]
    simp only [ho]
    by_cases hfound : o.base = address - vmmStart
    · rw [if_pos hfound]
      rcases hmp : unmapPages address o.flags (o.length / PAGE_SIZE) 0 env
        with ⟨r2, env2⟩
      cases r2 with
      | error err =>
        refine ⟨.error err, heap, head, pages, env2, rfl, le_refl _,
          front ++ i :: tail, List.Sublist.refl _, hids, ?_, ?_⟩
        · exact ⟨f0, q, e1,
            Seg.append hpre (Seg.cons _ _ i o tail _ _ _ ho hprev hbase hrest)⟩
        · intro hc; exact absurd hc hhead
      | ok u =>
        cases p with
        | some pid =>
          have hnep : (none : Option Nat) ≠ some pid := by simp
          obtain ⟨po, hpo, hpoe, hponext, hpidmem⟩ :=
            seg_exit_facts hpre pid rfl hnep hndf
          have hpidi : pid ≠ i :=
            fun hc => hdisj hpidmem (hc ▸ List.mem_cons_self i tail)
          simp only [hprev]
          rw [if_neg hpidi]
          simp only [hpo]
          simp only [hponext]
          cases tail with
          | nil =>
            obtain ⟨hq2, he2, hcn⟩ := seg_nil_inv hrest
            simp only [← hcn]
            refine ⟨.ok (), _, head, pages - o.length / PAGE_SIZE, env2, rfl,
              Nat.sub_le _ _, front, List.sublist_append_left _ _, ?_, ?_, ?_⟩
            · intro j
              by_cases hji : j = i
              · subst hji
                rw [hupd_same]
                have : j ∉ front := fun hc => hdisj hc (List.mem_cons_self j [])
                simp [this]
              · by_cases hjp : j = pid
                · subst hjp
                  rw [hupd_other _ _ _ _ hji, hupd_same]
                  simp [hpidmem]
                · rw [hupd_other _ _ _ _ hji, hupd_other _ _ _ _ hjp, hids j]
                  simp [List.mem_append, List.mem_cons, hji]
            · refine ⟨f0, some pid, e, ?_⟩
              have hpon : hupd (hupd heap pid (some { po with next := none }))
                  i none pid = some { po with next := none } := by
                rw [hupd_other _ _ _ _ hpidi, hupd_same]
              refine seg_retarget hpre pid po none rfl hnep hndf hpo
                (fun j hj hjp => ?_) hpon
              have hji : j ≠ i :=
                fun hc => hdisj hj (hc ▸ List.mem_cons_self i [])
              rw [hupd_other _ _ _ _ hji, hupd_other _ _ _ _ hjp]
            · intro hc; exact absurd hc hhead
          | cons nxt tail2 =>
            have hnext : o.next = some nxt := seg_entry hrest nxt tail2 rfl
            obtain ⟨onxt, honxt, hprevnxt, hbasenxt, -, hrest2⟩ :=
              seg_cons_inv (hnext ▸ hrest)
            have hnxtmem : nxt ∈ i :: nxt :: tail2 :=
              List.mem_cons_of_mem _ (List.mem_cons_self _ _)
            have hnxti : nxt ≠ i := fun hc =>
              (List.nodup_cons.mp hndt).1 (hc ▸ List.mem_cons_self nxt tail2)
            have hnxtpid : nxt ≠ pid :=
              fun hc => hdisj (hc ▸ hpidmem) hnxtmem
            have hnxttl : nxt ∉ tail2 :=
              (List.nodup_cons.mp (List.nodup_cons.mp hndt).2).1
            simp only [hnext]
            rw [if_neg hnxti]
            have h2nxt : hupd heap pid (some { po with next := some nxt }) nxt
                = some onxt := by
              rw [hupd_other _ _ _ _ hnxtpid]; exact honxt
            simp only [h2nxt]
            refine ⟨.ok (), _, head, pages - o.length / PAGE_SIZE, env2, rfl,
              Nat.sub_le _ _, front ++ nxt :: tail2,
              List.Sublist.append_left ((List.Sublist.refl _).cons i) front,
              ?_, ?_, ?_⟩
            · intro j
              by_cases hji : j = i
              · subst hji
                rw [hupd_same]
                have h1 : j ∉ front := fun hc => hdisj hc (List.mem_cons_self _ _)
                have h2 : j ≠ nxt := fun hc => hnxti hc.symm
                have h3 : j ∉ tail2 := fun hc =>
                  hit (List.mem_cons_of_mem _ hc)
                simp [h1, h2, h3, List.mem_append, List.mem_cons]
              · by_cases hjn : j = nxt
                · subst hjn
                  rw [hupd_other _ _ _ _ hji, hupd_same]
                  simp [List.mem_append, List.mem_cons]
                · by_cases hjp : j = pid
                  · subst hjp
                    rw [hupd_other _ _ _ _ hji, hupd_other _ _ _ _ hjn,
                      hupd_same]
                    simp [hpidmem, List.mem_append]
                  · rw [hupd_other _ _ _ _ hji, hupd_other _ _ _ _ hjn,
                      hupd_other _ _ _ _ hjp, hids j]
                    simp [List.mem_append, List.mem_cons, hji]
            · refine ⟨f0, q, e1, ?_⟩
              have hpon : hupd (hupd (hupd heap pid
                    (some { po with next := some nxt })) nxt
                    (some { onxt with prev := some pid })) i none pid
                  = some { po with next := some nxt } := by
                rw [hupd_other _ _ _ _ hpidi,
                  hupd_other _ _ _ _ (Ne.symm hnxtpid), hupd_same]
              refine Seg.append
                (seg_retarget hpre pid po (some nxt) rfl hnep hndf hpo
                  (fun j hj hjp => ?_) hpon) ?_
              · have hji : j ≠ i :=
                  fun hc => hdisj hj (hc ▸ List.mem_cons_self i _)
                have hjn : j ≠ nxt := fun hc => hdisj hj (hc ▸ hnxtmem)
                rw [hupd_other _ _ _ _ hji, hupd_other _ _ _ _ hjn,
                  hupd_other _ _ _ _ hjp]
              · have hrn : hupd (hupd (hupd heap pid
                      (some { po with next := some nxt })) nxt
                      (some { onxt with prev := some pid })) i none nxt
                    = some { onxt with prev := some pid } := by
                  rw [hupd_other _ _ _ _ hnxti, hupd_same]
                refine Seg.cons _ _ nxt _ _ _ _ _ hrn rfl
                  (by show e ≤ onxt.base; omega) ?_
                refine hrest2.congr (fun j hj => ?_)
                have hji : j ≠ i := fun hc =>
                  hit (hc ▸ List.mem_cons_of_mem _ hj)
                have hjn : j ≠ nxt := fun hc => hnxttl (hc ▸ hj)
                have hjp : j ≠ pid := fun hc =>
                  hdisj (hc ▸ hpidmem)
                    (List.mem_cons_of_mem _ (List.mem_cons_of_mem _ hj))
                rw [hupd_other _ _ _ _ hji, hupd_other _ _ _ _ hjn,
                  hupd_other _ _ _ _ hjp]
            · intro hc; exact absurd hc hhead
        | none =>
          rcases seg_exit_mem hpre with ⟨hf, -, he, hc⟩ | ⟨j, -, hq⟩
          · subst hf
            subst he
            subst hc
            have hhd : head = some i := hp0 rfl
            subst hhd
            simp only [hprev]
            cases tail with
            | nil =>
              obtain ⟨hq2, he2, hcn⟩ := seg_nil_inv hrest
              simp only [← hcn]
              refine ⟨.ok (), _, none, pages - o.length / PAGE_SIZE, env2, rfl,
                Nat.sub_le _ _, [], ?_, ?_, ?_, fun _ => rfl⟩
              · exact (List.nil_sublist _)
              · intro j
                by_cases hji : j = i
                · subst hji
                  rw [hupd_same]
                  simp
                · rw [hupd_other _ _ _ _ hji, hids j]
                  simp [List.mem_append, List.mem_cons, hji]
              · exact ⟨none, none, 0, Seg.nil none 0 none⟩
            | cons nxt tail2 =>
              have hnext : o.next = some nxt := seg_entry hrest nxt tail2 rfl
              obtain ⟨onxt, honxt, hprevnxt, hbasenxt, -, hrest2⟩ :=
                seg_cons_inv (hnext ▸ hrest)
              have hnxti : nxt ≠ i := fun hc =>
                (List.nodup_cons.mp hndt).1 (hc ▸ List.mem_cons_self nxt tail2)
              have hnxttl : nxt ∉ tail2 :=
                (List.nodup_cons.mp (List.nodup_cons.mp hndt).2).1
              simp only [hnext]
              rw [if_neg hnxti]
              simp only [honxt]
              refine ⟨.ok (), _, some nxt, pages - o.length / PAGE_SIZE, env2,
                rfl, Nat.sub_le _ _, nxt :: tail2,
                (List.Sublist.refl _).cons i, ?_, ?_, ?_⟩
              · intro j
                by_cases hji : j = i
                · subst hji
                  rw [hupd_same]
                  have h2 : j ≠ nxt := fun hc => hnxti hc.symm
                  have h3 : j ∉ tail2 := fun hc =>
                    hit (List.mem_cons_of_mem _ hc)
                  simp [h2, h3, List.mem_cons]
                · by_cases hjn : j = nxt
                  · subst hjn
                    rw [hupd_other _ _ _ _ hji, hupd_same]
                    simp [List.mem_cons]
                  · rw [hupd_other _ _ _ _ hji, hupd_other _ _ _ _ hjn,
                      hids j]
                    simp [List.mem_append, List.mem_cons, hji]
              · refine ⟨some nxt, q, e1, ?_⟩
                have hrn : hupd (hupd heap nxt
                      (some { onxt with prev := none })) i none nxt
                    = some { onxt with prev := none } := by
                  rw [hupd_other _ _ _ _ hnxti, hupd_same]
                refine Seg.cons _ _ nxt _ _ _ _ _ hrn rfl (Nat.zero_le _) ?_
                refine hrest2.congr (fun j hj => ?_)
                have hji : j ≠ i := fun hc =>
                  hit (hc ▸ List.mem_cons_of_mem _ hj)
                have hjn : j ≠ nxt := fun hc => hnxttl (hc ▸ hj)
                rw [hupd_other _ _ _ _ hji, hupd_other _ _ _ _ hjn]
              · intro hc; exact absurd hc (by simp)
          · exact absurd hq (by simp)
    · rw [if_neg hfound]
      cases tail with
      | nil =>
        obtain ⟨hq2, he2, hcn⟩ := seg_nil_inv hrest
        rw [← hcn]
        obtain ⟨f2, rfl⟩ : ∃ f2, f = f2 + 1 := ⟨f - 1, by omega⟩
        simp only [freeGo]
        refine ⟨.error (.requestedVmObjectIsNotAllocated address), heap, head,
          pages, env, rfl, le_refl _, front ++ [i], List.Sublist.refl _,
          hids, ?_, ?_⟩
        · exact ⟨f0, q, e1,
            Seg.append hpre (Seg.cons _ _ i o [] _ _ _ ho hprev hbase hrest)⟩
        · intro hc; exact absurd hc hhead
      | cons nxt tail2 =>
        have hnext : o.next = some nxt := seg_entry hrest nxt tail2 rfl
        rw [hnext]
        have hlist : (front ++ [i]) ++ nxt :: tail2 = front ++ i :: nxt :: tail2 := by
          simp
        have hpre2 : Seg heap none 0 f0 (front ++ [i]) (some i)
            (o.base + o.length) (some nxt) := by
          refine Seg.append hpre ?_
          refine Seg.cons _ _ i o [] _ _ _ ho hprev hbase ?_
          rw [hnext]
          exact Seg.nil _ _ _
        have hsuf2 : Seg heap (some i) (o.base + o.length) (some nxt)
            (nxt :: tail2) q e1 none := by
          rw [← hnext]
          exact hrest
        have hnd2 : ((front ++ [i]) ++ nxt :: tail2).Nodup := by
          rw [hlist]; exact hnd
        have hids2 : ∀ j, (heap j).isSome = true ↔
            j ∈ (front ++ [i]) ++ nxt :: tail2 := by
          rw [hlist]; exact hids
        have hfuel2 : tail2.length + 1 < f := by
          simp only [List.length_cons] at hfuel
          omega
        obtain ⟨r, heap2, head2, pages2, env2, hgo, hple, ns2, hsub, hids3,
          hseg3, hh3⟩ :=
          ih heap head pages env (front ++ [i]) tail2 (some i) f0
            (o.base + o.length) nxt q e1 hpre2 hsuf2 hnd2 hids2
            (fun hc => absurd hc (by simp)) hhead hfuel2
        refine ⟨r, heap2, head2, pages2, env2, hgo, hple, ns2, ?_, hids3,
          hseg3, hh3⟩
        rw [← hlist]
        exact hsub

theorem seg_split {heap : Nat → Option VmObject} {xs ys : List Nat} :
    ∀ {p : Option Nat} {e : Nat} {c : Option Nat} {q : Option Nat} {e1 : Nat}
      {c1 : Option Nat}, Seg heap p e c (xs ++ ys) q e1 c1 →
      ∃ pm em cm, Seg heap p e c xs pm em cm ∧ Seg heap pm em cm ys q e1 c1 := by
  induction xs with
  | nil => intro p e c q e1 c1 h; exact ⟨p, e, c, Seg.nil p e c, h⟩
  | cons a xs ih =>
    intro p e c q e1 c1 h
    obtain ⟨o, ho, hprev, hbase, rfl, hrest⟩ := seg_cons_inv h
    obtain ⟨pm, em, cm, h1, h2⟩ := ih hrest
    exact ⟨pm, em, cm, Seg.cons _ _ a o _ _ _ _ ho hprev hbase h1, h2⟩

theorem nodup_bound_length {l : List Nat} {n : Nat} (hnd : l.Nodup)
    (hb : ∀ j ∈ l, j < n) : l.length ≤ n := by
  classical
  have h1 : l.toFinset.card = l.length := List.toFinset_card_of_nodup hnd
  have h2 : l.toFinset ⊆ Finset.range n := by
    intro x hx
    exact Finset.mem_range.mpr (hb x (List.mem_toFinset.mp hx))
  have h3 := Finset.card_le_card h2
  rw [h1, Finset.card_range] at h3
  exact h3

theorem nodup_insert_fresh {xs ys : List Nat} {n : Nat}
    (h : (xs ++ ys).Nodup) (hn : n ∉ xs ++ ys) : (xs ++ n :: ys).Nodup := by
  rw [List.nodup_append] at h
  obtain ⟨h1, h2, h3⟩ := h
  rw [List.nodup_append]
  refine ⟨h1, List.nodup_cons.mpr
    ⟨fun hc => hn (List.mem_append_right _ hc), h2⟩, ?_⟩
  intro a ha hb
  rcases List.mem_cons.mp hb with rfl | hb
  · exact hn (List.mem_append_left _ ha)
  · exact h3 ha hb

/-- alloc preserves the invariant. -/
theorem alloc_preserves {s : VmmState} {env : PtmEnv} {length : Nat}
    {fl : VmFlags} {aty : AllocationType} {r : Except VmmError Nat}
    {s2 : VmmState} {env2 : PtmEnv}
    (hinv : VmmInv s) (h : s.alloc env length fl aty = some (r, s2, env2)) :
    VmmInv s2 := by
  obtain ⟨hpag, ns, hnd, ⟨f0, q0, e0, hseg, hf0⟩, hids, hbound, hhead⟩ := hinv
  simp only [VmmState.alloc] at h
  split at h
  · obtain rfl : s2 = s := congrArg (fun t => t.2.1) (Option.some.inj h).symm
    exact ⟨hpag, ns, hnd, ⟨f0, q0, e0, hseg, hf0⟩, hids, hbound, hhead⟩
  · rename_i hcap
    rw [not_lt] at hcap
    cases hh : s.head with
    | none =>
      simp only [hh] at h
      obtain rfl : ns = [] := hhead hh
      rcases hm : mapPages s.vmmStart 0 fl aty
          (alignUp length PAGE_SIZE / PAGE_SIZE) 0 env with ⟨rm, envm⟩
      rw [hm] at h
      have hs2 : s2 = { s with
          heap := hupd s.heap s.nextId
            (some ⟨0, alignUp length PAGE_SIZE, fl, none, none⟩)
          head := some s.nextId
          nextId := s.nextId + 1
          pagesAllocated := s.pagesAllocated +
            alignUp length PAGE_SIZE / PAGE_SIZE } := by
        cases rm with
        | ok u => exact (congrArg (fun t => t.2.1) (Option.some.inj h)).symm
        | error er => exact (congrArg (fun t => t.2.1) (Option.some.inj h)).symm
      have ehp : s2.heap = hupd s.heap s.nextId
          (some ⟨0, alignUp length PAGE_SIZE, fl, none, none⟩) := by rw [hs2]
      have enx : s2.nextId = s.nextId + 1 := by rw [hs2]
      have ehd : s2.head = some s.nextId := by rw [hs2]
      have epg : s2.pagesAllocated = s.pagesAllocated +
          alignUp length PAGE_SIZE / PAGE_SIZE := by rw [hs2]
      have ecp : s2.vmmPageCount = s.vmmPageCount := by rw [hs2]
      refine ⟨?_, [s.nextId], List.nodup_cons.mpr ⟨List.not_mem_nil _,
        List.nodup_nil⟩, ?_, ?_, ?_, ?_⟩
      · rw [epg, ecp]; exact hcap
      · rw [ehp]
        refine ⟨some s.nextId, some s.nextId, 0 + alignUp length PAGE_SIZE,
          ?_, rfl⟩
        refine Seg.cons _ _ s.nextId _ _ _ _ _ (hupd_same _ _ _) rfl
          (le_refl _) ?_
        exact Seg.nil (some s.nextId) (0 + alignUp length PAGE_SIZE) none
      · intro j
        rw [ehp]
        by_cases hj : j = s.nextId
        · subst hj
          rw [hupd_same]
          simp
        · rw [hupd_other _ _ _ _ hj, hids j]
          simp [hj]
      · intro j hj
        rw [enx]
        rcases List.mem_cons.mp hj with rfl | hj
        · exact Nat.lt_succ_self _
        · exact absurd hj (List.not_mem_nil j)
      · rw [ehd]
        intro hc
        exact absurd hc (by simp)
    | some hd =>
      simp only [hh] at h
      by_cases hmem : (s.heap hd).isSome = true
      · have hdmem : hd ∈ ns := (hids hd).mp hmem
        obtain ⟨front, tail, rfl⟩ := List.append_of_mem hdmem
        obtain ⟨pm, em, cm, hpre, hsuf⟩ := seg_split hseg
        obtain rfl : cm = some hd := seg_entry hsuf hd tail rfl
        have hlen : (front ++ hd :: tail).length ≤ s.nextId :=
          nodup_bound_length hnd hbound
        have hfuel : tail.length < s.nextId + 1 := by
          simp only [List.length_append, List.length_cons] at hlen
          omega
        obtain ⟨heap2, base, xs, ys, f2, q2, e2, hgo, hsplitl, hseg2, hids2⟩ :=
          allocGo_spec (alignUp length PAGE_SIZE) fl s.nextId (s.nextId + 1)
            s.heap front tail pm f0 em hd q0 e0 hpre hsuf hnd hids hbound hfuel
        simp only [hgo] at h
        rcases hm : mapPages s.vmmStart base fl aty
            (alignUp length PAGE_SIZE / PAGE_SIZE) 0 env with ⟨rm, envm⟩
        rw [hm] at h
        have hs2 : s2 = { s with
            heap := heap2
            head := some hd
            nextId := s.nextId + 1
            pagesAllocated := s.pagesAllocated +
              alignUp length PAGE_SIZE / PAGE_SIZE } := by
          cases rm with
          | ok u => exact (congrArg (fun t => t.2.1) (Option.some.inj h)).symm
          | error er => exact (congrArg (fun t => t.2.1) (Option.some.inj h)).symm
        have ehp : s2.heap = heap2 := by rw [hs2]
        have enx : s2.nextId = s.nextId + 1 := by rw [hs2]
        have ehd : s2.head = some hd := by rw [hs2]
        have epg : s2.pagesAllocated = s.pagesAllocated +
            alignUp length PAGE_SIZE / PAGE_SIZE := by rw [hs2]
        have ecp : s2.vmmPageCount = s.vmmPageCount := by rw [hs2]
        have hnin : s.nextId ∉ xs ++ ys := by
          rw [← hsplitl]
          intro hc
          exact absurd (hbound _ hc) (lt_irrefl _)
        refine ⟨?_, xs ++ s.nextId :: ys, ?_, ?_, ?_, ?_, ?_⟩
        · rw [epg, ecp]; exact hcap
        · refine nodup_insert_fresh ?_ hnin
          rw [← hsplitl]
          exact hnd
        · rw [ehp]
          exact fullchain_of_seg hseg2
        · intro j
          rw [ehp]
          exact hids2 j
        · intro j hj
          rw [enx]
          rcases List.mem_append.mp hj with hj | hj
          · have hjm : j ∈ xs ++ ys := List.mem_append_left _ hj
            rw [← hsplitl] at hjm
            exact Nat.lt_succ_of_lt (hbound j hjm)
          · rcases List.mem_cons.mp hj with rfl | hj
            · exact Nat.lt_succ_self _
            · have hjm : j ∈ xs ++ ys := List.mem_append_right _ hj
              rw [← hsplitl] at hjm
              exact Nat.lt_succ_of_lt (hbound j hjm)
        · rw [ehd]
          intro hc
          exact absurd hc (by simp)
      · have hnone : s.heap hd = none := by
          cases hcase : s.heap hd with
          | none => rfl
          | some o => rw [hcase] at hmem; exact absurd rfl hmem
        simp only [allocGo, hnone] at h
        exact absurd h (by simp)

/-- free preserves the invariant. -/
theorem free_preserves {s : VmmState} {env : PtmEnv} {a : Nat}
    {r : Except VmmError Unit} {s2 : VmmState} {env2 : PtmEnv}
    (hinv : VmmInv s) (h : s.free env a = some (r, s2, env2)) : VmmInv s2 := by
  obtain ⟨hpag, ns, hnd, ⟨f0, q0, e0, hseg, hf0⟩, hids, hbound, hhead⟩ := hinv
  simp only [VmmState.free] at h
  split at h
  · exact absurd h (by simp)
  · cases hh : s.head with
    | none =>
      obtain rfl : ns = [] := hhead hh
      rw [hh] at h
      simp only [freeGo] at h
      have hs2 : s2 = { s with
          heap := s.heap
          head := none
          pagesAllocated := s.pagesAllocated } :=
        (congrArg (fun t => t.2.1) (Option.some.inj h)).symm
      have ehp : s2.heap = s.heap := by rw [hs2]
      have enx : s2.nextId = s.nextId := by rw [hs2]
      have ehd : s2.head = none := by rw [hs2]
      have epg : s2.pagesAllocated = s.pagesAllocated := by rw [hs2]
      have ecp : s2.vmmPageCount = s.vmmPageCount := by rw [hs2]
      refine ⟨?_, [], List.nodup_nil, ?_, ?_, ?_, fun _ => rfl⟩
      · rw [epg, ecp]; exact hpag
      · rw [ehp]; exact ⟨f0, q0, e0, hseg, hf0⟩
      · intro j; rw [ehp]; exact hids j
      · intro j hj; exact absurd hj (List.not_mem_nil j)
    | some hd =>
      rw [hh] at h
      by_cases hmem : (s.heap hd).isSome = true
      · have hdmem : hd ∈ ns := (hids hd).mp hmem
        obtain ⟨front, tail, rfl⟩ := List.append_of_mem hdmem
        obtain ⟨pm, em, cm, hpre, hsuf⟩ := seg_split hseg
        obtain rfl : cm = some hd := seg_entry hsuf hd tail rfl
        have hlen : (front ++ hd :: tail).length ≤ s.nextId :=
          nodup_bound_length hnd hbound
        have hfuel : tail.length + 1 < s.nextId + 1 := by
          simp only [List.length_append, List.length_cons] at hlen
          omega
        obtain ⟨r2, heap2, head2, pages2, env3, hgo, hple, ns2, hsub, hids3,
          ⟨ff, qq, ee, hseg3⟩, hh3⟩ :=
          freeGo_spec s.vmmStart a (s.nextId + 1) s.heap (some hd)
            s.pagesAllocated env front tail pm f0 em hd q0 e0 hpre hsuf hnd
            hids (fun _ => rfl) (by simp) hfuel
        simp only [hgo] at h
        have hs2 : s2 = { s with
            heap := heap2
            head := head2
            pagesAllocated := pages2 } :=
          (congrArg (fun t => t.2.1) (Option.some.inj h)).symm
        have ehp : s2.heap = heap2 := by rw [hs2]
        have enx : s2.nextId = s.nextId := by rw [hs2]
        have ehd : s2.head = head2 := by rw [hs2]
        have epg : s2.pagesAllocated = pages2 := by rw [hs2]
        have ecp : s2.vmmPageCount = s.vmmPageCount := by rw [hs2]
        refine ⟨?_, ns2, hnd.sublist hsub, ?_, ?_, ?_, ?_⟩
        · rw [epg, ecp]; exact le_trans hple hpag
        · rw [ehp]; exact fullchain_of_seg hseg3
        · intro j; rw [ehp]; exact hids3 j
        · intro j hj
          rw [enx]
          exact hbound j (hsub.subset hj)
        · rw [ehd]; exact hh3
      · have hnone : s.heap hd = none := by
          cases hcase : s.heap hd with
          | none => rfl
          | some o => rw [hcase] at hmem; exact absurd rfl hmem
        simp only [freeGo, hnone] at h
        exact absurd h (by simp)

theorem runOp_preserves {s : VmmState} {env : PtmEnv} {op : VmmOp}
    {r : Except VmmError Nat} {s2 : VmmState} {env2 : PtmEnv}
    (hinv : VmmInv s) (h : runOp s env op = some (r, s2, env2)) : VmmInv s2 := by
  cases op with
  | allocOp len fl aty => exact alloc_preserves hinv h
  | freeOp a =>
    simp only [runOp] at h
    rcases hf : s.free env a with - | ⟨r3, s3, env3⟩
    · rw [hf] at h; exact absurd h (by simp)
    · rw [hf] at h
      cases r3 with
      | ok u =>
        obtain rfl : s3 = s2 := congrArg (fun t => t.2.1) (Option.some.inj h)
        exact free_preserves hinv hf
      | error er =>
        obtain rfl : s3 = s2 := congrArg (fun t => t.2.1) (Option.some.inj h)
        exact free_preserves hinv hf

theorem runOps_preserves :
    ∀ (ops : List VmmOp) (s : VmmState) (env : PtmEnv)
      (rs : List (Except VmmError Nat)) (s2 : VmmState) (env2 : PtmEnv),
      VmmInv s → runOps ops s env = some (rs, s2, env2) → VmmInv s2 := by
  intro ops
  induction ops with
  | nil =>
    intro s env rs s2 env2 hinv h
    simp only [runOps] at h
    obtain rfl : s = s2 := congrArg (fun t => t.2.1) (Option.some.inj h)
    exact hinv
  | cons op rest ih =>
    intro s env rs s2 env2 hinv h
    simp only [runOps] at h
    rcases h1 : runOp s env op with - | ⟨r3, s3, env3⟩
    · rw [h1] at h; exact absurd h (by simp)
    · simp only [h1] at h
      rcases h2 : runOps rest s3 env3 with - | ⟨rs4, s4, env4⟩
      · rw [h2] at h; exact absurd h (by simp)
      · simp only [h2] at h
        obtain rfl : s4 = s2 := congrArg (fun t => t.2.1) (Option.some.inj h)
        exact ih s3 env3 rs4 s4 env4 (runOp_preserves hinv h1) h2

theorem init_inv (start count : Nat) : VmmInv (VmmState.init start count) :=
  ⟨Nat.zero_le _, [], List.nodup_nil,
    ⟨none, none, 0, Seg.nil none 0 none, rfl⟩,
    fun j => by simp [VmmState.init],
    fun j hj => absurd hj (List.not_mem_nil j), fun _ => rfl⟩

/-- When granting the rounded-up request would exceed the capacity, alloc
fails with OutOfMemory and changes nothing. -/
theorem alloc_oom (s : VmmState) (env : PtmEnv) (length : Nat) (fl : VmFlags)
    (aty : AllocationType)
    (h : s.vmmPageCount < s.pagesAllocated + alignUp length PAGE_SIZE / PAGE_SIZE) :
    s.alloc env length fl aty = some (.error .outOfMemory, s, env) := by
  simp only [VmmState.alloc]
  rw [if_pos h]

theorem vmm_params :
    ∀ (ops : List VmmOp) (s : VmmState) (env : PtmEnv)
      (rs : List (Except VmmError Nat)) (s2 : VmmState) (env2 : PtmEnv),
      runOps ops s env = some (rs, s2, env2) →
      s2.vmmPageCount = s.vmmPageCount ∧ s2.vmmStart = s.vmmStart := by
  have hop : ∀ (s : VmmState) (env : PtmEnv) (op : VmmOp)
      (r : Except VmmError Nat) (s2 : VmmState) (env2 : PtmEnv),
      runOp s env op = some (r, s2, env2) →
      s2.vmmPageCount = s.vmmPageCount ∧ s2.vmmStart = s.vmmStart := by
    intro s env op r s2 env2 h
    cases op with
    | allocOp len fl aty =>
      simp only [runOp, VmmState.alloc] at h
      split at h
      · obtain rfl : s = s2 := congrArg (fun t => t.2.1) (Option.some.inj h)
        exact ⟨rfl, rfl⟩
      · split at h
        · exact absurd h (by simp)
        · split at h
          · rename_i u envm heq
            obtain rfl : s2 = _ :=
              (congrArg (fun t => t.2.1) (Option.some.inj h)).symm
            exact ⟨rfl, rfl⟩
          · rename_i er envm heq
            obtain rfl : s2 = _ :=
              (congrArg (fun t => t.2.1) (Option.some.inj h)).symm
            exact ⟨rfl, rfl⟩
    | freeOp a =>
      simp only [runOp] at h
      rcases hf : s.free env a with - | ⟨r3, s3, env3⟩
      · rw [hf] at h; exact absurd h (by simp)
      · simp only [hf] at h
        have hparts : s3.vmmPageCount = s.vmmPageCount ∧
            s3.vmmStart = s.vmmStart := by
          simp only [VmmState.free] at hf
          split at hf
          · exact absurd hf (by simp)
          · split at hf
            · exact absurd hf (by simp)
            · rename_i r4 heap4 head4 pages4 env4 heq
              obtain rfl : s3 = _ :=
                (congrArg (fun t => t.2.1) (Option.some.inj hf)).symm
              exact ⟨rfl, rfl⟩
        cases r3 with
        | ok u =>
          obtain rfl : s3 = s2 := congrArg (fun t => t.2.1) (Option.some.inj h)
          exact hparts
        | error er =>
          obtain rfl : s3 = s2 := congrArg (fun t => t.2.1) (Option.some.inj h)
          exact hparts
  intro ops
  induction ops with
  | nil =>
    intro s env rs s2 env2 h
    simp only [runOps] at h
    obtain rfl : s = s2 := congrArg (fun t => t.2.1) (Option.some.inj h)
    exact ⟨rfl, rfl⟩
  | cons op rest ih =>
    intro s env rs s2 env2 h
    simp only [runOps] at h
    rcases h1 : runOp s env op with - | ⟨r3, s3, env3⟩
    · rw [h1] at h; exact absurd h (by simp)
    · simp only [h1] at h
      rcases h2 : runOps rest s3 env3 with - | ⟨rs4, s4, env4⟩
      · rw [h2] at h; exact absurd h (by simp)
      · simp only [h2] at h
        obtain rfl : s4 = s2 := congrArg (fun t => t.2.1) (Option.some.inj h)
        obtain ⟨e1, e2⟩ := ih s3 env3 rs4 s4 env4 h2
        obtain ⟨e3, e4⟩ := hop s env op r3 s3 env3 h1
        exact ⟨e1.trans e3, e2.trans e4⟩

def c1Ops : List VmmOp := [.allocOp 4096 roFlags .anyPages]

def c1State : VmmState where
  heap := fun j => if j = 0 then some ⟨0, 4096, roFlags, none, none⟩ else none
  nextId := 1
  head := some 0
  vmmStart := VIRTUAL_VMM_BASE
  vmmPageCount := VMM_PAGE_COUNT
  pagesAllocated := 1

def c1Env : PtmEnv := ⟨[], [(VIRTUAL_VMM_BASE, 0x1000)], []⟩

/-- C1 (amended): for every sequence of alloc/free calls from an empty
allocator that runs without undefined behaviour, the allocated region
objects are pairwise non-overlapping, the running page total never exceeds
the configured window capacity, and alloc returns OutOfMemory whenever the
rounded-up request — as the program computes it, with `align_up`'s wrapping
u64 arithmetic — would exceed that capacity.  (The unamended reading fails:
see the counterexample below, where a request within 4095 bytes of `2^64`
wraps to zero pages and is granted.) -/
theorem vmm_objects_invariant (ops : List VmmOp) (start cap : Nat)
    (frames : List Nat) (rs : List (Except VmmError Nat)) (s : VmmState)
    (env : PtmEnv)
    (h : runOps ops (VmmState.init start cap) (PtmEnv.init frames) =
      some (rs, s, env)) :
    disjointObjects s.heap ∧ s.pagesAllocated ≤ cap ∧ s.vmmPageCount = cap ∧
    (∀ (length : Nat) (fl : VmFlags) (aty : AllocationType) (env0 : PtmEnv),
      cap < s.pagesAllocated + alignUp length PAGE_SIZE / PAGE_SIZE →
      s.alloc env0 length fl aty = some (.error .outOfMemory, s, env0)) := by
  have hinv := runOps_preserves ops _ _ rs s env (init_inv start cap) h
  obtain ⟨hcap, hstart⟩ := vmm_params ops _ _ rs s env h
  have hcap2 : s.vmmPageCount = cap := hcap
  refine ⟨inv_disjoint hinv, ?_, hcap2, ?_⟩
  · have h1 := hinv.1
    rw [hcap2] at h1
    exact h1
  · intro length fl aty env0 hlt
    refine alloc_oom s env0 length fl aty ?_
    rw [hcap2]
    exact hlt

theorem vmm_objects_invariant_witness :
    disjointObjects c1State.heap ∧ c1State.pagesAllocated ≤ VMM_PAGE_COUNT ∧
    c1State.vmmPageCount = VMM_PAGE_COUNT ∧
    (∀ (length : Nat) (fl : VmFlags) (aty : AllocationType) (env0 : PtmEnv),
      VMM_PAGE_COUNT < c1State.pagesAllocated +
        alignUp length PAGE_SIZE / PAGE_SIZE →
      c1State.alloc env0 length fl aty =
        some (.error .outOfMemory, c1State, env0)) :=
  vmm_objects_invariant c1Ops VIRTUAL_VMM_BASE VMM_PAGE_COUNT [0x1000]
    [.ok VIRTUAL_VMM_BASE] c1State c1Env (by rfl)

/-- C1: counterexample to the claim's OutOfMemory conjunct as literally
stated.  `align_up` does wrapping u64 arithmetic, so `alloc(usize::MAX)` on
a fresh allocator rounds the request to zero pages and returns Ok — granting
an empty region at the window base and leaving the page total at 0 — even
though the mathematically rounded-up request, `ceil((2^64 - 1) / 4096)`
pages, far exceeds the configured window capacity. -/
theorem alloc_overflow_no_oom :
    VMM_PAGE_COUNT < (2 ^ 64 - 1 + (PAGE_SIZE - 1)) / PAGE_SIZE ∧
    alignUp (2 ^ 64 - 1) PAGE_SIZE = 0 ∧
    ((VmmState.init VIRTUAL_VMM_BASE VMM_PAGE_COUNT).alloc (PtmEnv.init [])
        (2 ^ 64 - 1) rwFlags .anyPages).map
        (fun t => (t.1, t.2.1.pagesAllocated)) =
      some (.ok VIRTUAL_VMM_BASE, 0) :=
  ⟨by decide, by decide, by rfl⟩

/-! ## Task scheduler (chicken-kernel/src/scheduling/)

Threads of a process form a linked list starting at `main_thread`; the model
keeps them as a `List Thread` in list order (index 0 = main thread) and
represents the `active_thread` pointer as an index.  Processes likewise form
a linked list starting at the scheduler's `head` and are kept as a
`List Process` (index 0 = idle); the `active_task` pointer is represented by
the process id, which is unique.  `context` pointers are opaque numbers.
Panics (`assert!`, `unwrap`) and dangling dereferences yield `none`.

The repository's `scheduling/mod.rs` predates `task/process.rs`
(`get_next_thread` is called there without the `uptime` argument and thread
statuses are written through the older `TaskStatus`); the model follows the
cited `process.rs` (`get_next_thread(uptime)`, `ThreadStatus` with
`Sleep(wake_time_ms)`) and threads `uptime` through `schedule`. -/

inductive ThreadStatus where
  | ready
  | running
  | dead
  | sleep (wakeTimeMs : Nat)
deriving DecidableEq, Repr

inductive TaskStatus where
  | ready
  | running
  | dead
deriving DecidableEq, Repr

/-- task/thread.rs `Thread` (scheduling-relevant fields). -/
structure Thread where
  context : Nat
  tid : Nat
  status : ThreadStatus
  joins : Option (List Nat)
deriving DecidableEq, Repr

/-- task/process.rs `Process` (scheduling-relevant fields): `threads` is the
`main_thread` list in order, `active` the index of `active_thread`. -/
structure Process where
  pid : Nat
  status : TaskStatus
  threads : List Thread
  active : Option Nat
deriving DecidableEq, Repr

/-- scheduling/mod.rs `TaskScheduler`. -/
structure Scheduler where
  processes : List Process
  active : Option Nat
  idCounter : Nat
deriving DecidableEq, Repr

inductive NextThread where
  | none
  | taskDead
  | found (index : Nat)
deriving DecidableEq, Repr

def modifyAt : List Thread → Nat → (Thread → Thread) → List Thread
  | [], _, _ => []
  | t :: rest, 0, f => f t :: rest
  | t :: rest, k + 1, f => t :: modifyAt rest k f

def findProcess : List Process → Nat → Option Process
  | [], _ => Option.none
  | p :: rest, pid => if p.pid = pid then some p else findProcess rest pid

def updateProcess (ps : List Process) (pid : Nat) (f : Process → Process) :
    List Process :=
  ps.map (fun p => if p.pid = pid then f p else p)

/-- The pid of the process after `pid` in the list (`process.next`). -/
def succPid : List Process → Nat → Option Nat
  | [], _ => Option.none
  | p :: rest, pid =>
    if p.pid = pid then rest.head?.map Process.pid else succPid rest pid

/-- `Process::is_dead` (process.rs 275-302): dead status, dead main thread,
or every thread dead; panics (`none`) when there is no main thread. -/
def Process.isDead (p : Process) : Option Bool :=
  if p.status = TaskStatus.dead then some true
  else
    match p.threads with
    | [] => Option.none
    | m :: _ =>
      if m.status = ThreadStatus.dead then some true
      else some (p.threads.all (fun t => decide (t.status = ThreadStatus.dead)))

/-- The wake-up check at the top of the scan loop (process.rs 250-254). -/
def wakeStep (uptime : Nat) (t : Thread) : Thread :=
  match t.status with
  | ThreadStatus.sleep w =>
    if uptime ≥ w then { t with status := ThreadStatus.ready } else t
  | _ => t

/-- The `while let Some(mut thread) = next_thread` scan of
`Process::get_next_thread` (process.rs 247-261), acting on the threads after
the active one: wakes due sleepers as it passes and stops at the first Ready
thread, returning the updated list and the offset of the hit. -/
def scanThreads (uptime : Nat) : List Thread → List Thread × Option Nat
  | [] => ([], Option.none)
  | t :: rest =>
    if (wakeStep uptime t).status = ThreadStatus.ready then
      (wakeStep uptime t :: rest, some 0)
    else
      (wakeStep uptime t :: (scanThreads uptime rest).1,
        (scanThreads uptime rest).2.map (· + 1))

/-- `Process::get_next_thread` (process.rs 238-271).  The scan starts at
`active_thread.next` and runs to the END of the list — it does not wrap
around to the main thread. -/
def Process.getNextThread (p : Process) (uptime : Nat) :
    Option (NextThread × Process) :=
  match p.isDead with
  | Option.none => Option.none
  | some true => some (NextThread.taskDead, p)
  | some false =>
    match p.active with
    | Option.none => Option.none
    | some k =>
      if k < p.threads.length then
        match scanThreads uptime (p.threads.drop (k + 1)) with
        | (suf2, Option.none) =>
          some (NextThread.none,
            { p with threads := p.threads.take (k + 1) ++ suf2 })
        | (suf2, some off) =>
          some (NextThread.found (k + 1 + off),
            { p with threads := p.threads.take (k + 1) ++ suf2 })
      else Option.none

/-- `TaskScheduler::remove_task` (mod.rs 376-445): asserts that the task is
neither active nor the idle head, finds it and unlinks it (dropping its
threads; the accompanying VMM frees are abstracted away).  An assertion
failure or a `TaskNotFound` error — unwrapped by the caller — is `none`. -/
def removeTask (s : Scheduler) (pid : Nat) : Option Scheduler :=
  match s.active with
  | Option.none => Option.none
  | some apid =>
    if apid = pid then Option.none
    else
      match s.processes.head? with
      | Option.none => Option.none
      | some h =>
        if h.pid = pid then Option.none
        else if s.processes.any (fun p => p.pid = pid) then
          some { s with processes := s.processes.filter (fun p => p.pid ≠ pid) }
        else Option.none

/-- The scan loop of `TaskScheduler::get_next_process` (mod.rs 312-332):
breaks at the active task's pid or at a Ready task, removes Dead tasks on the
way, skips Running ones, and wraps from the list end to `head`. -/
def getNextProcessGo (apid : Nat) :
    Nat → Scheduler → Option Nat → Option (Scheduler × Option Nat)
  | 0, _, _ => Option.none
  | _ + 1, s, Option.none => some (s, Option.none)
  | fuel + 1, s, some cpid =>
    match findProcess s.processes cpid with
    | Option.none => Option.none
    | some cur =>
      if cur.pid = apid then some (s, some cpid)
      else
        match cur.status with
        | TaskStatus.ready => some (s, some cpid)
        | TaskStatus.dead =>
          match removeTask s cur.pid with
          | Option.none => Option.none
          | some s2 =>
            match succPid s.processes cpid with
            | some n => getNextProcessGo apid fuel s2 (some n)
            | Option.none => getNextProcessGo apid fuel s2
                (s2.processes.head?.map Process.pid)
        | TaskStatus.running =>
          match succPid s.processes cpid with
          | some n => getNextProcessGo apid fuel s (some n)
          | Option.none => getNextProcessGo apid fuel s
              (s.processes.head?.map Process.pid)

/-- `TaskScheduler::get_next_process` (mod.rs 304-335). -/
def getNextProcess (s : Scheduler) (apid : Nat) :
    Option (Scheduler × Option Nat) :=
  match findProcess s.processes apid with
  | Option.none => Option.none
  | some ap =>
    getNextProcessGo apid (2 * s.processes.length + 2) s
      (match succPid s.processes apid with
        | some n => some n
        | Option.none => s.processes.head?.map Process.pid)

/-- `TaskScheduler::switch_processes` (mod.rs 243-302).  When a next task is
found it is marked Running and made active, and the function returns the
context of that task's MAIN thread — `next_active_task_ref.main_thread
.unwrap().as_ref().context` — without inspecting that thread's status or
wake time (the page-table switching block is abstracted away). -/
def switchProcesses (s : Scheduler) (apid : Nat) (context : Nat) :
    Option (Nat × Scheduler) :=
  match getNextProcess s apid with
  | Option.none => Option.none
  | some (s2, Option.none) => some (context, s2)
  | some (s2, some npid) =>
    match findProcess s2.processes apid with
    | Option.none => Option.none
    | some ap =>
      match findProcess
          ((updateProcess
            (if ap.status ≠ TaskStatus.dead then
              updateProcess s2.processes apid
                (fun p => { p with status := TaskStatus.ready })
            else s2.processes)
            npid (fun p => { p with status := TaskStatus.running }))) npid with
      | Option.none => Option.none
      | some np =>
        match np.threads with
        | [] => Option.none
        | m :: _ =>
          some (m.context,
            { s2 with
                processes :=
                  updateProcess
                    (if ap.status ≠ TaskStatus.dead then
                      updateProcess s2.processes apid
                        (fun p => { p with status := TaskStatus.ready })
                    else s2.processes)
                    npid (fun p => { p with status := TaskStatus.running })
                active := some npid })

/-- `TaskScheduler::schedule` (mod.rs 184-241), with `uptime` threaded to
`get_next_thread`. -/
def schedule (s : Scheduler) (context : Nat) (uptime : Nat) :
    Option (Nat × Scheduler) :=
  match s.active with
  | some apid =>
    match findProcess s.processes apid with
    | Option.none => Option.none
    | some p =>
      match p.getNextThread uptime with
      | Option.none => Option.none
      | some (NextThread.none, p2) =>
        match p2.active with
        | Option.none => Option.none
        | some k =>
          match p2.threads[k]? with
          | Option.none => Option.none
          | some t =>
            switchProcesses
              { s with processes :=
                  (updateProcess s.processes apid (fun _ =>
                    { p2 with
                        threads :=
                          (if t.status ≠ ThreadStatus.dead then
                            modifyAt p2.threads k (fun th =>
                              { th with
                                  status := ThreadStatus.ready
                                  context := context })
                          else p2.threads)
                        active :=
                          (if p2.threads.isEmpty then Option.none
                          else some 0) })) }
              apid context
      | some (NextThread.taskDead, p2) =>
        switchProcesses
          { s with processes :=
              (updateProcess s.processes apid
                (fun _ => { p2 with status := TaskStatus.dead })) }
          apid context
      | some (NextThread.found idx, p2) =>
        match p2.active with
        | Option.none => Option.none
        | some k =>
          match p2.threads[k]? with
          | Option.none => Option.none
          | some t =>
            match p2.threads[idx]? with
            | Option.none => Option.none
            | some nt =>
              some (nt.context,
                { s with processes :=
                    (updateProcess s.processes apid (fun _ =>
                      { p2 with
                          threads :=
                            (modifyAt
                              (if t.status ≠ ThreadStatus.dead then
                                modifyAt p2.threads k (fun th =>
                                  { th with
                                      status := ThreadStatus.ready
                                      context := context })
                              else p2.threads)
                              idx
                              (fun th =>
                                { th with status := ThreadStatus.running }))
                          active := some idx })) })
  | Option.none =>
    match s.processes with
    | [] => Option.none
    | idle :: rest =>
      match idle.threads with
      | [] => Option.none
      | m :: ts =>
        some (m.context,
          { s with
              processes :=
                { idle with
                    status := TaskStatus.running
                    active := some 0
                    threads := { m with status := ThreadStatus.running } :: ts }
                  :: rest
              active := some idle.pid })

/-- Whether kill_active may mark the caller dead: the
`check for any joins` loop of `GlobalTaskScheduler::kill_active`
(mod.rs 77-94). -/
def canDie (p : Process) (t : Thread) : Bool :=
  match t.joins with
  | Option.none => true
  | some js =>
    !(p.threads.any (fun th =>
      decide (th.tid ≠ t.tid) && decide (th.status ≠ ThreadStatus.dead) &&
        js.contains th.tid))

/-- One iteration of the `GlobalTaskScheduler::kill_active` loop body
(mod.rs 63-103): mark the active thread Dead exactly when no joined,
non-dead sibling remains. -/
def killActiveAttempt (s : Scheduler) : Option Scheduler :=
  match s.active with
  | Option.none => Option.none
  | some apid =>
    match findProcess s.processes apid with
    | Option.none => Option.none
    | some p =>
      match p.active with
      | Option.none => Option.none
      | some k =>
        match p.threads[k]? with
        | Option.none => Option.none
        | some t =>
          if canDie p t && decide (t.status ≠ ThreadStatus.dead) then
            some { s with processes :=
                (updateProcess s.processes apid (fun q =>
                  { q with threads :=
                      (modifyAt q.threads k (fun th =>
                        { th with status := ThreadStatus.dead })) })) }
          else some s

/-- `GlobalTaskScheduler::join` (mod.rs 106-128): push the handle's tid onto
the active thread's join list. -/
def joinOp (s : Scheduler) (handleTid : Nat) : Option Scheduler :=
  match s.active with
  | Option.none => Option.none
  | some apid =>
    match findProcess s.processes apid with
    | Option.none => Option.none
    | some p =>
      match p.active with
      | Option.none => Option.none
      | some k =>
        match p.threads[k]? with
        | Option.none => Option.none
        | some t =>
          some { s with processes :=
              (updateProcess s.processes apid (fun q =>
                { q with threads :=
                    (modifyAt q.threads k (fun th =>
                      { th with joins :=
                          (match th.joins with
                            | some js => some (js ++ [handleTid])
                            | Option.none => some [handleTid]) })) })) }

/-! ### Concrete executions -/

/-- C6 counterexample: the main thread (index 0) is Ready, the active thread
is the last list entry, so the scan suffix is empty. -/
def c6P : Process :=
  { pid := 1
    status := TaskStatus.running
    threads :=
      [ ⟨100, 1, ThreadStatus.ready, Option.none⟩
      , ⟨200, 2, ThreadStatus.running, Option.none⟩ ]
    active := some 1 }


/-- C7 counterexample: idle process 0 active; process 1 Ready with a main
thread sleeping until 100. -/
def c7S : Scheduler :=
  { processes :=
      [ { pid := 0
          status := TaskStatus.running
          threads := [⟨50, 1, ThreadStatus.running, Option.none⟩]
          active := some 0 }
      , { pid := 1
          status := TaskStatus.ready
          threads := [⟨777, 1, ThreadStatus.sleep 100, Option.none⟩]
          active := some 0 } ]
    active := some 0
    idCounter := 2 }

def c7Run : Option (Nat × ThreadStatus) :=
  match schedule c7S 5 0 with
  | Option.none => Option.none
  | some (ctx, s2) =>
    match findProcess s2.processes 1 with
    | Option.none => Option.none
    | some p =>
      match p.threads with
      | [] => Option.none
      | m :: _ => some (ctx, m.status)


/-! ### Characterization of the thread scan -/

/-- A thread the scan would stop at: Ready, or asleep with its wake time
reached. -/
def readyAfterWake (uptime : Nat) (t : Thread) : Prop :=
  (wakeStep uptime t).status = ThreadStatus.ready

instance (uptime : Nat) (t : Thread) : Decidable (readyAfterWake uptime t) :=
  inferInstanceAs (Decidable ((wakeStep uptime t).status = ThreadStatus.ready))

theorem scanThreads_none (uptime : Nat) :
    ∀ l : List Thread, (scanThreads uptime l).2 = Option.none ↔
      ∀ t ∈ l, ¬ readyAfterWake uptime t := by
  intro l
  induction l with
  | nil => simp [scanThreads]
  | cons t rest ih =>
    simp only [scanThreads]
    by_cases h : (wakeStep uptime t).status = ThreadStatus.ready
    · rw [if_pos h]
      constructor
      · intro hc; exact absurd hc (by simp)
      · intro hall
        exact absurd h (hall t (List.mem_cons_self _ _))
    · rw [if_neg h]
      constructor
      · intro hn t2 ht2
        rcases List.mem_cons.mp ht2 with rfl | ht2
        · exact h
        · have h2 : (scanThreads uptime rest).2 = Option.none := by
            rcases hsc : (scanThreads uptime rest).2 with - | o2
            · rfl
            · rw [hsc] at hn; exact absurd hn (by simp)
          exact (ih.mp h2) t2 ht2
      · intro hall
        have h2 : (scanThreads uptime rest).2 = Option.none :=
          ih.mpr (fun t2 ht2 => hall t2 (List.mem_cons_of_mem _ ht2))
        rw [h2]
        rfl

theorem scanThreads_found (uptime : Nat) :
    ∀ (l : List Thread) (off : Nat), (scanThreads uptime l).2 = some off →
      ∃ t, l[off]? = some t ∧ readyAfterWake uptime t := by
  intro l
  induction l with
  | nil => intro off h; exact absurd h (by simp [scanThreads])
  | cons t rest ih =>
    intro off h
    simp only [scanThreads] at h
    by_cases hr : (wakeStep uptime t).status = ThreadStatus.ready
    · rw [if_pos hr] at h
      obtain rfl : off = 0 := by
        have := Option.some.inj h
        omega
      exact ⟨t, by simp, hr⟩
    · rw [if_neg hr] at h
      rcases hsc : (scanThreads uptime rest).2 with - | off2
      · rw [hsc] at h; exact absurd h (by simp)
      · rw [hsc] at h
        simp only [Option.map_some'] at h
        obtain rfl : off = off2 + 1 := (Option.some.inj h).symm
        obtain ⟨t2, h1, h2⟩ := ih off2 hsc
        refine ⟨t2, ?_, h2⟩
        simpa using h1

/-- C6 amended: the scan starts after the active thread and runs linearly to
the end of the list without wrapping: "none found" means no thread AFTER the
active position is Ready or due to wake (a Ready thread before the active
one, such as the main thread, is not examined); a found thread always lies
after the active position; a fully dead process is signalled Dead. -/
theorem thread_scan_amended (p : Process) (uptime k : Nat) (r : NextThread)
    (p2 : Process) (hk : p.active = some k)
    (h : p.getNextThread uptime = some (r, p2)) :
    ((∀ t ∈ p.threads, t.status = ThreadStatus.dead) → r = NextThread.taskDead) ∧
    (r = NextThread.none → ∀ j t, k < j → p.threads[j]? = some t →
      ¬ readyAfterWake uptime t) ∧
    (∀ idx, r = NextThread.found idx → k < idx ∧
      ∃ t, p.threads[idx]? = some t ∧ readyAfterWake uptime t) := by
  unfold Process.getNextThread at h
  rcases hd : p.isDead with - | b
  · rw [hd] at h; exact absurd h (by simp)
  · simp only [hd] at h
    cases b with
    | true =>
      have hr : r = NextThread.taskDead :=
        (congrArg (fun t => t.1) (Option.some.inj h)).symm
      subst hr
      refine ⟨fun _ => rfl, fun hc => absurd hc (by simp), ?_⟩
      intro idx hc
      exact absurd hc (by simp)
    | false =>
      simp only [hk] at h
      by_cases hkl : k < p.threads.length
      · rw [if_pos hkl] at h
        have hdead : ¬ ∀ t ∈ p.threads, t.status = ThreadStatus.dead := by
          intro hall
          unfold Process.isDead at hd
          rcases hth : p.threads with - | ⟨m, rest⟩
          · rw [hth] at hkl; exact absurd hkl (by simp)
          · have hm : m.status = ThreadStatus.dead :=
              hall m (by rw [hth]; exact List.mem_cons_self _ _)
            by_cases hps : p.status = TaskStatus.dead
            · rw [if_pos hps] at hd; exact absurd hd (by simp)
            · rw [if_neg hps] at hd
              simp only [hth] at hd
              rw [if_pos hm] at hd
              exact absurd hd (by simp)
        rcases hsc : scanThreads uptime (p.threads.drop (k + 1))
          with ⟨suf2, - | off⟩
        · simp only [hsc] at h
          have hr : r = NextThread.none :=
            (congrArg (fun t => t.1) (Option.some.inj h)).symm
          subst hr
          refine ⟨fun hall => absurd hall hdead, ?_, ?_⟩
          · intro _ j t hj hjt
            have h2 : (scanThreads uptime (p.threads.drop (k + 1))).2 =
                Option.none := by rw [hsc]
            have hmem : t ∈ p.threads.drop (k + 1) := by
              have hget : (p.threads.drop (k + 1))[j - (k + 1)]? = some t := by
                rw [List.getElem?_drop]
                have hje : k + 1 + (j - (k + 1)) = j := by omega
                rw [hje]
                exact hjt
              exact List.getElem?_mem hget
            exact (scanThreads_none uptime _).mp h2 t hmem
          · intro idx hc
            exact absurd hc (by simp)
        · simp only [hsc] at h
          have hr : r = NextThread.found (k + 1 + off) :=
            (congrArg (fun t => t.1) (Option.some.inj h)).symm
          subst hr
          refine ⟨fun hall => absurd hall hdead, fun hc => absurd hc (by simp),
            ?_⟩
          intro idx hc
          obtain rfl : idx = k + 1 + off := by
            have hinj := NextThread.found.inj hc
            omega
          have h2 : (scanThreads uptime (p.threads.drop (k + 1))).2 =
              some off := by rw [hsc]
          obtain ⟨t, h1, h3⟩ := scanThreads_found uptime _ off h2
          rw [List.getElem?_drop] at h1
          exact ⟨by omega, t, h1, h3⟩
      · rw [if_neg hkl] at h
        exact absurd h (by simp)

def c6W : Process :=
  { pid := 3
    status := TaskStatus.running
    threads :=
      [ ⟨10, 1, ThreadStatus.ready, Option.none⟩
      , ⟨20, 2, ThreadStatus.running, Option.none⟩
      , ⟨30, 3, ThreadStatus.sleep 8, Option.none⟩ ]
    active := some 1 }

theorem thread_scan_amended_witness :
    ((∀ t ∈ c6W.threads, t.status = ThreadStatus.dead) →
      NextThread.found 2 = NextThread.taskDead) ∧
    (NextThread.found 2 = NextThread.none → ∀ j t, 1 < j →
      c6W.threads[j]? = some t → ¬ readyAfterWake 9 t) ∧
    (∀ idx, NextThread.found 2 = NextThread.found idx → 1 < idx ∧
      ∃ t, c6W.threads[idx]? = some t ∧ readyAfterWake 9 t) :=
  thread_scan_amended c6W 9 1 (NextThread.found 2)
    { c6W with
        threads :=
          [ ⟨10, 1, ThreadStatus.ready, Option.none⟩
          , ⟨20, 2, ThreadStatus.running, Option.none⟩
          , ⟨30, 3, ThreadStatus.ready, Option.none⟩ ]
        active := some 1 }
    rfl rfl

/-- C6 counterexample: the main thread (list head) is Ready and is not the
active thread, yet the scan reports that no thread is ready, because it only
looks at the part of the list after the active thread. -/
theorem thread_scan_no_wrap :
    c6P.getNextThread 0 = some (NextThread.none, c6P) ∧
    c6P.threads[0]? = some ⟨100, 1, ThreadStatus.ready, Option.none⟩ ∧
    c6P.active = some 1 := ⟨rfl, rfl, rfl⟩

/-- C7 counterexample: at uptime 0, scheduling away from the idle process
hands the CPU to process 1's main thread — whose status is still
`Sleep(100)` — by returning its saved context (777). -/
theorem sleeping_main_resumed :
    c7Run = some (777, ThreadStatus.sleep 100) := rfl

theorem ready_of_sleep {uptime w : Nat} {t : Thread}
    (h : readyAfterWake uptime t) (hs : t.status = ThreadStatus.sleep w) :
    w ≤ uptime := by
  unfold readyAfterWake wakeStep at h
  simp only [hs] at h
  by_cases hw : uptime ≥ w
  · exact hw
  · rw [if_neg hw] at h
    rw [hs] at h
    exact absurd h (by simp)

/-- C7 amended: WITHIN a process, the sleep gate holds: whenever the thread
scan selects a thread, a sleeping thread is selected only if its wake time
has been reached (the violation of the original claim is in the
process-switch path, which resumes the next process's main thread context
unconditionally). -/
theorem sleep_gate_amended (p : Process) (uptime idx : Nat) (p2 : Process)
    (h : p.getNextThread uptime = some (NextThread.found idx, p2)) :
    ∀ t, p.threads[idx]? = some t → ∀ w, t.status = ThreadStatus.sleep w →
      w ≤ uptime := by
  intro t ht w hw
  unfold Process.getNextThread at h
  rcases hd : p.isDead with - | b
  · rw [hd] at h; exact absurd h (by simp)
  · simp only [hd] at h
    cases b with
    | true =>
      exact absurd (congrArg (fun t => t.1) (Option.some.inj h)) (by simp)
    | false =>
      rcases hk : p.active with - | k
      · simp only [hk] at h
        exact absurd h (by simp)
      · simp only [hk] at h
        by_cases hkl : k < p.threads.length
        · rw [if_pos hkl] at h
          rcases hsc : scanThreads uptime (p.threads.drop (k + 1))
            with ⟨suf2, - | off⟩
          · simp only [hsc] at h
            exact absurd (congrArg (fun t => t.1) (Option.some.inj h)) (by simp)
          · simp only [hsc] at h
            have hidx : k + 1 + off = idx := by
              have hco := congrArg (fun t => t.1) (Option.some.inj h)
              simpa using hco
            have h2 : (scanThreads uptime (p.threads.drop (k + 1))).2 =
                some off := by rw [hsc]
            obtain ⟨t2, h1, h3⟩ := scanThreads_found uptime _ off h2
            rw [List.getElem?_drop, hidx] at h1
            obtain rfl : t2 = t := by rw [h1] at ht; exact Option.some.inj ht
            exact ready_of_sleep h3 hw
        · rw [if_neg hkl] at h
          exact absurd h (by simp)

def c7W : Process :=
  { pid := 4
    status := TaskStatus.running
    threads :=
      [ ⟨10, 1, ThreadStatus.running, Option.none⟩
      , ⟨20, 2, ThreadStatus.sleep 3, Option.none⟩ ]
    active := some 0 }

theorem sleep_gate_amended_witness :
    c7W.threads[1]? = some ⟨20, 2, ThreadStatus.sleep 3, Option.none⟩ ∧
      (3 : Nat) ≤ 5 :=
  ⟨rfl,
    sleep_gate_amended c7W 5 1
      { c7W with
          threads :=
            [ ⟨10, 1, ThreadStatus.running, Option.none⟩
            , ⟨20, 2, ThreadStatus.ready, Option.none⟩ ]
          active := some 0 }
      rfl ⟨20, 2, ThreadStatus.sleep 3, Option.none⟩ rfl 3 rfl⟩

/-! ### kill_active -/

theorem find_updateProcess (pid : Nat) (f : Process → Process)
    (hf : ∀ q, (f q).pid = q.pid) :
    ∀ ps : List Process, findProcess (updateProcess ps pid f) pid =
      (findProcess ps pid).map f := by
  intro ps
  induction ps with
  | nil => rfl
  | cons p rest ih =>
    simp only [updateProcess, List.map_cons, findProcess]
    by_cases hp : p.pid = pid
    · rw [if_pos hp]
      simp only [findProcess, hf p, hp, if_pos rfl]
      rfl
    · rw [if_neg hp]
      simp only [findProcess, if_neg hp]
      exact ih

theorem modifyAt_getElem_self (f : Thread → Thread) :
    ∀ (l : List Thread) (k : Nat), (modifyAt l k f)[k]? = (l[k]?).map f := by
  intro l
  induction l with
  | nil => intro k; cases k <;> simp [modifyAt]
  | cons t rest ih =>
    intro k
    cases k with
    | zero => simp [modifyAt]
    | succ k2 => simpa [modifyAt] using ih k2

theorem canDie_false_iff (p : Process) (t : Thread) (js : List Nat)
    (hj : t.joins = some js) :
    canDie p t = false ↔ ∃ th ∈ p.threads, th.tid ≠ t.tid ∧
      th.status ≠ ThreadStatus.dead ∧ th.tid ∈ js := by
  simp only [canDie, hj, Bool.not_eq_false']
  rw [List.any_eq_true]
  constructor
  · rintro ⟨th, hmem, hcond⟩
    simp only [Bool.and_eq_true, decide_eq_true_eq] at hcond
    exact ⟨th, hmem, hcond.1.1, hcond.1.2, List.mem_of_elem_eq_true hcond.2⟩
  · rintro ⟨th, hmem, h1, h2, h3⟩
    refine ⟨th, hmem, ?_⟩
    simp only [Bool.and_eq_true, decide_eq_true_eq]
    exact ⟨⟨h1, h2⟩, List.elem_eq_true_of_mem h3⟩

/-- C8: one `kill_active` attempt marks the calling thread Dead exactly when
no other still-live thread of the owning process is named in the caller's
join set; if some joined thread is still alive, the attempt changes
nothing. -/
theorem kill_active_join_gate (s : Scheduler) (apid k : Nat) (p : Process)
    (t : Thread) (js : List Nat)
    (ha : s.active = some apid)
    (hp : findProcess s.processes apid = some p)
    (hk : p.active = some k)
    (ht : p.threads[k]? = some t)
    (hj : t.joins = some js) :
    ∃ s2, killActiveAttempt s = some s2 ∧
      ((∃ th ∈ p.threads, th.tid ≠ t.tid ∧ th.tid ∈ js ∧
          th.status ≠ ThreadStatus.dead) → s2 = s) ∧
      ((∀ th ∈ p.threads, th.tid ≠ t.tid → th.tid ∈ js →
          th.status = ThreadStatus.dead) →
        ∃ p2 t2, findProcess s2.processes apid = some p2 ∧
          p2.threads[k]? = some t2 ∧ t2.status = ThreadStatus.dead) := by
  unfold killActiveAttempt
  simp only [ha, hp, hk, ht]
  by_cases hcd : (canDie p t && decide (t.status ≠ ThreadStatus.dead)) = true
  · rw [if_pos hcd]
    refine ⟨_, rfl, ?_, ?_⟩
    · rintro ⟨th, hmem, h1, h2, h3⟩
      have hfalse : canDie p t = false :=
        (canDie_false_iff p t js hj).mpr ⟨th, hmem, h1, h3, h2⟩
      rw [hfalse] at hcd
      exact absurd hcd (by simp)
    · intro _
      refine ⟨{ p with threads := (modifyAt p.threads k (fun th =>
          { th with status := ThreadStatus.dead })) },
        { t with status := ThreadStatus.dead }, ?_, ?_, rfl⟩
      · have hfind := find_updateProcess apid
          (fun q => { q with threads := (modifyAt q.threads k (fun th =>
            { th with status := ThreadStatus.dead })) })
          (fun q => rfl) s.processes
        rw [hfind, hp]
        rfl
      · rw [modifyAt_getElem_self, ht]
        rfl
  · rw [if_neg hcd]
    refine ⟨s, rfl, fun _ => rfl, ?_⟩
    intro hall
    rw [Bool.and_eq_true] at hcd
    push_neg at hcd
    by_cases hcdb : canDie p t = true
    · have hdead : t.status = ThreadStatus.dead := by
        have := hcd hcdb
        simpa using this
      exact ⟨p, t, hp, ht, hdead⟩
    · have hfalse : canDie p t = false := by
        cases hcase : canDie p t
        · rfl
        · exact absurd hcase hcdb
      obtain ⟨th, hmem, h1, h2, h3⟩ := (canDie_false_iff p t js hj).mp hfalse
      exact absurd (hall th hmem h1 h3) h2

def c8S : Scheduler :=
  { processes :=
      [ { pid := 7
          status := TaskStatus.running
          threads :=
            [ ⟨10, 1, ThreadStatus.dead, Option.none⟩
            , ⟨20, 2, ThreadStatus.running, some [1]⟩ ]
          active := some 1 } ]
    active := some 7
    idCounter := 8 }

theorem kill_active_join_gate_witness :
    ∃ s2, killActiveAttempt c8S = some s2 ∧
      ((∃ th ∈ ([⟨10, 1, ThreadStatus.dead, Option.none⟩,
          ⟨20, 2, ThreadStatus.running, some [1]⟩] : List Thread),
          th.tid ≠ (⟨20, 2, ThreadStatus.running, some [1]⟩ : Thread).tid ∧
          th.tid ∈ [1] ∧ th.status ≠ ThreadStatus.dead) → s2 = c8S) ∧
      ((∀ th ∈ ([⟨10, 1, ThreadStatus.dead, Option.none⟩,
          ⟨20, 2, ThreadStatus.running, some [1]⟩] : List Thread),
          th.tid ≠ (⟨20, 2, ThreadStatus.running, some [1]⟩ : Thread).tid →
          th.tid ∈ [1] → th.status = ThreadStatus.dead) →
        ∃ p2 t2, findProcess s2.processes 7 = some p2 ∧
          p2.threads[1]? = some t2 ∧ t2.status = ThreadStatus.dead) :=
  kill_active_join_gate c8S 7 1
    { pid := 7
      status := TaskStatus.running
      threads :=
        [ ⟨10, 1, ThreadStatus.dead, Option.none⟩
        , ⟨20, 2, ThreadStatus.running, some [1]⟩ ]
      active := some 1 }
    ⟨20, 2, ThreadStatus.running, some [1]⟩ [1] rfl rfl rfl rfl rfl

end ChickenOS
